import Mathlib

/-!
# OBB archive reader (`obb_archive.h`, `obb_archive.cpp`)

A shallow embedding of `Arieo::OBBArchive`: the container file is a list of bytes, the
`std::ifstream` member is a record with an explicit position and an explicit `failbit`,
the two `std::unordered_map` members are association lists (the cache keyed by paths, the
entry table by strings), and every member function is a pure function from the state
before the call to the result and the state after it.

What the C++ leaves to its environment (the contents of uninitialised storage, the zlib
library, the allocator, which paths are equal) is collected in `Env`; theorems quantify
over it.
-/

namespace Arieo

/-! ## Bytes and little-endian fields -/

/-- One `uint8_t`. -/
abbrev Byte := Fin 256

/-- The byte with value `n % 256`. -/
def byte (n : Nat) : Byte := ⟨n % 256, Nat.mod_lt n (by decide)⟩

/-- A list of bytes written as numerals. -/
def bytesOf (l : List Nat) : List Byte := l.map byte

/-- The byte at index `i` of a memory block (`0` where the model has no byte). -/
def byteAt (m : List Byte) (i : Nat) : Nat := (m.getD i 0).val

/-- The value `*reinterpret_cast<const uint16_t*>(&m[i])` on a little-endian host, and equally a
`uint16_t` field at byte offset `i` of a `#pragma pack(1)` struct. -/
def readU16 (m : List Byte) (i : Nat) : Nat :=
  byteAt m i + 256 * byteAt m (i + 1)

/-- The value `*reinterpret_cast<const uint32_t*>(&m[i])` on a little-endian host. -/
def readU32 (m : List Byte) (i : Nat) : Nat :=
  byteAt m i + 256 * byteAt m (i + 1) + 65536 * byteAt m (i + 2) + 16777216 * byteAt m (i + 3)

/-- Storing `src` at the start of the block `dest`; the bytes of `dest` behind it stay. -/
def overwrite (dest src : List Byte) : List Byte :=
  src ++ dest.drop src.length

/-- The conversion `static_cast<size_t>(x)` of a `std::streamsize` (64 bit, signed) to
`size_t` (64 bit): a negative value wraps, any other value is kept. -/
def toSizeT (x : Int) : Nat := if x < 0 then (x + 2 ^ 64).toNat else x.toNat

/-- Conversion of an unsigned value to `int` (32 bit, two's complement). -/
def toInt32 (x : Nat) : Int :=
  if x % 2 ^ 32 < 2 ^ 31 then ((x % 2 ^ 32 : Nat) : Int) else ((x % 2 ^ 32 : Nat) : Int) - 2 ^ 32

/-- Subtraction of two `size_t` values. -/
def subSizeT (x y : Nat) : Nat := (x + (2 ^ 64 - y % 2 ^ 64)) % 2 ^ 64

/-! ## `std::ifstream` -/

/-- The `std::ifstream m_obb_file`. `contents` is the file on disk, `pos` the get position.
`failbit` stands for `fail()`: a `read` that meets end of file sets `eofbit | failbit`, and
`seekg` clears `eofbit` only, so `failbit` alone decides what later calls do. `reads`
counts the calls of `read`. -/
structure IFStream where
  contents : List Byte
  is_open : Bool
  pos : Nat
  failbit : Bool
  reads : Nat
deriving DecidableEq, Repr

namespace IFStream

/-- A stream that was never opened. -/
def closed : IFStream :=
  { contents := [], is_open := false, pos := 0, failbit := false, reads := 0 }

/-- The call `open(path, std::ios::binary)`: `disk` is the file at `path`, `none` when it cannot be
opened, in which case `failbit` is set. -/
def open_ (s : IFStream) (disk : Option (List Byte)) : IFStream :=
  match disk with
  | some d => { s with contents := d, is_open := true, pos := 0 }
  | none => { s with failbit := true }

/-- The call `seekg(off, std::ios::beg)`; does nothing once `fail()`. Seeking behind the end of a
file is allowed, seeking before its start fails. -/
def seekg_beg (s : IFStream) (off : Int) : IFStream :=
  if s.failbit then s
  else if off < 0 then { s with failbit := true }
  else { s with pos := off.toNat }

/-- The call `seekg(off, std::ios::cur)`. -/
def seekg_cur (s : IFStream) (off : Int) : IFStream :=
  if s.failbit then s
  else if (s.pos : Int) + off < 0 then { s with failbit := true }
  else { s with pos := ((s.pos : Int) + off).toNat }

/-- The call `seekg(off, std::ios::end)`. -/
def seekg_end (s : IFStream) (off : Int) : IFStream :=
  if s.failbit then s
  else if (s.contents.length : Int) + off < 0 then { s with failbit := true }
  else { s with pos := ((s.contents.length : Int) + off).toNat }

/-- The call `tellg()`: `-1` once `fail()`. -/
def tellg (s : IFStream) : Int :=
  if s.failbit then -1 else (s.pos : Int)

/-- The call `read(dest, n)`, where `dest` is what the destination block held before the call.
Once `fail()` nothing is read. Otherwise the bytes from `pos` up to `n` of them are stored
at the start of the block, and `failbit` is set when the file ends before `n` bytes. -/
def read (s : IFStream) (dest : List Byte) (n : Nat) : IFStream × List Byte :=
  if s.failbit then ({ s with reads := s.reads + 1 }, dest)
  else
    let got := (s.contents.drop s.pos).take n
    ({ s with pos := s.pos + got.length, failbit := decide (got.length < n),
              reads := s.reads + 1 },
     overwrite dest got)

end IFStream

/-! ## Headers and entries -/

/-- The packed 46-byte `struct ZipCentralDirectoryHeader`. -/
structure ZipCentralDirectoryHeader where
  signature : Nat
  version_made_by : Nat
  version_needed : Nat
  flags : Nat
  compression : Nat
  mod_time : Nat
  mod_date : Nat
  crc32 : Nat
  compressed_size : Nat
  uncompressed_size : Nat
  filename_length : Nat
  extra_length : Nat
  comment_length : Nat
  disk_number : Nat
  internal_attributes : Nat
  external_attributes : Nat
  local_header_offset : Nat
deriving DecidableEq, Repr

/-- The value of a `ZipCentralDirectoryHeader` object whose 46 bytes are `m`. -/
def ZipCentralDirectoryHeader.ofBytes (m : List Byte) : ZipCentralDirectoryHeader :=
  { signature := readU32 m 0
    version_made_by := readU16 m 4
    version_needed := readU16 m 6
    flags := readU16 m 8
    compression := readU16 m 10
    mod_time := readU16 m 12
    mod_date := readU16 m 14
    crc32 := readU32 m 16
    compressed_size := readU32 m 20
    uncompressed_size := readU32 m 24
    filename_length := readU16 m 28
    extra_length := readU16 m 30
    comment_length := readU16 m 32
    disk_number := readU16 m 34
    internal_attributes := readU16 m 36
    external_attributes := readU32 m 38
    local_header_offset := readU32 m 42 }

/-- The packed 30-byte `struct ZipLocalFileHeader`. -/
structure ZipLocalFileHeader where
  signature : Nat
  version : Nat
  flags : Nat
  compression : Nat
  mod_time : Nat
  mod_date : Nat
  crc32 : Nat
  compressed_size : Nat
  uncompressed_size : Nat
  filename_length : Nat
  extra_length : Nat
deriving DecidableEq, Repr

/-- The value of a `ZipLocalFileHeader` object whose 30 bytes are `m`. -/
def ZipLocalFileHeader.ofBytes (m : List Byte) : ZipLocalFileHeader :=
  { signature := readU32 m 0
    version := readU16 m 4
    flags := readU16 m 6
    compression := readU16 m 8
    mod_time := readU16 m 10
    mod_date := readU16 m 12
    crc32 := readU32 m 14
    compressed_size := readU32 m 18
    uncompressed_size := readU32 m 22
    filename_length := readU16 m 26
    extra_length := readU16 m 28 }

/-- The value of `sizeof(ZipCentralDirectoryHeader)`. -/
def sizeofZipCentralDirectoryHeader : Nat := 46

/-- The value of `sizeof(ZipLocalFileHeader)`. -/
def sizeofZipLocalFileHeader : Nat := 30

/-- The type `struct ZipFileEntry`. -/
structure ZipFileEntry where
  filename : List Byte
  compressed_size : Nat
  uncompressed_size : Nat
  crc32 : Nat
  compression_method : Nat
  file_data_offset : Nat
deriving DecidableEq, Repr

/-! ## Maps -/

/-- The member `find` of a `std::unordered_map`, kept as an association list with distinct keys. -/
def mapFind {κ ν : Type} [DecidableEq κ] : List (κ × ν) → κ → Option ν
  | [], _ => none
  | (k, v) :: rest, key => if k = key then some v else mapFind rest key

/-- The assignment `m[key] = value`: replaces the value of a key that is present, adds the
key otherwise. -/
def mapAssign {κ ν : Type} [DecidableEq κ] : List (κ × ν) → κ → ν → List (κ × ν)
  | [], key, value => [(key, value)]
  | (k, v) :: rest, key, value =>
    if k = key then (k, value) :: rest else (k, v) :: mapAssign rest key value

/-! ## The environment of the program -/

/-- A `std::filesystem::path`, given by its string: `relative_path.string()` is the path
itself. Two paths with different strings can be equal as paths, see `Env.path_key`. -/
abbrev Path := List Byte

/-- What a call of zlib's `inflate` leaves in the `z_stream`: the return code, the number
of input bytes consumed and the bytes stored at `next_out`. -/
structure InflateResult where
  ret : Int
  total_in : Nat
  output : List Byte
deriving DecidableEq, Repr

/-- zlib's `Z_OK`. -/
def Z_OK : Int := 0

/-- zlib's `Z_STREAM_END`. -/
def Z_STREAM_END : Int := 1

/-- What the source leaves to its environment.
* `stack_cd_header i k`, `stack_local_header i k`: byte `k` of the uninitialised local
  objects `header` and `local_header` in round `i` of the loop of `parseCentralDirectory`;
* `heap_byte a k`: byte `k` of the block with address `a` as `Base::Memory::malloc`
  returns it; `Base::Memory::malloc` is taken to return a fresh non-null block;
* `beyond_byte k`: the byte at index `k` behind the end of `compressed_data`;
* `inflateInit2 c`: the return code of the call of `inflateInit2` made for the block with
  address `c`;
* `inflate input avail_out`: zlib's `inflate(&strm, Z_FINISH)` on a raw deflate stream;
* `path_key p`: a representative of the paths that `operator==` of `std::filesystem::path`
  finds equal to `p`, so that two paths are equal, and are the same key of an
  `std::unordered_map` keyed by paths, exactly when their `path_key` is the same. -/
structure Env where
  stack_cd_header : Nat → Nat → Byte
  stack_local_header : Nat → Nat → Byte
  heap_byte : Nat → Nat → Byte
  beyond_byte : Nat → Byte
  inflateInit2 : Nat → Int
  inflate : List Byte → Nat → InflateResult
  path_key : Path → Path

/-- A block of `n` bytes whose byte `k` is `f k`. -/
def block (f : Nat → Byte) (n : Nat) : List Byte := (List.range n).map f

/-- The member `find` of a `std::unordered_map` keyed by `std::filesystem::path`: the pair
whose key is equal to `key` as a path. The pairs are kept in the order of insertion, each
under the path it was inserted with. -/
def cacheFind {ν : Type} (env : Env) : List (Path × ν) → Path → Option ν
  | [], _ => none
  | (k, v) :: rest, key =>
    if env.path_key k = env.path_key key then some v else cacheFind env rest key

/-- The member `emplace(key, value)` of such a map: adds the pair when no key is equal to
`key` as a path and changes nothing otherwise. -/
def cacheEmplace {ν : Type} (env : Env) (m : List (Path × ν)) (key : Path) (value : ν) :
    List (Path × ν) :=
  match cacheFind env m key with
  | some _ => m
  | none => m ++ [(key, value)]

/-! ## The archive -/

/-- A block handed out by `Base::Memory::malloc`: its address and its contents. -/
structure Buffer where
  addr : Nat
  data : List Byte
deriving DecidableEq, Repr

/-- The result `std::tuple<void*, size_t>`; `none` is `nullptr`. -/
abbrev FileBuffer := Option Buffer × Nat

/-- The members of `class OBBArchive`, together with the allocator's bookkeeping:
`heap_allocs` counts the calls of `Base::Memory::malloc` (the next block gets this number as
address) and `heap_freed` lists the addresses passed to `Base::Memory::free`. -/
structure OBBArchive where
  m_file_buffer_cache_map : List (Path × FileBuffer)
  m_zip_entries : List (List Byte × ZipFileEntry)
  m_obb_file : IFStream
  m_is_valid : Bool
  heap_allocs : Nat
  heap_freed : List Nat
deriving DecidableEq, Repr

/-- The member function `isValid()`. -/
def OBBArchive.isValid (a : OBBArchive) : Bool := a.m_is_valid

/-- The constant `EOCD_SIGNATURE`. -/
def EOCD_SIGNATURE : Nat := 0x06054b50

/-- The constant `EOCD_MIN_SIZE`. -/
def EOCD_MIN_SIZE : Nat := 22

/-- The signature a Central Directory record must carry. -/
def CD_SIGNATURE : Nat := 0x02014b50

/-- The body of the loop of `parseCentralDirectory` in round `i`: `false` when the body
returns `false` from the function, `true` when it reaches the end of the body. -/
def parseRound (env : Env) (i : Nat) (a : OBBArchive) : Bool × OBBArchive :=
  let r1 := a.m_obb_file.read (block (env.stack_cd_header i) sizeofZipCentralDirectoryHeader)
    sizeofZipCentralDirectoryHeader
  let header := ZipCentralDirectoryHeader.ofBytes r1.2
  if header.signature ≠ CD_SIGNATURE then
    (false, { a with m_obb_file := r1.1 })
  else
    let r2 := r1.1.read (List.replicate header.filename_length 0) header.filename_length
    let filename := r2.2
    let f3 := r2.1.seekg_cur ((header.extra_length + header.comment_length : Nat) : Int)
    let current_pos := f3.tellg
    let f4 := f3.seekg_beg (header.local_header_offset : Int)
    let r5 := f4.read (block (env.stack_local_header i) sizeofZipLocalFileHeader)
      sizeofZipLocalFileHeader
    let local_header := ZipLocalFileHeader.ofBytes r5.2
    let entry : ZipFileEntry :=
      { filename := filename
        compressed_size := header.compressed_size
        uncompressed_size := header.uncompressed_size
        crc32 := header.crc32
        compression_method := header.compression
        file_data_offset :=
          (header.local_header_offset + sizeofZipLocalFileHeader
            + local_header.filename_length + local_header.extra_length) % 2 ^ 32 }
    let f6 := r5.1.seekg_beg current_pos
    (true, { a with m_obb_file := f6, m_zip_entries := mapAssign a.m_zip_entries filename entry })

/-- The loop `for (uint16_t i = 0; i < total_entries; i++)` of `parseCentralDirectory`
with `n` rounds left and loop counter `i`. -/
def parseEntries (env : Env) : Nat → Nat → OBBArchive → Bool × OBBArchive
  | 0, _, a => (true, a)
  | n + 1, i, a =>
    match parseRound env i a with
    | (false, a1) => (false, a1)
    | (true, a1) => parseEntries env n (i + 1) a1

/-- The function `OBBArchive::parseCentralDirectory`. -/
def parseCentralDirectory (env : Env) (a : OBBArchive) (cd_offset cd_size total_entries : Nat) :
    Bool × OBBArchive :=
  let _ := cd_size
  parseEntries env total_entries 0
    { a with m_obb_file := a.m_obb_file.seekg_beg (cd_offset : Int) }

/-- The loop of `findCentralDirectory` from `i` downwards: the first `i` at which the
signature is found, `none` when the loop ends below `0`. -/
def scanEOCD (buffer : List Byte) : Nat → Option Nat
  | 0 => if readU32 buffer 0 = EOCD_SIGNATURE then some 0 else none
  | i + 1 => if readU32 buffer (i + 1) = EOCD_SIGNATURE then some (i + 1) else scanEOCD buffer i

/-- The constant `SEARCH_BUFFER_SIZE` for a file of `file_size` bytes. -/
def searchBufferSize (file_size : Int) : Nat := min (toSizeT file_size) 65557

/-- The start value `int i = SEARCH_BUFFER_SIZE - EOCD_MIN_SIZE`. -/
def scanStart (search_buffer_size : Nat) : Int :=
  toInt32 (subSizeT search_buffer_size EOCD_MIN_SIZE)

/-- The function `OBBArchive::findCentralDirectory`. -/
def findCentralDirectory (env : Env) (a : OBBArchive) : Bool × OBBArchive :=
  let f1 := a.m_obb_file.seekg_end 0
  let file_size := f1.tellg
  let SEARCH_BUFFER_SIZE := searchBufferSize file_size
  let f2 := f1.seekg_end (-(SEARCH_BUFFER_SIZE : Int))
  let r3 := f2.read (List.replicate SEARCH_BUFFER_SIZE 0) SEARCH_BUFFER_SIZE
  let buffer := r3.2
  let a3 := { a with m_obb_file := r3.1 }
  let start := scanStart SEARCH_BUFFER_SIZE
  if start < 0 then (false, a3)
  else
    match scanEOCD buffer start.toNat with
    | some i =>
      let total_entries := readU16 buffer (i + 10)
      let cd_size := readU32 buffer (i + 12)
      let cd_offset := readU32 buffer (i + 16)
      parseCentralDirectory env a3 cd_offset cd_size total_entries
    | none => (false, a3)

/-- The function `OBBArchive::parseOBBFile`; `disk` is what is stored under `m_obb_file_path`. -/
def parseOBBFile (env : Env) (disk : Option (List Byte)) (a : OBBArchive) : OBBArchive :=
  let a1 := { a with m_obb_file := a.m_obb_file.open_ disk }
  if !a1.m_obb_file.is_open then a1
  else
    let r := findCentralDirectory env a1
    if !r.1 then r.2
    else { r.2 with m_is_valid := true }

/-- The archive object before `parseOBBFile` runs: what the constructor's initialiser
list leaves, with an empty cache, an empty entry table and a closed stream. -/
def OBBArchive.initial : OBBArchive :=
  { m_file_buffer_cache_map := []
    m_zip_entries := []
    m_obb_file := IFStream.closed
    m_is_valid := false
    heap_allocs := 0
    heap_freed := [] }

/-- The constructor `OBBArchive(obb_file_path)`. -/
def OBBArchive.new (env : Env) (disk : Option (List Byte)) : OBBArchive :=
  parseOBBFile env disk OBBArchive.initial

/-- The part of `getFileBuffer` that follows the lookup of `entry` in the table: the
payload is read, decoded by the entry's method, and the buffer is cached. -/
def fetchEntry (env : Env) (a : OBBArchive) (relative_path : Path) (entry : ZipFileEntry) :
    FileBuffer × OBBArchive :=
  let f1 := a.m_obb_file.seekg_beg (entry.file_data_offset : Int)
  let r2 := f1.read (List.replicate entry.compressed_size 0) entry.compressed_size
  let compressed_data := r2.2
  let a2 := { a with m_obb_file := r2.1 }
  if entry.compression_method = 0 then
    let buffer_size := entry.uncompressed_size
    let buffer : Buffer :=
      { addr := a2.heap_allocs
        data := block
          (fun k => compressed_data.getD k (env.beyond_byte (k - compressed_data.length)))
          buffer_size }
    ((some buffer, buffer_size),
     { a2 with
       heap_allocs := a2.heap_allocs + 1
       m_file_buffer_cache_map :=
         cacheEmplace env a2.m_file_buffer_cache_map relative_path (some buffer, buffer_size) })
  else if entry.compression_method = 8 then
    let buffer_size := entry.uncompressed_size
    let addr := a2.heap_allocs
    let a3 := { a2 with heap_allocs := a2.heap_allocs + 1 }
    if env.inflateInit2 addr ≠ Z_OK then
      ((none, 0), { a3 with heap_freed := addr :: a3.heap_freed })
    else
      let res := env.inflate compressed_data buffer_size
      if res.ret ≠ Z_STREAM_END then
        ((none, 0), { a3 with heap_freed := addr :: a3.heap_freed })
      else
        let buffer : Buffer :=
          { addr := addr
            data := (overwrite (block (env.heap_byte addr) buffer_size) res.output).take
              buffer_size }
        ((some buffer, buffer_size),
         { a3 with
           m_file_buffer_cache_map :=
             cacheEmplace env a3.m_file_buffer_cache_map relative_path
               (some buffer, buffer_size) })
  else ((none, 0), a2)

/-- The function `OBBArchive::getFileBuffer`. -/
def getFileBuffer (env : Env) (a : OBBArchive) (relative_path : Path) : FileBuffer × OBBArchive :=
  match cacheFind env a.m_file_buffer_cache_map relative_path with
  | some cached => (cached, a)
  | none =>
    if !a.m_is_valid then ((none, 0), a)
    else
      let path_str := relative_path
      match mapFind a.m_zip_entries path_str with
      | none => ((none, 0), a)
      | some entry => fetchEntry env a relative_path entry

/-- The function `OBBArchive::clearCache`. The loop passes the buffers to
`Base::Memory::free` in the iteration order of the `std::unordered_map`, which is not
specified; here it is the order of the list. -/
def clearCache (a : OBBArchive) : OBBArchive :=
  { a with
    heap_freed := (a.m_file_buffer_cache_map.filterMap (fun kv => kv.2.1.map Buffer.addr)).reverse
      ++ a.heap_freed
    m_file_buffer_cache_map := [] }

/-- The function `OBBArchiveManager::createArchive`: `none` is the null handle. -/
def createArchive (env : Env) (disk : Option (List Byte)) : Option OBBArchive :=
  let created_archive := OBBArchive.new env disk
  if created_archive.isValid = false then none else some created_archive

/-! ## Notions used in the statements -/

/-- The window `findCentralDirectory` searches: the last `min(file_size, 65557)` bytes. -/
def tailWindow (d : List Byte) : List Byte := d.drop (d.length - min d.length 65557)

/-- The archive when `findCentralDirectory` has read the search window. -/
def afterWindowRead (a : OBBArchive) : OBBArchive :=
  { a with m_obb_file :=
      { a.m_obb_file with pos := a.m_obb_file.contents.length, reads := a.m_obb_file.reads + 1 } }

/-- The archive in `parseOBBFile` after `open` succeeded on a file with bytes `d`. -/
def OBBArchive.opened (d : List Byte) : OBBArchive :=
  { OBBArchive.initial with m_obb_file := IFStream.closed.open_ (some d) }

/-- The archive when the loop of `parseCentralDirectory` starts: the file `d` is open, the
search window has been read and the stream stands at `cd_offset`. -/
def atCentralDirectory (d : List Byte) (cd_offset : Nat) : OBBArchive :=
  { OBBArchive.initial with
    m_obb_file := { contents := d, is_open := true, pos := cd_offset, failbit := false, reads := 1 } }

/-- Offset `i` of the tail window holds the End-Of-Central-Directory record that
`findCentralDirectory` accepts: `i + 22 <= W`, the four bytes at `i` are the signature, and
no larger offset `j` with `j + 22 <= W` carries the signature. -/
def EocdAt (d : List Byte) (i : Nat) : Prop :=
  i + 22 ≤ min d.length 65557 ∧ readU32 (tailWindow d) i = EOCD_SIGNATURE ∧
    ∀ j, j < min d.length 65557 → i < j → j + 22 ≤ min d.length 65557 →
      readU32 (tailWindow d) j ≠ EOCD_SIGNATURE

instance (d : List Byte) (i : Nat) : Decidable (EocdAt d i) := by
  unfold EocdAt
  exact inferInstance

/-- The entry count (u16 at offset 10) of the End-Of-Central-Directory record at `i`. -/
def eocdTotalEntries (d : List Byte) (i : Nat) : Nat := readU16 (tailWindow d) (i + 10)

/-- The Central Directory size (u32 at offset 12) of the record at `i`. -/
def eocdCdSize (d : List Byte) (i : Nat) : Nat := readU32 (tailWindow d) (i + 12)

/-- The Central Directory offset (u32 at offset 16) of the record at `i`. -/
def eocdCdOffset (d : List Byte) (i : Nat) : Nat := readU32 (tailWindow d) (i + 16)

/-- The `filename_length` field (u16 at offset 28) of the Central Directory record that
starts at offset `s` of the file `d`. -/
def cdFilenameLength (d : List Byte) (s : Nat) : Nat := readU16 d (s + 28)

/-- The `extra_length` field (u16 at offset 30) of the record at `s`. -/
def cdExtraLength (d : List Byte) (s : Nat) : Nat := readU16 d (s + 30)

/-- The `comment_length` field (u16 at offset 32) of the record at `s`. -/
def cdCommentLength (d : List Byte) (s : Nat) : Nat := readU16 d (s + 32)

/-- The `local_header_offset` field (u32 at offset 42) of the record at `s`. -/
def cdLocalHeaderOffset (d : List Byte) (s : Nat) : Nat := readU32 d (s + 42)

/-- The filename of the record at `s`: the `filename_length` bytes at `s + 46`. -/
def cdFilename (d : List Byte) (s : Nat) : List Byte :=
  (d.drop (s + 46)).take (cdFilenameLength d s)

/-- Where the record after the one at `s` starts. -/
def cdNext (d : List Byte) (s : Nat) : Nat :=
  s + 46 + cdFilenameLength d s + cdExtraLength d s + cdCommentLength d s

/-- Where record `k` of the Central Directory at `cd_offset` starts. -/
def cdRecordStart (d : List Byte) (cd_offset : Nat) : Nat → Nat
  | 0 => cd_offset
  | k + 1 => cdNext d (cdRecordStart d cd_offset k)

/-- The entry described by the record at `s`, read from the file at the fixed offsets of
the two headers. -/
def cdEntry (d : List Byte) (s : Nat) : ZipFileEntry :=
  { filename := cdFilename d s
    compressed_size := readU32 d (s + 20)
    uncompressed_size := readU32 d (s + 24)
    crc32 := readU32 d (s + 16)
    compression_method := readU16 d (s + 10)
    file_data_offset :=
      (cdLocalHeaderOffset d s + 30 + readU16 d (cdLocalHeaderOffset d s + 26)
        + readU16 d (cdLocalHeaderOffset d s + 28)) % 2 ^ 32 }

/-- The record at `s` carries the Central Directory signature and can be read completely:
its 46-byte header and its filename end inside the file, and so does the 30-byte Local File
header it points to. -/
def RecordReadable (d : List Byte) (s : Nat) : Prop :=
  readU32 d s = CD_SIGNATURE ∧ s + 46 + cdFilenameLength d s ≤ d.length ∧
    cdLocalHeaderOffset d s + 30 ≤ d.length

instance (d : List Byte) (s : Nat) : Decidable (RecordReadable d s) := by
  unfold RecordReadable
  exact inferInstance

/-- The table `parseCentralDirectory` has after the records `0 .. k-1`, starting from
the table `m`. -/
def cdTable (d : List Byte) (cd_offset : Nat) (m : List (List Byte × ZipFileEntry)) :
    Nat → List (List Byte × ZipFileEntry)
  | 0 => m
  | k + 1 =>
    mapAssign (cdTable d cd_offset m k) (cdFilename d (cdRecordStart d cd_offset k))
      (cdEntry d (cdRecordStart d cd_offset k))

/-- What `parseCentralDirectory` and `findCentralDirectory` leave untouched. -/
def ParseFrame (a b : OBBArchive) : Prop :=
  b.m_file_buffer_cache_map = a.m_file_buffer_cache_map ∧ b.m_is_valid = a.m_is_valid ∧
    b.heap_allocs = a.heap_allocs ∧ b.heap_freed = a.heap_freed

/-- The Local File header signature `0x04034b50` that the specification speaks of; the
source holds no such constant. -/
def LOCAL_SIGNATURE : Nat := 0x04034b50

/-- The `compressed_data` vector that `getFileBuffer` fills for `entry` and hands to the
decoder: `compressed_size` zero bytes overwritten by what `read` delivers. -/
def payloadRead (a : OBBArchive) (entry : ZipFileEntry) : List Byte :=
  ((a.m_obb_file.seekg_beg (entry.file_data_offset : Int)).read
    (List.replicate entry.compressed_size 0) entry.compressed_size).2

/-- The archive states a caller can reach: the constructed archive, and what calls of
`getFileBuffer` and `clearCache` make of a state reached before. -/
inductive Reachable (env : Env) (disk : Option (List Byte)) : OBBArchive → Prop
  | constructed : Reachable env disk (OBBArchive.new env disk)
  | fetched (a : OBBArchive) (path : Path) :
      Reachable env disk a → Reachable env disk (getFileBuffer env a path).2
  | cleared (a : OBBArchive) : Reachable env disk a → Reachable env disk (clearCache a)

/-- Every key of the cache is a key of the entry table, of an entry with method 0 or 8,
and is mapped to a non-null buffer of that entry's `uncompressed_size`. -/
def CacheSound (a : OBBArchive) : Prop :=
  ∀ (path : Path) (v : FileBuffer), (path, v) ∈ a.m_file_buffer_cache_map →
    ∃ (entry : ZipFileEntry) (buf : Buffer),
      mapFind a.m_zip_entries path = some entry ∧
      (entry.compression_method = 0 ∨ entry.compression_method = 8) ∧
      v = (some buf, entry.uncompressed_size) ∧ buf.data.length = entry.uncompressed_size

/-- One bit of the CRC-32 of the ZIP format (reflected polynomial `0xEDB88320`). -/
def crc32Shift (c : Nat) : Nat :=
  if c % 2 = 1 then (c / 2) ^^^ 0xEDB88320 else c / 2

/-- One byte of the CRC-32. -/
def crc32Update (c : Nat) (b : Byte) : Nat :=
  crc32Shift (crc32Shift (crc32Shift (crc32Shift (crc32Shift (crc32Shift (crc32Shift
    (crc32Shift (c ^^^ b.val))))))))

/-- The CRC-32 checksum that a ZIP container records for the content of an entry. The
source stores the recorded value in `ZipFileEntry.crc32` and never computes a checksum. -/
def crc32 (data : List Byte) : Nat :=
  (data.foldl crc32Update 0xFFFFFFFF) ^^^ 0xFFFFFFFF

/-- The entry `e` of the container `d` holds `content`: the recorded uncompressed size and
CRC-32 are those of `content`, the payload range lies inside the file, and the payload is
`content` itself (method 0, with equal sizes) or a raw deflate stream that the inflater
decodes completely to `content` (method 8). -/
def EntryHolds (env : Env) (d : List Byte) (e : ZipFileEntry) (content : List Byte) : Prop :=
  content.length = e.uncompressed_size ∧ crc32 content = e.crc32 ∧
  e.file_data_offset + e.compressed_size ≤ d.length ∧
  ((e.compression_method = 0 ∧ e.compressed_size = e.uncompressed_size ∧
      (d.drop e.file_data_offset).take e.compressed_size = content) ∨
   (e.compression_method = 8 ∧
      env.inflate ((d.drop e.file_data_offset).take e.compressed_size) e.uncompressed_size =
        { ret := Z_STREAM_END, total_in := e.compressed_size, output := content }))

instance (env : Env) (d : List Byte) (e : ZipFileEntry) (content : List Byte) :
    Decidable (EntryHolds env d e content) := by
  unfold EntryHolds
  exact inferInstance

/-- A well-formed container: the End-Of-Central-Directory record is at `i`, the first
`total_entries` Central Directory records can be read, each of their entries holds some
content, and two of their filenames that are equal as paths are equal as strings. -/
def WellFormed (env : Env) (d : List Byte) (i : Nat) : Prop :=
  EocdAt d i ∧
  (∀ j, j < eocdTotalEntries d i →
    RecordReadable d (cdRecordStart d (eocdCdOffset d i) j) ∧
    ∃ content, EntryHolds env d (cdEntry d (cdRecordStart d (eocdCdOffset d i) j)) content) ∧
  ∀ j k, j < eocdTotalEntries d i → k < eocdTotalEntries d i →
    env.path_key (cdFilename d (cdRecordStart d (eocdCdOffset d i) j))
      = env.path_key (cdFilename d (cdRecordStart d (eocdCdOffset d i) k)) →
    cdFilename d (cdRecordStart d (eocdCdOffset d i) j)
      = cdFilename d (cdRecordStart d (eocdCdOffset d i) k)

/-- The state of an archive on a well-formed container between calls: valid, the stream
not failed, the table as parsed, and every cached buffer the content of its entry. -/
def RoundTripInv (env : Env) (d : List Byte) (i : Nat) (a : OBBArchive) : Prop :=
  a.m_is_valid = true ∧ a.m_obb_file.failbit = false ∧ a.m_obb_file.contents = d ∧
  a.m_zip_entries = cdTable d (eocdCdOffset d i) [] (eocdTotalEntries d i) ∧
  ∀ (p : Path) (v : FileBuffer), (p, v) ∈ a.m_file_buffer_cache_map →
    ∃ (e : ZipFileEntry) (content : List Byte) (addr : Nat),
      mapFind a.m_zip_entries p = some e ∧ EntryHolds env d e content ∧
      v = (some ⟨addr, content⟩, e.uncompressed_size)

/-! ## A model of zlib's raw inflate

zlib is not part of the repository. `zlibInflate` follows RFC 1951 and the return codes of
`inflate(&strm, Z_FINISH)`; it provides an `Env` on which the concrete scenario can be
evaluated. -/

/-- zlib's `Z_DATA_ERROR`. -/
def Z_DATA_ERROR : Int := -3

/-- zlib's `Z_BUF_ERROR`. -/
def Z_BUF_ERROR : Int := -5

/-- The state of the decoder: the bits not yet consumed (least significant bit of each
byte first), the number of bits consumed, and the output written so far. -/
structure InflateState where
  bits : List Bool
  used : Nat
  out : List Byte
deriving Repr

/-- The decoder's monad: an error carries the zlib return code and the state reached. -/
abbrev InflateM := Except (Int × InflateState)

/-- The eight bits of a byte, least significant first. -/
def bitsOfByte (b : Byte) : List Bool :=
  (List.range 8).map fun k => decide (b.val / 2 ^ k % 2 = 1)

/-- The bit stream of the input. -/
def bitsOfBytes : List Byte → List Bool
  | [] => []
  | b :: rest => bitsOfByte b ++ bitsOfBytes rest

/-- The next `n` bits as a number, least significant bit first; `Z_BUF_ERROR` when the
input ends. -/
def takeBits : Nat → InflateState → InflateM (Nat × InflateState)
  | 0, st => pure (0, st)
  | n + 1, st =>
    match st.bits with
    | [] => throw (Z_BUF_ERROR, st)
    | b :: rest => do
      let r ← takeBits n { st with bits := rest, used := st.used + 1 }
      pure ((if b then 1 else 0) + 2 * r.1, r.2)

/-- The symbols that a code with the lengths `lens` encodes with `l` bits, in order. -/
def symbolsOfLength (lens : List Nat) (l : Nat) : List Nat :=
  (List.range lens.length).filter fun i => lens.getD i 0 = l

/-- Decoding one symbol of the canonical Huffman code with lengths `lens`, bit by bit:
`len` is the length tried, `code` the bits read so far and `first` the first code of
length `len`. -/
def decodeSymbol (lens : List Nat) : Nat → Nat → Nat → Nat → InflateState →
    InflateM (Nat × InflateState)
  | 0, _, _, _, st => throw (Z_DATA_ERROR, st)
  | fuel + 1, len, code, first, st =>
    match st.bits with
    | [] => throw (Z_BUF_ERROR, st)
    | b :: rest =>
      let st1 := { st with bits := rest, used := st.used + 1 }
      let code1 := code + (if b then 1 else 0)
      let syms := symbolsOfLength lens len
      if code1 < first + syms.length then pure (syms.getD (code1 - first) 0, st1)
      else decodeSymbol lens fuel (len + 1) (2 * code1) (2 * (first + syms.length)) st1

/-- Appending one output byte; `Z_BUF_ERROR` when the output buffer is full. -/
def putByte (avail_out : Nat) (b : Byte) (st : InflateState) : InflateM InflateState :=
  if st.out.length < avail_out then pure { st with out := st.out ++ [b] }
  else throw (Z_BUF_ERROR, st)

/-- Copying `n` bytes from `dist` bytes back in the output. -/
def copyBack (avail_out dist : Nat) : Nat → InflateState → InflateM InflateState
  | 0, st => pure st
  | n + 1, st => do
    let st1 ← putByte avail_out (st.out.getD (st.out.length - dist) 0) st
    copyBack avail_out dist n st1

/-- The number of extra bits of length code `257 + k`, for `k < 29`. -/
def lengthExtra (k : Nat) : Nat :=
  if k < 8 ∨ k = 28 then 0 else k / 4 - 1

/-- The smallest match length of length code `257 + k`, for `k < 29`. -/
def lengthBase (k : Nat) : Nat :=
  if k < 8 then 3 + k else if k = 28 then 258 else 3 + (4 + k % 4) * 2 ^ (k / 4 - 1)

/-- The number of extra bits of distance code `k`, for `k < 30`. -/
def distExtra (k : Nat) : Nat :=
  if k < 2 then 0 else k / 2 - 1

/-- The smallest distance of distance code `k`, for `k < 30`. -/
def distBase (k : Nat) : Nat :=
  if k < 2 then 1 + k else 1 + (2 + k % 2) * 2 ^ (k / 2 - 1)

/-- The literals, lengths and distances of one compressed block, up to its end-of-block
symbol. -/
def inflateCodes (avail_out : Nat) (litlen dist : List Nat) : Nat → InflateState →
    InflateM InflateState
  | 0, st => throw (Z_DATA_ERROR, st)
  | fuel + 1, st => do
    let r ← decodeSymbol litlen 15 1 0 0 st
    if r.1 < 256 then
      let st1 ← putByte avail_out (byte r.1) r.2
      inflateCodes avail_out litlen dist fuel st1
    else if r.1 = 256 then pure r.2
    else if 29 ≤ r.1 - 257 then throw (Z_DATA_ERROR, r.2)
    else do
      let e ← takeBits (lengthExtra (r.1 - 257)) r.2
      let len := lengthBase (r.1 - 257) + e.1
      let d ← decodeSymbol dist 15 1 0 0 e.2
      if 30 ≤ d.1 then throw (Z_DATA_ERROR, d.2)
      else do
        let x ← takeBits (distExtra d.1) d.2
        let back := distBase d.1 + x.1
        if x.2.out.length < back then throw (Z_DATA_ERROR, x.2)
        else do
          let st1 ← copyBack avail_out back len x.2
          inflateCodes avail_out litlen dist fuel st1

/-- The code lengths of the fixed literal/length code. -/
def fixedLitLen : List Nat :=
  List.replicate 144 8 ++ List.replicate 112 9 ++ List.replicate 24 7 ++ List.replicate 8 8

/-- The code lengths of the fixed distance code. -/
def fixedDist : List Nat := List.replicate 30 5

/-- A stored block: the rest of the current byte is skipped, `LEN` and its complement
follow, then `LEN` bytes. -/
def inflateStored (avail_out : Nat) (st : InflateState) : InflateM InflateState := do
  let skip := (8 - st.used % 8) % 8
  let st0 := { st with bits := st.bits.drop skip, used := st.used + skip }
  let l ← takeBits 16 st0
  let n ← takeBits 16 l.2
  if l.1 + n.1 ≠ 65535 then throw (Z_DATA_ERROR, n.2)
  else copyStored l.1 n.2
where
  /-- The `n` bytes of a stored block. -/
  copyStored : Nat → InflateState → InflateM InflateState
    | 0, st => pure st
    | n + 1, st => do
      let b ← takeBits 8 st
      let st1 ← putByte avail_out (byte b.1) b.2
      copyStored n st1

/-- What is left of the code space after the lengths `1..15` of `lens`: `none` when the
code is over-subscribed, `some 0` when it is complete. -/
def codeSpace (lens : List Nat) : Nat → Nat → Option Nat
  | 0, left => some left
  | k + 1, left =>
    let l := 15 - k
    let count := (symbolsOfLength lens l).length
    if 2 * left < count then none else codeSpace lens k (2 * left - count)

/-- zlib accepts a set of code lengths when it is complete, or when it is incomplete, is
not the code-length code, and has at most one-bit codes. -/
def acceptsCode (lens : List Nat) (isCodeLengthCode : Bool) : Bool :=
  match codeSpace lens 15 1 with
  | none => false
  | some 0 => true
  | some _ =>
      !isCodeLengthCode && (List.range 14).all fun k => (symbolsOfLength lens (k + 2)).length = 0

/-- The order in which the lengths of the code-length code are stored. -/
def codeLengthOrder : List Nat :=
  [16, 17, 18, 0] ++ ((List.range 7).map fun j => [8 + j, 7 - j]).flatten ++ [15]

/-- The lengths of the code-length code: `n` values of 3 bits, stored in
`codeLengthOrder`. -/
def readCodeLengthCode : Nat → Nat → List Nat → InflateState → InflateM (List Nat × InflateState)
  | 0, _, lens, st => pure (lens, st)
  | n + 1, k, lens, st => do
    let r ← takeBits 3 st
    readCodeLengthCode n (k + 1) (lens.set (codeLengthOrder.getD k 0) r.1) r.2

/-- The `total` code lengths of a dynamic block, run-length coded with the code-length
code `cl`. -/
def readLengths (cl : List Nat) (total : Nat) : Nat → List Nat → InflateState →
    InflateM (List Nat × InflateState)
  | 0, _, st => throw (Z_DATA_ERROR, st)
  | fuel + 1, lens, st =>
    if total ≤ lens.length then pure (lens, st)
    else do
      let r ← decodeSymbol cl 15 1 0 0 st
      if r.1 < 16 then readLengths cl total fuel (lens ++ [r.1]) r.2
      else if r.1 = 16 then
        match lens.getLast? with
        | none => throw (Z_DATA_ERROR, r.2)
        | some prev => do
          let x ← takeBits 2 r.2
          if total < lens.length + (3 + x.1) then throw (Z_DATA_ERROR, x.2)
          else readLengths cl total fuel (lens ++ List.replicate (3 + x.1) prev) x.2
      else if r.1 = 17 then do
        let x ← takeBits 3 r.2
        if total < lens.length + (3 + x.1) then throw (Z_DATA_ERROR, x.2)
        else readLengths cl total fuel (lens ++ List.replicate (3 + x.1) 0) x.2
      else do
        let x ← takeBits 7 r.2
        if total < lens.length + (11 + x.1) then throw (Z_DATA_ERROR, x.2)
        else readLengths cl total fuel (lens ++ List.replicate (11 + x.1) 0) x.2

/-- A block with dynamic Huffman codes. -/
def inflateDynamic (avail_out : Nat) (st : InflateState) : InflateM InflateState := do
  let hlit ← takeBits 5 st
  let hdist ← takeBits 5 hlit.2
  let hclen ← takeBits 4 hdist.2
  let nlen := hlit.1 + 257
  let ndist := hdist.1 + 1
  if 286 < nlen ∨ 30 < ndist then throw (Z_DATA_ERROR, hclen.2)
  else do
    let cl ← readCodeLengthCode (hclen.1 + 4) 0 (List.replicate 19 0) hclen.2
    if !acceptsCode cl.1 true then throw (Z_DATA_ERROR, cl.2)
    else do
      let r ← readLengths cl.1 (nlen + ndist) (nlen + ndist + 1) [] cl.2
      let litlen := r.1.take nlen
      let dist := r.1.drop nlen
      if litlen.getD 256 0 = 0 then throw (Z_DATA_ERROR, r.2)
      else if !acceptsCode litlen false || !acceptsCode dist false then
        throw (Z_DATA_ERROR, r.2)
      else inflateCodes avail_out litlen dist (r.2.bits.length + 1) r.2

/-- The blocks of a raw deflate stream, up to and including the final one. -/
def inflateBlocks (avail_out : Nat) : Nat → InflateState → InflateM InflateState
  | 0, st => throw (Z_DATA_ERROR, st)
  | fuel + 1, st => do
    let final ← takeBits 1 st
    let type ← takeBits 2 final.2
    let st1 ←
      if type.1 = 0 then inflateStored avail_out type.2
      else if type.1 = 1 then
        inflateCodes avail_out fixedLitLen fixedDist (type.2.bits.length + 1) type.2
      else if type.1 = 2 then inflateDynamic avail_out type.2
      else throw (Z_DATA_ERROR, type.2)
    if final.1 = 1 then pure st1 else inflateBlocks avail_out fuel st1

/-- The call `inflate(&strm, Z_FINISH)` on `next_in = input`, `avail_in = input.length` and
an output buffer of `avail_out` bytes: `Z_STREAM_END` when the final block was decoded into
the buffer, `Z_BUF_ERROR` when the input or the buffer ran out, `Z_DATA_ERROR` on an
invalid stream. -/
def zlibInflate (input : List Byte) (avail_out : Nat) : InflateResult :=
  match inflateBlocks avail_out (8 * input.length + 1)
      { bits := bitsOfBytes input, used := 0, out := [] } with
  | .ok st => { ret := Z_STREAM_END, total_in := (st.used + 7) / 8, output := st.out }
  | .error (code, st) => { ret := code, total_in := (st.used + 7) / 8, output := st.out }

/-! ## Environments and sample files -/

/-- The string of a path with every run of `/` replaced by one `/`. On a POSIX system two
`std::filesystem::path` objects are equal exactly when they have the same elements, which
is when these strings are equal: `d//a` and `d/a` are equal paths with different strings. -/
def pathKey : Path → Path
  | [] => []
  | [b] => [b]
  | b :: c :: rest =>
    if b = 47 ∧ c = 47 then pathKey (c :: rest) else b :: pathKey (c :: rest)

/-- An environment in which uninitialised storage holds zero bytes, `inflateInit2`
succeeds, `inflate` rejects every stream, and paths are equal as on a POSIX system. -/
def zeroEnv : Env :=
  { stack_cd_header := fun _ _ => 0
    stack_local_header := fun _ _ => 0
    heap_byte := fun _ _ => 0
    beyond_byte := fun _ => 0
    inflateInit2 := fun _ => Z_OK
    inflate := fun _ _ => { ret := -3, total_in := 0, output := [] }
    path_key := pathKey }

/-- An environment with zlib as modelled by `zlibInflate`; uninitialised storage holds
zero bytes and `inflateInit2` succeeds. -/
def zlibEnv : Env := { zeroEnv with inflate := zlibInflate }

/-- The string `a.txt`. -/
def aTxt : Path := bytesOf [97, 46, 116, 120, 116]

/-- The string `b.txt`. -/
def bTxt : Path := bytesOf [98, 46, 116, 120, 116]

/-- The string `b.bin`. -/
def bBin : Path := bytesOf [98, 46, 98, 105, 110]

/-- The string `c.dat`. -/
def cDat : Path := bytesOf [99, 46, 100, 97, 116]

/-- The 29 bytes of the text `world world world world world`. -/
def worldText : List Byte :=
  bytesOf [119, 111, 114, 108, 100, 32, 119, 111, 114, 108, 100, 32, 119, 111, 114, 108, 100, 32,
    119, 111, 114, 108, 100, 32, 119, 111, 114, 108, 100]

/-- The container of the concrete scenario, 210 bytes: `a.txt` stored with the 5 bytes
`hello`, and `b.bin` deflated from the text `world world world world world`. -/
def sampleFile : List Byte :=
  bytesOf
    [80, 75, 3, 4, 20, 0, 0, 0, 0, 0, 0, 0, 33, 0, 134, 166, 16, 54, 5, 0,
     0, 0, 5, 0, 0, 0, 5, 0, 0, 0, 97, 46, 116, 120, 116, 104, 101, 108, 108, 111,
     80, 75, 3, 4, 20, 0, 0, 0, 8, 0, 0, 0, 33, 0, 243, 65, 231, 44, 11, 0,
     0, 0, 29, 0, 0, 0, 5, 0, 0, 0, 98, 46, 98, 105, 110, 43, 207, 47, 202, 73,
     81, 40, 199, 78, 2, 0, 80, 75, 1, 2, 20, 0, 20, 0, 0, 0, 0, 0, 0, 0,
     33, 0, 134, 166, 16, 54, 5, 0, 0, 0, 5, 0, 0, 0, 5, 0, 0, 0, 0, 0,
     0, 0, 0, 0, 0, 0, 0, 0, 0, 0, 0, 0, 97, 46, 116, 120, 116, 80, 75, 1,
     2, 20, 0, 20, 0, 0, 0, 8, 0, 0, 0, 33, 0, 243, 65, 231, 44, 11, 0, 0,
     0, 29, 0, 0, 0, 5, 0, 0, 0, 0, 0, 0, 0, 0, 0, 0, 0, 0, 0, 40,
     0, 0, 0, 98, 46, 98, 105, 110, 80, 75, 5, 6, 0, 0, 0, 0, 2, 0, 2, 0,
     102, 0, 0, 0, 86, 0, 0, 0, 0, 0]

/-- A 44-byte file of two End-Of-Central-Directory records: the first announces no entry,
the second announces one entry with the Central Directory at offset 0. -/
def twoEocdFile : List Byte :=
  bytesOf [80, 75, 5, 6, 0, 0, 0, 0, 0, 0, 0, 0, 0, 0, 0, 0, 0, 0, 0, 0, 0, 0,
           80, 75, 5, 6, 0, 0, 0, 0, 1, 0, 1, 0, 46, 0, 0, 0, 0, 0, 0, 0, 0, 0]

/-- A 21-byte file that starts with the End-Of-Central-Directory signature. -/
def shortFile : List Byte :=
  bytesOf [80, 75, 5, 6, 0, 0, 0, 0, 0, 0, 0, 0, 0, 0, 0, 0, 0, 0, 0, 0, 0]

/-- A 204-byte container with the stored files `a.txt` (`hello`) and `b.txt` (`world`) whose
End-Of-Central-Directory record announces two entries; the second Central Directory
record carries `0x02014b51` in place of the signature. -/
def badSecondRecordFile : List Byte :=
  bytesOf
    [80, 75, 3, 4, 20, 0, 0, 0, 0, 0, 0, 0, 33, 0, 134, 166, 16, 54, 5, 0,
     0, 0, 5, 0, 0, 0, 5, 0, 0, 0, 97, 46, 116, 120, 116, 104, 101, 108, 108, 111,
     80, 75, 3, 4, 20, 0, 0, 0, 0, 0, 0, 0, 33, 0, 67, 17, 119, 58, 5, 0,
     0, 0, 5, 0, 0, 0, 5, 0, 0, 0, 98, 46, 116, 120, 116, 119, 111, 114, 108, 100,
     80, 75, 1, 2, 20, 0, 20, 0, 0, 0, 0, 0, 0, 0, 33, 0, 134, 166, 16, 54,
     5, 0, 0, 0, 5, 0, 0, 0, 5, 0, 0, 0, 0, 0, 0, 0, 0, 0, 0, 0,
     0, 0, 0, 0, 0, 0, 97, 46, 116, 120, 116, 81, 75, 1, 2, 20, 0, 20, 0, 0,
     0, 0, 0, 0, 0, 33, 0, 67, 17, 119, 58, 5, 0, 0, 0, 5, 0, 0, 0, 5,
     0, 0, 0, 0, 0, 0, 0, 0, 0, 0, 0, 0, 0, 40, 0, 0, 0, 98, 46, 116,
     120, 116, 80, 75, 5, 6, 0, 0, 0, 0, 2, 0, 2, 0, 102, 0, 0, 0, 80, 0,
     0, 0, 0, 0]

/-- A 113-byte container with the stored file `a.txt` (`hello`) whose Local File header
carries `0x04034b51` in place of the signature `0x04034b50`. -/
def badLocalSignatureFile : List Byte :=
  bytesOf
    [81, 75, 3, 4, 20, 0, 0, 0, 0, 0, 0, 0, 33, 0, 134, 166, 16, 54, 5, 0,
     0, 0, 5, 0, 0, 0, 5, 0, 0, 0, 97, 46, 116, 120, 116, 104, 101, 108, 108, 111,
     80, 75, 1, 2, 20, 0, 20, 0, 0, 0, 0, 0, 0, 0, 33, 0, 134, 166, 16, 54,
     5, 0, 0, 0, 5, 0, 0, 0, 5, 0, 0, 0, 0, 0, 0, 0, 0, 0, 0, 0,
     0, 0, 0, 0, 0, 0, 97, 46, 116, 120, 116, 80, 75, 5, 6, 0, 0, 0, 0, 1,
     0, 1, 0, 51, 0, 0, 0, 40, 0, 0, 0, 0, 0]

/-- The first 51 bytes of `fourGiBFile`: the Central Directory record of `a.txt`, with
`local_header_offset = 0xFFFFFFF0`. -/
def fourGiBHead : List Byte :=
  bytesOf
    [80, 75, 1, 2, 20, 0, 20, 0, 0, 0, 0, 0, 0, 0, 33, 0, 134, 166, 16, 54,
     5, 0, 0, 0, 5, 0, 0, 0, 5, 0, 0, 0, 0, 0, 0, 0, 0, 0, 0, 0,
     0, 0, 240, 255, 255, 255, 97, 46, 116, 120, 116]

/-- The number of zero bytes between the Central Directory record and the Local File
header of `fourGiBFile`. -/
def fourGiBPad : Nat := 4294967229

/-- The last 62 bytes of `fourGiBFile`: the Local File header of `a.txt`, the name, the
payload `hello` and the End-Of-Central-Directory record (one entry, directory at offset 0). -/
def fourGiBTail : List Byte :=
  bytesOf
    [80, 75, 3, 4, 20, 0, 0, 0, 0, 0, 0, 0, 33, 0, 134, 166, 16, 54, 5, 0,
     0, 0, 5, 0, 0, 0, 5, 0, 0, 0, 97, 46, 116, 120, 116, 104, 101, 108, 108, 111,
     80, 75, 5, 6, 0, 0, 0, 0, 1, 0, 1, 0, 51, 0, 0, 0, 0, 0, 0, 0,
     0, 0]

/-- A container of `2^32 + 46` bytes without zip64 fields: the Central Directory comes
first, the Local File header of its only entry starts at offset `0xFFFFFFF0`, and the
End-Of-Central-Directory record ends the file. -/
def fourGiBFile : List Byte :=
  fourGiBHead ++ (List.replicate fourGiBPad 0 ++ fourGiBTail)

/-- A 204-byte container with the stored files `a.txt` (`hello`) and `b.txt` (`world`); both
Central Directory records carry the signature, and the record of `a.txt` gives
`local_header_offset = 0x1000`, behind the end of the file. -/
def lostLocalHeaderFile : List Byte :=
  bytesOf
    [80, 75, 3, 4, 20, 0, 0, 0, 0, 0, 0, 0, 33, 0, 134, 166, 16, 54, 5, 0,
     0, 0, 5, 0, 0, 0, 5, 0, 0, 0, 97, 46, 116, 120, 116, 104, 101, 108, 108, 111,
     80, 75, 3, 4, 20, 0, 0, 0, 0, 0, 0, 0, 33, 0, 67, 17, 119, 58, 5, 0,
     0, 0, 5, 0, 0, 0, 5, 0, 0, 0, 98, 46, 116, 120, 116, 119, 111, 114, 108, 100,
     80, 75, 1, 2, 20, 0, 20, 0, 0, 0, 0, 0, 0, 0, 33, 0, 134, 166, 16, 54,
     5, 0, 0, 0, 5, 0, 0, 0, 5, 0, 0, 0, 0, 0, 0, 0, 0, 0, 0, 0,
     0, 0, 0, 16, 0, 0, 97, 46, 116, 120, 116, 80, 75, 1, 2, 20, 0, 20, 0, 0,
     0, 0, 0, 0, 0, 33, 0, 67, 17, 119, 58, 5, 0, 0, 0, 5, 0, 0, 0, 5,
     0, 0, 0, 0, 0, 0, 0, 0, 0, 0, 0, 0, 0, 40, 0, 0, 0, 98, 46, 116,
     120, 116, 80, 75, 5, 6, 0, 0, 0, 0, 2, 0, 2, 0, 102, 0, 0, 0, 80, 0,
     0, 0, 0, 0]

/-- A 204-byte container with the stored files `a.txt` (`hello`) and `z.txt` (`world`); the
Central Directory record of `z.txt`, the last one, gives `local_header_offset = 0x1000`,
behind the end of the file. -/
def failedStreamFile : List Byte :=
  bytesOf
    [80, 75, 3, 4, 20, 0, 0, 0, 0, 0, 0, 0, 33, 0, 134, 166, 16, 54, 5, 0,
     0, 0, 5, 0, 0, 0, 5, 0, 0, 0, 97, 46, 116, 120, 116, 104, 101, 108, 108, 111,
     80, 75, 3, 4, 20, 0, 0, 0, 0, 0, 0, 0, 33, 0, 67, 17, 119, 58, 5, 0,
     0, 0, 5, 0, 0, 0, 5, 0, 0, 0, 122, 46, 116, 120, 116, 119, 111, 114, 108, 100,
     80, 75, 1, 2, 20, 0, 20, 0, 0, 0, 0, 0, 0, 0, 33, 0, 134, 166, 16, 54,
     5, 0, 0, 0, 5, 0, 0, 0, 5, 0, 0, 0, 0, 0, 0, 0, 0, 0, 0, 0,
     0, 0, 0, 0, 0, 0, 97, 46, 116, 120, 116, 80, 75, 1, 2, 20, 0, 20, 0, 0,
     0, 0, 0, 0, 0, 33, 0, 67, 17, 119, 58, 5, 0, 0, 0, 5, 0, 0, 0, 5,
     0, 0, 0, 0, 0, 0, 0, 0, 0, 0, 0, 0, 0, 0, 16, 0, 0, 122, 46, 116,
     120, 116, 80, 75, 5, 6, 0, 0, 0, 0, 2, 0, 2, 0, 102, 0, 0, 0, 80, 0,
     0, 0, 0, 0]

/-- A 121-byte container with one deflated entry `b.bin`. Its payload is the 11-byte raw
deflate stream of the 29 bytes `world world world world world` followed by the two bytes
`zz`; the headers record `compressed_size = 13` and `uncompressed_size = 40`. -/
def looseDeflateFile : List Byte :=
  bytesOf
    [80, 75, 3, 4, 20, 0, 0, 0, 8, 0, 0, 0, 33, 0, 243, 65, 231, 44, 13, 0,
     0, 0, 40, 0, 0, 0, 5, 0, 0, 0, 98, 46, 98, 105, 110, 43, 207, 47, 202, 73,
     81, 40, 199, 78, 2, 0, 122, 122, 80, 75, 1, 2, 20, 0, 20, 0, 0, 0, 8, 0,
     0, 0, 33, 0, 243, 65, 231, 44, 13, 0, 0, 0, 40, 0, 0, 0, 5, 0, 0, 0,
     0, 0, 0, 0, 0, 0, 0, 0, 0, 0, 0, 0, 0, 0, 98, 46, 98, 105, 110, 80,
     75, 5, 6, 0, 0, 0, 0, 1, 0, 1, 0, 51, 0, 0, 0, 48, 0, 0, 0, 0,
     0]

/-- A 203-byte container with the stored file `a.txt` (`hello`) and an entry `c.dat` whose
compression method is 12. -/
def method12File : List Byte :=
  bytesOf
    [80, 75, 3, 4, 20, 0, 0, 0, 0, 0, 0, 0, 33, 0, 134, 166, 16, 54, 5, 0,
     0, 0, 5, 0, 0, 0, 5, 0, 0, 0, 97, 46, 116, 120, 116, 104, 101, 108, 108, 111,
     80, 75, 3, 4, 20, 0, 0, 0, 12, 0, 0, 0, 33, 0, 103, 186, 142, 235, 4, 0,
     0, 0, 3, 0, 0, 0, 5, 0, 0, 0, 99, 46, 100, 97, 116, 1, 2, 3, 4, 80,
     75, 1, 2, 20, 0, 20, 0, 0, 0, 0, 0, 0, 0, 33, 0, 134, 166, 16, 54, 5,
     0, 0, 0, 5, 0, 0, 0, 5, 0, 0, 0, 0, 0, 0, 0, 0, 0, 0, 0, 0,
     0, 0, 0, 0, 0, 97, 46, 116, 120, 116, 80, 75, 1, 2, 20, 0, 20, 0, 0, 0,
     12, 0, 0, 0, 33, 0, 103, 186, 142, 235, 4, 0, 0, 0, 3, 0, 0, 0, 5, 0,
     0, 0, 0, 0, 0, 0, 0, 0, 0, 0, 0, 0, 40, 0, 0, 0, 99, 46, 100, 97,
     116, 80, 75, 5, 6, 0, 0, 0, 0, 2, 0, 2, 0, 102, 0, 0, 0, 79, 0, 0,
     0, 0, 0]

/-- The string `d/a`. -/
def dSlashA : Path := bytesOf [100, 47, 97]

/-- The string `d//a`. -/
def dSlashSlashA : Path := bytesOf [100, 47, 47, 97]

/-- The string `d///a`. -/
def dSlashSlashSlashA : Path := bytesOf [100, 47, 47, 47, 97]

/-- A 197-byte container with the stored file `d/a` (`hello`) and an entry `d//a` whose
compression method is 12. -/
def slashNameFile : List Byte :=
  bytesOf
    [80, 75, 3, 4, 20, 0, 0, 0, 0, 0, 0, 0, 33, 0, 134, 166, 16, 54, 5, 0,
     0, 0, 5, 0, 0, 0, 3, 0, 0, 0, 100, 47, 97, 104, 101, 108, 108, 111, 80, 75,
     3, 4, 20, 0, 0, 0, 12, 0, 0, 0, 33, 0, 103, 186, 142, 235, 4, 0, 0, 0,
     3, 0, 0, 0, 4, 0, 0, 0, 100, 47, 47, 97, 1, 2, 3, 4, 80, 75, 1, 2,
     20, 0, 20, 0, 0, 0, 0, 0, 0, 0, 33, 0, 134, 166, 16, 54, 5, 0, 0, 0,
     5, 0, 0, 0, 3, 0, 0, 0, 0, 0, 0, 0, 0, 0, 0, 0, 0, 0, 0, 0,
     0, 0, 100, 47, 97, 80, 75, 1, 2, 20, 0, 20, 0, 0, 0, 12, 0, 0, 0, 33,
     0, 103, 186, 142, 235, 4, 0, 0, 0, 3, 0, 0, 0, 4, 0, 0, 0, 0, 0, 0,
     0, 0, 0, 0, 0, 0, 0, 38, 0, 0, 0, 100, 47, 47, 97, 80, 75, 5, 6, 0,
     0, 0, 0, 2, 0, 2, 0, 99, 0, 0, 0, 76, 0, 0, 0, 0, 0]

/-- A 199-byte container with the stored files `d/a` (`hello`) and `d//a` (`world!`), each
recorded with the size and the CRC-32 of its content. -/
def slashTwinFile : List Byte :=
  bytesOf
    [80, 75, 3, 4, 20, 0, 0, 0, 0, 0, 0, 0, 33, 0, 134, 166, 16, 54, 5, 0,
     0, 0, 5, 0, 0, 0, 3, 0, 0, 0, 100, 47, 97, 104, 101, 108, 108, 111, 80, 75,
     3, 4, 20, 0, 0, 0, 0, 0, 0, 0, 33, 0, 232, 152, 132, 113, 6, 0, 0, 0,
     6, 0, 0, 0, 4, 0, 0, 0, 100, 47, 47, 97, 119, 111, 114, 108, 100, 33, 80, 75,
     1, 2, 20, 0, 20, 0, 0, 0, 0, 0, 0, 0, 33, 0, 134, 166, 16, 54, 5, 0,
     0, 0, 5, 0, 0, 0, 3, 0, 0, 0, 0, 0, 0, 0, 0, 0, 0, 0, 0, 0,
     0, 0, 0, 0, 100, 47, 97, 80, 75, 1, 2, 20, 0, 20, 0, 0, 0, 0, 0, 0,
     0, 33, 0, 232, 152, 132, 113, 6, 0, 0, 0, 6, 0, 0, 0, 4, 0, 0, 0, 0,
     0, 0, 0, 0, 0, 0, 0, 0, 0, 38, 0, 0, 0, 100, 47, 47, 97, 80, 75, 5,
     6, 0, 0, 0, 0, 2, 0, 2, 0, 99, 0, 0, 0, 78, 0, 0, 0, 0, 0]

/-! ## The scan loop, the store copy and further sample files -/

/-- The loop of `findCentralDirectory` from `i` downwards, as the list of the values of `i`
for which the loop body runs: the loop ends at the first `i` whose four bytes are the
signature, and below `0` otherwise. -/
def scanVisited (buffer : List Byte) : Nat → List Nat
  | 0 => [0]
  | i + 1 =>
    if readU32 buffer (i + 1) = EOCD_SIGNATURE then [i + 1] else (i + 1) :: scanVisited buffer i

/-- The values of `i` for which the body of the loop
`for (int i = SEARCH_BUFFER_SIZE - EOCD_MIN_SIZE; i >= 0; i--)` runs, on a window `buffer`
with `SEARCH_BUFFER_SIZE = W`. -/
def scanOffsets (buffer : List Byte) (W : Nat) : List Nat :=
  if scanStart W < 0 then [] else scanVisited buffer (scanStart W).toNat

/-- The indices of `buffer` that the loop body reads at offset `i`: the four bytes of the
signature, and on a match the bytes of the fields at `i + 10`, `i + 12` and `i + 16`. -/
def scanReads (buffer : List Byte) (i : Nat) : List Nat :=
  [i, i + 1, i + 2, i + 3] ++
    if readU32 buffer i = EOCD_SIGNATURE then
      [i + 10, i + 11, i + 12, i + 13, i + 14, i + 15, i + 16, i + 17, i + 18, i + 19]
    else []

/-- The indices of `compressed_data` that the store branch of `getFileBuffer` reads in
`std::memcpy(buffer, compressed_data.data(), buffer_size)`: `0 .. buffer_size - 1`, where
`buffer_size` is `entry.uncompressed_size`. The vector has `entry.compressed_size` bytes. -/
def storeCopyReads (entry : ZipFileEntry) : List Nat := List.range entry.uncompressed_size

/-- The environment `zeroEnv` with the byte `0xFF` everywhere behind the end of
`compressed_data`. -/
def ffBeyondEnv : Env := { zeroEnv with beyond_byte := fun _ => 255 }

/-- A 113-byte container with one stored entry `a.txt` whose payload is the 5 bytes `hello`;
both headers record `compressed_size = 5` and `uncompressed_size = 8`. -/
def overreadFile : List Byte :=
  bytesOf
    [80, 75, 3, 4, 20, 0, 0, 0, 0, 0, 0, 0, 33, 0, 134, 166, 16, 54, 5, 0,
     0, 0, 8, 0, 0, 0, 5, 0, 0, 0, 97, 46, 116, 120, 116, 104, 101, 108, 108, 111,
     80, 75, 1, 2, 20, 0, 20, 0, 0, 0, 0, 0, 0, 0, 33, 0, 134, 166, 16, 54,
     5, 0, 0, 0, 8, 0, 0, 0, 5, 0, 0, 0, 0, 0, 0, 0, 0, 0, 0, 0,
     0, 0, 0, 0, 0, 0, 97, 46, 116, 120, 116, 80, 75, 5, 6, 0, 0, 0, 0, 1,
     0, 1, 0, 51, 0, 0, 0, 40, 0, 0, 0, 0, 0]

/-- An environment in which the uninitialised object `header` of `parseCentralDirectory`
holds, in every round, the 46 bytes at offset 80 of `lostLocalHeaderFile` (the header of its
first Central Directory record, as an earlier round left it in the same storage); all
other uninitialised storage holds zero bytes. -/
def staleHeaderEnv : Env :=
  { zeroEnv with stack_cd_header := fun _ k => (lostLocalHeaderFile.drop 80).getD k 0 }

/-- A 204-byte container whose two Central Directory records both carry the name `a.txt`: the
first describes the stored bytes `hello`, the second the stored bytes `world`. -/
def duplicateNameFile : List Byte :=
  bytesOf
    [80, 75, 3, 4, 20, 0, 0, 0, 0, 0, 0, 0, 33, 0, 134, 166, 16, 54, 5, 0,
     0, 0, 5, 0, 0, 0, 5, 0, 0, 0, 97, 46, 116, 120, 116, 104, 101, 108, 108, 111,
     80, 75, 3, 4, 20, 0, 0, 0, 0, 0, 0, 0, 33, 0, 67, 17, 119, 58, 5, 0,
     0, 0, 5, 0, 0, 0, 5, 0, 0, 0, 97, 46, 116, 120, 116, 119, 111, 114, 108, 100,
     80, 75, 1, 2, 20, 0, 20, 0, 0, 0, 0, 0, 0, 0, 33, 0, 134, 166, 16, 54,
     5, 0, 0, 0, 5, 0, 0, 0, 5, 0, 0, 0, 0, 0, 0, 0, 0, 0, 0, 0,
     0, 0, 0, 0, 0, 0, 97, 46, 116, 120, 116, 80, 75, 1, 2, 20, 0, 20, 0, 0,
     0, 0, 0, 0, 0, 33, 0, 67, 17, 119, 58, 5, 0, 0, 0, 5, 0, 0, 0, 5,
     0, 0, 0, 0, 0, 0, 0, 0, 0, 0, 0, 0, 0, 40, 0, 0, 0, 97, 46, 116,
     120, 116, 80, 75, 5, 6, 0, 0, 0, 0, 2, 0, 2, 0, 102, 0, 0, 0, 80, 0,
     0, 0, 0, 0]

/-! ## Allocator bookkeeping and cached contents -/

/-- The string `z.txt`. -/
def zTxt : Path := bytesOf [122, 46, 116, 120, 116]

/-- The addresses of the non-null buffers that the cache holds, in the order of the cache:
what `clearCache` passes to `Base::Memory::free`. -/
def cachedAddrs (a : OBBArchive) : List Nat :=
  a.m_file_buffer_cache_map.filterMap (fun kv => kv.2.1.map Buffer.addr)

/-- The allocator's bookkeeping is consistent: the addresses of the cached buffers and the
addresses freed so far are distinct from each other, and all of them were handed out. -/
def HeapInv (a : OBBArchive) : Prop :=
  (cachedAddrs a ++ a.heap_freed).Nodup ∧
    ∀ x, x ∈ cachedAddrs a ++ a.heap_freed → x < a.heap_allocs

/-- What `getFileBuffer` leaves in the block with address `addr` for the entry `e` when
`compressed_data` holds `payload`: a copy of `uncompressed_size` bytes starting at
`compressed_data.data()` (method 0), or what `inflate` wrote, followed by what the block
held before (method 8). -/
def decodedFrom (env : Env) (payload : List Byte) (e : ZipFileEntry) (addr : Nat) : List Byte :=
  if e.compression_method = 0 then
    block (fun k => payload.getD k (env.beyond_byte (k - payload.length))) e.uncompressed_size
  else
    (overwrite (block (env.heap_byte addr) e.uncompressed_size)
      (env.inflate payload e.uncompressed_size).output).take e.uncompressed_size

/-- The decoder of `getFileBuffer` hands out a buffer for the entry `e`: always for method
0, and for method 8 when `inflateInit2` returns `Z_OK` and `inflate` returns
`Z_STREAM_END`. -/
def Decodes (env : Env) (payload : List Byte) (e : ZipFileEntry) (addr : Nat) : Prop :=
  e.compression_method = 0 ∨
    (e.compression_method = 8 ∧ env.inflateInit2 addr = Z_OK ∧
      (env.inflate payload e.uncompressed_size).ret = Z_STREAM_END)

/-- The bytes `[file_data_offset, file_data_offset + compressed_size)` of the container. -/
def payloadOf (d : List Byte) (e : ZipFileEntry) : List Byte :=
  (d.drop e.file_data_offset).take e.compressed_size

/-- The decoder writes every byte of the buffer from the payload alone: a stored entry with
`uncompressed_size <= compressed_size`, or a deflated entry for which `inflate` produces at
least `uncompressed_size` bytes. -/
def FullyWritten (env : Env) (d : List Byte) (e : ZipFileEntry) : Prop :=
  (e.compression_method = 0 ∧ e.uncompressed_size ≤ e.compressed_size) ∨
    (e.compression_method = 8 ∧
      e.uncompressed_size ≤ (env.inflate (payloadOf d e) e.uncompressed_size).output.length)

/-- While the stream has not failed, every cached buffer is what the decoder makes of the
complete payload of its entry. -/
def CacheFresh (env : Env) (a : OBBArchive) : Prop :=
  a.m_obb_file.failbit = false →
    ∀ (p : Path) (v : FileBuffer), (p, v) ∈ a.m_file_buffer_cache_map →
      ∃ (e : ZipFileEntry) (addr : Nat),
        mapFind a.m_zip_entries p = some e ∧
        (payloadOf a.m_obb_file.contents e).length = e.compressed_size ∧
        (e.compression_method = 8 →
          (env.inflate (payloadOf a.m_obb_file.contents e) e.uncompressed_size).ret
            = Z_STREAM_END) ∧
        v = (some ⟨addr, decodedFrom env (payloadOf a.m_obb_file.contents e) e addr⟩,
              e.uncompressed_size)

/-- An environment with zlib as modelled by `zlibInflate`, in which the block with address
`a` holds the byte `a + 1` everywhere when `Base::Memory::malloc` hands it out. -/
def addressedHeapEnv : Env := { zlibEnv with heap_byte := fun addr _ => byte (addr + 1) }

/-- A 204-byte container with the stored files `a.txt` (`hello`) and `z.txt` (`world`); the
headers of `z.txt` record `compressed_size = 200`, so that its payload range `[75, 275)` ends
behind the end of the file. -/
def truncatedPayloadFile : List Byte :=
  bytesOf
    [80, 75, 3, 4, 20, 0, 0, 0, 0, 0, 0, 0, 33, 0, 134, 166, 16, 54, 5, 0,
     0, 0, 5, 0, 0, 0, 5, 0, 0, 0, 97, 46, 116, 120, 116, 104, 101, 108, 108, 111,
     80, 75, 3, 4, 20, 0, 0, 0, 0, 0, 0, 0, 33, 0, 67, 17, 119, 58, 200, 0,
     0, 0, 5, 0, 0, 0, 5, 0, 0, 0, 122, 46, 116, 120, 116, 119, 111, 114, 108, 100,
     80, 75, 1, 2, 20, 0, 20, 0, 0, 0, 0, 0, 0, 0, 33, 0, 134, 166, 16, 54,
     5, 0, 0, 0, 5, 0, 0, 0, 5, 0, 0, 0, 0, 0, 0, 0, 0, 0, 0, 0,
     0, 0, 0, 0, 0, 0, 97, 46, 116, 120, 116, 80, 75, 1, 2, 20, 0, 20, 0, 0,
     0, 0, 0, 0, 0, 33, 0, 67, 17, 119, 58, 200, 0, 0, 0, 5, 0, 0, 0, 5,
     0, 0, 0, 0, 0, 0, 0, 0, 0, 0, 0, 0, 0, 40, 0, 0, 0, 122, 46, 116,
     120, 116, 80, 75, 5, 6, 0, 0, 0, 0, 2, 0, 2, 0, 102, 0, 0, 0, 80, 0,
     0, 0, 0, 0]

/-- The archive of `truncatedPayloadFile` after `getFileBuffer("a.txt")` and then
`getFileBuffer("z.txt")`. -/
def truncatedPayloadFetched : OBBArchive :=
  (getFileBuffer zeroEnv
    (getFileBuffer zeroEnv (OBBArchive.new zeroEnv (some truncatedPayloadFile)) aTxt).2 zTxt).2

/-- The archive of `looseDeflateFile` after `getFileBuffer("b.bin")`. -/
def looseDeflateFetched : OBBArchive :=
  (getFileBuffer addressedHeapEnv (OBBArchive.new addressedHeapEnv (some looseDeflateFile))
    bBin).2

/-! ## Unfolding -/

theorem parseEntries_zero (env : Env) (i : Nat) (a : OBBArchive) :
    parseEntries env 0 i a = (true, a) := rfl

theorem parseEntries_succ (env : Env) (n i : Nat) (a : OBBArchive) :
    parseEntries env (n + 1) i a =
      match parseRound env i a with
      | (false, a1) => (false, a1)
      | (true, a1) => parseEntries env n (i + 1) a1 := rfl

theorem parseCentralDirectory_eq (env : Env) (a : OBBArchive) (cd_offset cd_size total : Nat) :
    parseCentralDirectory env a cd_offset cd_size total =
      parseEntries env total 0
        { a with m_obb_file := a.m_obb_file.seekg_beg (cd_offset : Int) } := rfl

attribute [irreducible] scanStart searchBufferSize parseRound parseEntries parseCentralDirectory
  findCentralDirectory parseOBBFile OBBArchive.new fetchEntry getFileBuffer

set_option maxRecDepth 100000

/-! ## Locating the End-Of-Central-Directory record -/

theorem tailWindow_length (d : List Byte) : (tailWindow d).length = min d.length 65557 := by
  unfold tailWindow
  rw [List.length_drop]
  omega

theorem overwrite_replicate (got : List Byte) (n : Nat) (h : got.length = n) :
    overwrite (List.replicate n 0) got = got := by
  unfold overwrite
  rw [h, List.drop_eq_nil_of_le (by simp), List.append_nil]

theorem toSizeT_natCast (n : Nat) : toSizeT (n : Int) = n := by
  unfold toSizeT
  rw [if_neg (by omega)]
  exact Int.toNat_ofNat n

theorem scanStart_of_ge (w : Nat) (h1 : 22 ≤ w) (h2 : w ≤ 65557) :
    scanStart w = ((w - 22 : Nat) : Int) := by
  unfold scanStart subSizeT toInt32 EOCD_MIN_SIZE
  have e : (w + (2 ^ 64 - 22 % 2 ^ 64)) % 2 ^ 64 = w - 22 := by omega
  rw [e]
  have e2 : (w - 22) % 2 ^ 32 = w - 22 := by omega
  rw [e2, if_pos (by omega)]

theorem scanStart_of_lt (w : Nat) (h1 : w < 22) : scanStart w < 0 := by
  unfold scanStart subSizeT toInt32 EOCD_MIN_SIZE
  have e : (w + (2 ^ 64 - 22 % 2 ^ 64)) % 2 ^ 64 = 2 ^ 64 - 22 + w := by omega
  rw [e]
  have e2 : (2 ^ 64 - 22 + w) % 2 ^ 32 = 2 ^ 32 - 22 + w := by omega
  rw [e2, if_neg (by omega)]
  omega

theorem scanEOCD_none (buffer : List Byte) (n : Nat)
    (h : ∀ j, j ≤ n → readU32 buffer j ≠ EOCD_SIGNATURE) : scanEOCD buffer n = none := by
  induction n with
  | zero => simp [scanEOCD, h 0 (Nat.le_refl 0)]
  | succ k ih =>
    rw [scanEOCD, if_neg (h (k + 1) (Nat.le_refl _))]
    exact ih (fun j hj => h j (Nat.le_succ_of_le hj))

theorem scanEOCD_some (buffer : List Byte) (n i : Nat) (hi : i ≤ n)
    (hsig : readU32 buffer i = EOCD_SIGNATURE)
    (hmax : ∀ j, i < j → j ≤ n → readU32 buffer j ≠ EOCD_SIGNATURE) :
    scanEOCD buffer n = some i := by
  induction n with
  | zero =>
    have : i = 0 := by omega
    subst this
    simp [scanEOCD, hsig]
  | succ k ih =>
    by_cases hk : i = k + 1
    · subst hk
      simp [scanEOCD, hsig]
    · rw [scanEOCD, if_neg (hmax (k + 1) (by omega) (Nat.le_refl _))]
      exact ih (by omega) (fun j h1 h2 => hmax j h1 (Nat.le_succ_of_le h2))

theorem window_read (s : IFStream) (hgood : s.failbit = false) :
    searchBufferSize (s.seekg_end 0).tellg = min s.contents.length 65557 ∧
    ((s.seekg_end 0).seekg_end (-((min s.contents.length 65557 : Nat) : Int))).read
        (List.replicate (min s.contents.length 65557) 0) (min s.contents.length 65557)
      = ({ s with pos := s.contents.length, reads := s.reads + 1 }, tailWindow s.contents) := by
  obtain ⟨d, o, p, f, r⟩ := s
  simp only at hgood
  subst hgood
  have h1 : IFStream.seekg_end ⟨d, o, p, false, r⟩ 0 = ⟨d, o, d.length, false, r⟩ := by
    simp [IFStream.seekg_end]
  have h2 : IFStream.seekg_end ⟨d, o, d.length, false, r⟩ (-((min d.length 65557 : Nat) : Int))
      = ⟨d, o, d.length - min d.length 65557, false, r⟩ := by
    unfold IFStream.seekg_end
    simp only [Bool.false_eq_true, if_false]
    rw [if_neg (by omega)]
    congr 1
    omega
  have hlen : ((d.drop (d.length - min d.length 65557)).take (min d.length 65557)).length
      = min d.length 65557 := by
    rw [List.length_take, List.length_drop]; omega
  have htake : (d.drop (d.length - min d.length 65557)).take (min d.length 65557)
      = tailWindow d := by
    unfold tailWindow
    apply List.take_of_length_le
    rw [List.length_drop]; omega
  refine ⟨?_, ?_⟩
  · rw [h1]
    simp [IFStream.tellg, searchBufferSize, toSizeT_natCast]
  · simp only [h1, h2]
    unfold IFStream.read
    simp only [Bool.false_eq_true, if_false]
    rw [overwrite_replicate _ _ hlen, hlen, htake]
    have : d.length - min d.length 65557 + min d.length 65557 = d.length := by omega
    simp [this]

theorem findCentralDirectory_window (env : Env) (a : OBBArchive)
    (hgood : a.m_obb_file.failbit = false) :
    findCentralDirectory env a =
      if (tailWindow a.m_obb_file.contents).length < 22 then (false, afterWindowRead a)
      else
        match scanEOCD (tailWindow a.m_obb_file.contents)
            ((tailWindow a.m_obb_file.contents).length - 22) with
        | some i =>
          parseCentralDirectory env (afterWindowRead a)
            (readU32 (tailWindow a.m_obb_file.contents) (i + 16))
            (readU32 (tailWindow a.m_obb_file.contents) (i + 12))
            (readU16 (tailWindow a.m_obb_file.contents) (i + 10))
        | none => (false, afterWindowRead a) := by
  obtain ⟨hW, hread⟩ := window_read a.m_obb_file hgood
  unfold findCentralDirectory
  lift_lets
  intro f1 fs S f2 r3 buffer a3 start
  have hr3 : r3 = ((afterWindowRead a).m_obb_file, tailWindow a.m_obb_file.contents) := by
    show IFStream.read (IFStream.seekg_end (a.m_obb_file.seekg_end 0)
      (-((searchBufferSize (a.m_obb_file.seekg_end 0).tellg : Nat) : Int)))
      (List.replicate (searchBufferSize (a.m_obb_file.seekg_end 0).tellg) 0)
      (searchBufferSize (a.m_obb_file.seekg_end 0).tellg) = _
    rw [hW]
    exact hread
  have hbuf : buffer = tailWindow a.m_obb_file.contents := by
    show r3.2 = _
    rw [hr3]
  have ha3 : a3 = afterWindowRead a := by
    show ({ a with m_obb_file := r3.1 } : OBBArchive) = _
    rw [hr3]
    rfl
  have hstart : start = scanStart (min a.m_obb_file.contents.length 65557) := by
    show scanStart (searchBufferSize (a.m_obb_file.seekg_end 0).tellg) = _
    rw [hW]
  rw [hbuf, ha3, hstart, tailWindow_length]
  by_cases hlt : min a.m_obb_file.contents.length 65557 < 22
  · rw [if_pos (scanStart_of_lt _ hlt), if_pos hlt]
  · have hge : 22 ≤ min a.m_obb_file.contents.length 65557 := by omega
    have hs := scanStart_of_ge _ hge (Nat.min_le_right _ _)
    rw [if_neg (by rw [hs]; omega), if_neg hlt, hs, Int.toNat_ofNat]

theorem opened_failbit (d : List Byte) : (OBBArchive.opened d).m_obb_file.failbit = false := rfl

theorem opened_contents (d : List Byte) : (OBBArchive.opened d).m_obb_file.contents = d := rfl

theorem new_of_find (env : Env) (d : List Byte) (b : Bool) (a2 : OBBArchive)
    (h : findCentralDirectory env (OBBArchive.opened d) = (b, a2)) :
    OBBArchive.new env (some d) = if b then { a2 with m_is_valid := true } else a2 := by
  unfold OBBArchive.new parseOBBFile
  lift_lets
  intro a1
  have ha1 : a1 = OBBArchive.opened d := rfl
  have hopen : a1.m_obb_file.is_open = true := rfl
  rewrite [hopen, ha1, h]
  cases b <;> rfl

/-- C1: with `W = min(file_size, 65557)` and the window the last `W` bytes of the file,
`findCentralDirectory` accepts the largest offset `i` with `i + 22 <= W` whose four bytes
read little-endian are `0x06054b50`; its result is the result of the single call
`parseCentralDirectory(u32 at i+16, u32 at i+12, u16 at i+10)` made right after the
window was read, whether that call succeeds or fails. -/
theorem findCentralDirectory_accepts_rightmost (env : Env) (a : OBBArchive) (i : Nat)
    (hgood : a.m_obb_file.failbit = false)
    (hi : i + 22 ≤ min a.m_obb_file.contents.length 65557)
    (hsig : readU32 (tailWindow a.m_obb_file.contents) i = EOCD_SIGNATURE)
    (hmax : ∀ j, i < j → j + 22 ≤ min a.m_obb_file.contents.length 65557 →
      readU32 (tailWindow a.m_obb_file.contents) j ≠ EOCD_SIGNATURE) :
    (tailWindow a.m_obb_file.contents).length = min a.m_obb_file.contents.length 65557 ∧
    findCentralDirectory env a =
      parseCentralDirectory env (afterWindowRead a)
        (readU32 (tailWindow a.m_obb_file.contents) (i + 16))
        (readU32 (tailWindow a.m_obb_file.contents) (i + 12))
        (readU16 (tailWindow a.m_obb_file.contents) (i + 10)) := by
  refine ⟨tailWindow_length _, ?_⟩
  rw [findCentralDirectory_window env a hgood, tailWindow_length, if_neg (by omega)]
  rw [scanEOCD_some _ _ i (by omega) hsig (fun j h1 h2 => hmax j h1 (by omega))]

theorem findCentralDirectory_accepts_rightmost_witness :
    (tailWindow (OBBArchive.opened twoEocdFile).m_obb_file.contents).length = 44 ∧
    findCentralDirectory zeroEnv (OBBArchive.opened twoEocdFile) =
      parseCentralDirectory zeroEnv (afterWindowRead (OBBArchive.opened twoEocdFile)) 0 46 1 ∧
    (findCentralDirectory zeroEnv (OBBArchive.opened twoEocdFile)).1 = false :=
  have h := findCentralDirectory_accepts_rightmost zeroEnv (OBBArchive.opened twoEocdFile) 22
    (by decide) (by decide) (by decide)
    (fun j h1 h2 => by
      have e : min (OBBArchive.opened twoEocdFile).m_obb_file.contents.length 65557 = 44 := by
        decide
      rw [e] at h2
      omega)
  ⟨h.1, h.2, by decide!⟩

/-- C2: when no offset `i` with `i + 22 <= W` of the tail window carries the signature
`0x06054b50` (as in every file shorter than 22 bytes), `findCentralDirectory` returns
false and the constructed archive has `isValid() == false`. -/
theorem findCentralDirectory_no_signature (env : Env) (d : List Byte)
    (hnone : ∀ i, i + 22 ≤ min d.length 65557 → readU32 (tailWindow d) i ≠ EOCD_SIGNATURE) :
    (findCentralDirectory env (OBBArchive.opened d)).1 = false ∧
    (OBBArchive.new env (some d)).isValid = false := by
  have hfind : findCentralDirectory env (OBBArchive.opened d)
      = (false, afterWindowRead (OBBArchive.opened d)) := by
    rw [findCentralDirectory_window env _ (opened_failbit d), opened_contents, tailWindow_length]
    by_cases hlt : min d.length 65557 < 22
    · rw [if_pos hlt]
    · rw [if_neg hlt, scanEOCD_none _ _ (fun j hj => hnone j (by omega))]
  refine ⟨by rw [hfind], ?_⟩
  rw [new_of_find env d false _ hfind]
  rfl

theorem findCentralDirectory_no_signature_witness :
    (findCentralDirectory zeroEnv (OBBArchive.opened shortFile)).1 = false ∧
    (OBBArchive.new zeroEnv (some shortFile)).isValid = false :=
  findCentralDirectory_no_signature zeroEnv shortFile (fun i hi => by
    have e : min shortFile.length 65557 = 21 := by decide
    rw [e] at hi
    omega)

theorem byteAt_take_drop (d : List Byte) (pos n k : Nat) (hk : k < n) :
    byteAt ((d.drop pos).take n) k = byteAt d (pos + k) := by
  unfold byteAt
  simp [List.getD_eq_getElem?_getD, List.getElem?_take, hk, List.getElem?_drop]

theorem readU16_take_drop (d : List Byte) (pos n k : Nat) (hk : k + 1 < n) :
    readU16 ((d.drop pos).take n) k = readU16 d (pos + k) := by
  unfold readU16
  rw [byteAt_take_drop d pos n k (by omega), byteAt_take_drop d pos n (k + 1) (by omega)]
  rfl

theorem readU32_take_drop (d : List Byte) (pos n k : Nat) (hk : k + 3 < n) :
    readU32 ((d.drop pos).take n) k = readU32 d (pos + k) := by
  unfold readU32
  rw [byteAt_take_drop d pos n k (by omega), byteAt_take_drop d pos n (k + 1) (by omega),
    byteAt_take_drop d pos n (k + 2) (by omega), byteAt_take_drop d pos n (k + 3) (by omega)]
  rfl

theorem block_length (f : Nat → Byte) (n : Nat) : (block f n).length = n := by
  simp [block]

theorem overwrite_full (dest got : List Byte) (h : dest.length ≤ got.length) :
    overwrite dest got = got := by
  unfold overwrite
  rw [List.drop_eq_nil_of_le h, List.append_nil]

theorem take_drop_length (d : List Byte) (pos n : Nat) (h : pos + n ≤ d.length) :
    ((d.drop pos).take n).length = n := by
  rw [List.length_take, List.length_drop]
  omega

/-- A `read` of `n` bytes that ends inside the file. -/
theorem read_inside (s : IFStream) (dest : List Byte) (n : Nat) (hgood : s.failbit = false)
    (hdest : dest.length ≤ n) (hin : s.pos + n ≤ s.contents.length) :
    s.read dest n =
      ({ s with pos := s.pos + n, reads := s.reads + 1 }, (s.contents.drop s.pos).take n) := by
  obtain ⟨d, o, p, f, r⟩ := s
  simp only at hgood hin
  subst hgood
  have hl := take_drop_length d p n hin
  unfold IFStream.read
  simp only [Bool.false_eq_true, if_false]
  rw [overwrite_full _ _ (by omega), hl]
  simp

/-- A `read` on a stream in the failed state. -/
theorem read_failed (s : IFStream) (dest : List Byte) (n : Nat) (hfail : s.failbit = true) :
    s.read dest n = ({ s with reads := s.reads + 1 }, dest) := by
  unfold IFStream.read
  rw [if_pos hfail]


theorem seekg_beg_good (s : IFStream) (n : Nat) (hgood : s.failbit = false) :
    s.seekg_beg (n : Int) = { s with pos := n } := by
  unfold IFStream.seekg_beg
  rw [if_neg (by rw [hgood]; decide), if_neg (by omega), Int.toNat_ofNat]

theorem seekg_cur_good (s : IFStream) (n : Nat) (hgood : s.failbit = false) :
    s.seekg_cur (n : Int) = { s with pos := s.pos + n } := by
  unfold IFStream.seekg_cur
  rw [if_neg (by rw [hgood]; decide), if_neg (by omega)]
  congr 1

theorem tellg_good (s : IFStream) (hgood : s.failbit = false) : s.tellg = (s.pos : Int) := by
  unfold IFStream.tellg
  rw [if_neg (by rw [hgood]; decide)]

theorem seekg_beg_failed (s : IFStream) (off : Int) (hfail : s.failbit = true) :
    s.seekg_beg off = s := by
  unfold IFStream.seekg_beg
  rw [if_pos hfail]

theorem seekg_cur_failed (s : IFStream) (off : Int) (hfail : s.failbit = true) :
    s.seekg_cur off = s := by
  unfold IFStream.seekg_cur
  rw [if_pos hfail]

theorem cdHeader_signature (d : List Byte) (p : Nat) :
    (ZipCentralDirectoryHeader.ofBytes ((d.drop p).take 46)).signature = readU32 d p :=
  readU32_take_drop d p 46 0 (by omega)

theorem cdHeader_fields (d : List Byte) (p : Nat) :
    (ZipCentralDirectoryHeader.ofBytes ((d.drop p).take 46)).filename_length
        = cdFilenameLength d p ∧
    (ZipCentralDirectoryHeader.ofBytes ((d.drop p).take 46)).extra_length
        = cdExtraLength d p ∧
    (ZipCentralDirectoryHeader.ofBytes ((d.drop p).take 46)).comment_length
        = cdCommentLength d p ∧
    (ZipCentralDirectoryHeader.ofBytes ((d.drop p).take 46)).local_header_offset
        = cdLocalHeaderOffset d p ∧
    (ZipCentralDirectoryHeader.ofBytes ((d.drop p).take 46)).compressed_size
        = readU32 d (p + 20) ∧
    (ZipCentralDirectoryHeader.ofBytes ((d.drop p).take 46)).uncompressed_size
        = readU32 d (p + 24) ∧
    (ZipCentralDirectoryHeader.ofBytes ((d.drop p).take 46)).crc32 = readU32 d (p + 16) ∧
    (ZipCentralDirectoryHeader.ofBytes ((d.drop p).take 46)).compression
        = readU16 d (p + 10) :=
  ⟨readU16_take_drop d p 46 28 (by omega), readU16_take_drop d p 46 30 (by omega),
   readU16_take_drop d p 46 32 (by omega), readU32_take_drop d p 46 42 (by omega),
   readU32_take_drop d p 46 20 (by omega), readU32_take_drop d p 46 24 (by omega),
   readU32_take_drop d p 46 16 (by omega), readU16_take_drop d p 46 10 (by omega)⟩

theorem localHeader_fields (d : List Byte) (p : Nat) :
    (ZipLocalFileHeader.ofBytes ((d.drop p).take 30)).filename_length = readU16 d (p + 26) ∧
    (ZipLocalFileHeader.ofBytes ((d.drop p).take 30)).extra_length = readU16 d (p + 28) :=
  ⟨readU16_take_drop d p 30 26 (by omega), readU16_take_drop d p 30 28 (by omega)⟩

/-- A round of the loop on a readable record: the record's entry is stored under its
filename and the stream stands at the start of the next record. -/
theorem parseRound_readable (env : Env) (i : Nat) (a : OBBArchive)
    (hgood : a.m_obb_file.failbit = false)
    (hrec : RecordReadable a.m_obb_file.contents a.m_obb_file.pos) :
    parseRound env i a =
      (true, { a with
        m_obb_file := { a.m_obb_file with
          pos := cdNext a.m_obb_file.contents a.m_obb_file.pos
          reads := a.m_obb_file.reads + 3 }
        m_zip_entries := mapAssign a.m_zip_entries
          (cdFilename a.m_obb_file.contents a.m_obb_file.pos)
          (cdEntry a.m_obb_file.contents a.m_obb_file.pos) }) := by
  obtain ⟨cache, entries, ⟨d, o, p, f, r⟩, valid, allocs, freed⟩ := a
  simp only at hgood hrec
  subst hgood
  obtain ⟨hsig, hin, hloc⟩ := hrec
  obtain ⟨hfn, hex, hco, hlo, hcs, hus, hcrc, hcm⟩ := cdHeader_fields d p
  obtain ⟨hlfn, hlex⟩ := localHeader_fields d (cdLocalHeaderOffset d p)
  unfold parseRound
  lift_lets
  intro r1 header r2 filename f3 current_pos f4 r5 local_header entry f6
  have hr1 : r1 = (⟨d, o, p + 46, false, r + 1⟩, (d.drop p).take 46) :=
    read_inside ⟨d, o, p, false, r⟩ _ 46 rfl (by rw [block_length]; exact Nat.le_refl _)
      (by show p + 46 ≤ d.length; omega)
  have hheader : header = ZipCentralDirectoryHeader.ofBytes ((d.drop p).take 46) := by
    show ZipCentralDirectoryHeader.ofBytes r1.2 = _
    rw [hr1]
  have hr2 : r2 = (⟨d, o, p + 46 + cdFilenameLength d p, false, r + 2⟩, cdFilename d p) := by
    show r1.1.read (List.replicate header.filename_length 0) header.filename_length = _
    rw [hheader, hfn, hr1]
    exact read_inside ⟨d, o, p + 46, false, r + 1⟩ _ _ rfl (by simp)
      (by show p + 46 + cdFilenameLength d p ≤ d.length; omega)
  have hf3 : f3 = ⟨d, o, cdNext d p, false, r + 2⟩ := by
    show r2.1.seekg_cur ((header.extra_length + header.comment_length : Nat) : Int) = _
    rw [hheader, hex, hco, hr2]
    rw [seekg_cur_good _ _ rfl]
    simp only [cdNext, Nat.add_assoc]
  have hcur : current_pos = ((cdNext d p : Nat) : Int) := by
    show f3.tellg = _
    rw [hf3]
    exact tellg_good _ rfl
  have hf4 : f4 = ⟨d, o, cdLocalHeaderOffset d p, false, r + 2⟩ := by
    show f3.seekg_beg (header.local_header_offset : Int) = _
    rw [hheader, hlo, hf3]
    exact seekg_beg_good _ _ rfl
  have hr5 : r5 = (⟨d, o, cdLocalHeaderOffset d p + 30, false, r + 3⟩,
      (d.drop (cdLocalHeaderOffset d p)).take 30) := by
    show f4.read (block (env.stack_local_header i) sizeofZipLocalFileHeader)
      sizeofZipLocalFileHeader = _
    rw [hf4]
    exact read_inside ⟨d, o, cdLocalHeaderOffset d p, false, r + 2⟩ _ 30 rfl
      (by rw [block_length]; exact Nat.le_refl _) hloc
  have hf6 : f6 = ⟨d, o, cdNext d p, false, r + 3⟩ := by
    show r5.1.seekg_beg current_pos = _
    rw [hr5, hcur]
    exact seekg_beg_good _ _ rfl
  have hlocal : local_header
      = ZipLocalFileHeader.ofBytes ((d.drop (cdLocalHeaderOffset d p)).take 30) := by
    show ZipLocalFileHeader.ofBytes r5.2 = _
    rw [hr5]
  have hfilename : filename = cdFilename d p := by
    show r2.2 = _
    rw [hr2]
  have hentry : entry = cdEntry d p := by
    show ({ filename := filename
            compressed_size := header.compressed_size
            uncompressed_size := header.uncompressed_size
            crc32 := header.crc32
            compression_method := header.compression
            file_data_offset :=
              (header.local_header_offset + sizeofZipLocalFileHeader
                + local_header.filename_length + local_header.extra_length) % 2 ^ 32 }
          : ZipFileEntry) = _
    rw [hfilename, hlocal, hheader, hlo, hcs, hus, hcrc, hcm, hlfn, hlex]
    rfl
  rw [if_neg (by rw [hheader, cdHeader_signature, hsig]; exact fun h => h rfl)]
  rw [hf6, hfilename, hentry]


theorem byteAt_overwrite (dest got : List Byte) (k : Nat) (hk : k < got.length) :
    byteAt (overwrite dest got) k = byteAt got k := by
  unfold byteAt overwrite
  simp [List.getD_eq_getElem?_getD, List.getElem?_append_left hk]

theorem readU32_overwrite (dest got : List Byte) (k : Nat) (hk : k + 3 < got.length) :
    readU32 (overwrite dest got) k = readU32 got k := by
  unfold readU32
  rw [byteAt_overwrite _ _ k (by omega), byteAt_overwrite _ _ (k + 1) (by omega),
    byteAt_overwrite _ _ (k + 2) (by omega), byteAt_overwrite _ _ (k + 3) (by omega)]

/-- A round of the loop on a record whose four signature bytes lie inside the file and are
not the Central Directory signature: the body returns false and stores no entry. -/
theorem parseRound_bad_signature (env : Env) (i : Nat) (a : OBBArchive)
    (hgood : a.m_obb_file.failbit = false)
    (hin : a.m_obb_file.pos + 4 ≤ a.m_obb_file.contents.length)
    (hsig : readU32 a.m_obb_file.contents a.m_obb_file.pos ≠ CD_SIGNATURE) :
    parseRound env i a =
      (false, { a with m_obb_file := (a.m_obb_file.read
        (block (env.stack_cd_header i) sizeofZipCentralDirectoryHeader)
        sizeofZipCentralDirectoryHeader).1 }) := by
  obtain ⟨cache, entries, ⟨d, o, p, f, r⟩, valid, allocs, freed⟩ := a
  simp only at hgood hin hsig
  subst hgood
  unfold parseRound
  lift_lets
  intro r1 header r2 filename f3 current_pos f4 r5 local_header entry f6
  have hlen : 4 ≤ ((d.drop p).take 46).length := by
    rw [List.length_take, List.length_drop]; omega
  have hheader : header.signature = readU32 d p := by
    show readU32 (IFStream.read ⟨d, o, p, false, r⟩
      (block (env.stack_cd_header i) sizeofZipCentralDirectoryHeader)
      sizeofZipCentralDirectoryHeader).2 0 = _
    unfold IFStream.read
    simp only [Bool.false_eq_true, if_false]
    show readU32 (overwrite _ ((d.drop p).take 46)) 0 = _
    rw [readU32_overwrite _ _ 0 (by omega)]
    exact readU32_take_drop d p 46 0 (by omega)
  rw [if_pos (by rw [hheader]; exact hsig)]

theorem parseRound_frame (env : Env) (i : Nat) (a : OBBArchive) :
    ParseFrame a (parseRound env i a).2 := by
  unfold parseRound
  lift_lets
  intro r1 header r2 filename f3 current_pos f4 r5 local_header entry f6
  by_cases h : header.signature ≠ CD_SIGNATURE
  · rw [if_pos h]
    exact ⟨rfl, rfl, rfl, rfl⟩
  · rw [if_neg h]
    exact ⟨rfl, rfl, rfl, rfl⟩

theorem ParseFrame.trans {a b c : OBBArchive} (h1 : ParseFrame a b) (h2 : ParseFrame b c) :
    ParseFrame a c :=
  ⟨h2.1.trans h1.1, h2.2.1.trans h1.2.1, h2.2.2.1.trans h1.2.2.1, h2.2.2.2.trans h1.2.2.2⟩

theorem parseEntries_frame (env : Env) (n : Nat) :
    ∀ (i : Nat) (a : OBBArchive), ParseFrame a (parseEntries env n i a).2 := by
  induction n with
  | zero =>
    intro i a
    rw [parseEntries_zero]
    exact ⟨rfl, rfl, rfl, rfl⟩
  | succ k ih =>
    intro i a
    rw [parseEntries_succ]
    have hf := parseRound_frame env i a
    rcases hr : parseRound env i a with ⟨b, a1⟩
    rw [hr] at hf
    cases b
    · exact hf
    · exact hf.trans (ih (i + 1) a1)

theorem findCentralDirectory_frame (env : Env) (a : OBBArchive)
    (hgood : a.m_obb_file.failbit = false) :
    ParseFrame a (findCentralDirectory env a).2 := by
  rw [findCentralDirectory_window env a hgood]
  by_cases hlt : (tailWindow a.m_obb_file.contents).length < 22
  · rw [if_pos hlt]
    exact ⟨rfl, rfl, rfl, rfl⟩
  · rw [if_neg hlt]
    cases scanEOCD (tailWindow a.m_obb_file.contents)
        ((tailWindow a.m_obb_file.contents).length - 22) with
    | none => exact ⟨rfl, rfl, rfl, rfl⟩
    | some i =>
      show ParseFrame a (parseCentralDirectory env (afterWindowRead a) _ _ _).2
      rw [parseCentralDirectory_eq]
      exact ParseFrame.trans ⟨rfl, rfl, rfl, rfl⟩ (parseEntries_frame env _ 0 _)

/-- The constructed archive is valid exactly when `findCentralDirectory` returned true on
the opened file, and its cache is empty. -/
theorem new_valid_iff (env : Env) (d : List Byte) :
    (OBBArchive.new env (some d)).m_is_valid = (findCentralDirectory env (OBBArchive.opened d)).1 ∧
    (OBBArchive.new env (some d)).m_file_buffer_cache_map = [] := by
  have hf := findCentralDirectory_frame env (OBBArchive.opened d) (opened_failbit d)
  rcases hr : findCentralDirectory env (OBBArchive.opened d) with ⟨b, a2⟩
  rw [hr] at hf
  rw [new_of_find env d b a2 hr]
  cases b
  · exact ⟨hf.2.1, hf.1⟩
  · exact ⟨rfl, hf.1⟩

/-- The archive of a file that cannot be opened. -/
theorem new_none (env : Env) :
    OBBArchive.new env none =
      { OBBArchive.initial with m_obb_file := IFStream.closed.open_ none } := by
  unfold OBBArchive.new parseOBBFile
  rfl

theorem cdRecordStart_next (d : List Byte) (p : Nat) :
    ∀ j, cdRecordStart d (cdNext d p) j = cdRecordStart d p (j + 1) := by
  intro j
  induction j with
  | zero => rfl
  | succ k ih =>
    show cdNext d (cdRecordStart d (cdNext d p) k) = cdNext d (cdRecordStart d p (k + 1))
    rw [ih]

theorem cdTable_next (d : List Byte) (p : Nat) (m : List (List Byte × ZipFileEntry)) :
    ∀ n, cdTable d (cdNext d p) (mapAssign m (cdFilename d p) (cdEntry d p)) n
      = cdTable d p m (n + 1) := by
  intro n
  induction n with
  | zero => rfl
  | succ k ih =>
    show mapAssign (cdTable d (cdNext d p) _ k) (cdFilename d (cdRecordStart d (cdNext d p) k))
        (cdEntry d (cdRecordStart d (cdNext d p) k))
      = mapAssign (cdTable d p m (k + 1)) (cdFilename d (cdRecordStart d p (k + 1)))
        (cdEntry d (cdRecordStart d p (k + 1)))
    rw [ih, cdRecordStart_next]

/-- The loop over `n` readable records: every record's entry is stored, in order, and the
loop ends with true. -/
theorem parseEntries_readable (env : Env) (d : List Byte) (o : Bool) (n : Nat) :
    ∀ (i p r : Nat) (cache : List (Path × FileBuffer)) (m : List (List Byte × ZipFileEntry))
      (valid : Bool) (allocs : Nat) (freed : List Nat),
      (∀ j, j < n → RecordReadable d (cdRecordStart d p j)) →
      parseEntries env n i ⟨cache, m, ⟨d, o, p, false, r⟩, valid, allocs, freed⟩ =
        (true, ⟨cache, cdTable d p m n, ⟨d, o, cdRecordStart d p n, false, r + 3 * n⟩,
          valid, allocs, freed⟩) := by
  induction n with
  | zero =>
    intro i p r cache m valid allocs freed _
    rw [parseEntries_zero]
    rfl
  | succ k ih =>
    intro i p r cache m valid allocs freed h
    rw [parseEntries_succ, parseRound_readable env i _ rfl (h 0 (Nat.succ_pos k))]
    show parseEntries env k (i + 1) ⟨cache, mapAssign m (cdFilename d p) (cdEntry d p),
      ⟨d, o, cdNext d p, false, r + 3⟩, valid, allocs, freed⟩ = _
    rw [ih (i + 1) (cdNext d p) (r + 3) cache _ valid allocs freed
      (fun j hj => by rw [cdRecordStart_next]; exact h (j + 1) (Nat.succ_lt_succ hj))]
    rw [cdTable_next, cdRecordStart_next]
    have e : r + 3 + 3 * k = r + 3 * (k + 1) := by omega
    rw [e]

/-- The loop when records `0 .. k-1` are readable and record `k < n` has four signature
bytes inside the file that are not the Central Directory signature: the loop returns false
and the table keeps the entries of the records before `k`. -/
theorem parseEntries_bad (env : Env) (d : List Byte) (o : Bool) (k : Nat) :
    ∀ (n i p r : Nat) (cache : List (Path × FileBuffer)) (m : List (List Byte × ZipFileEntry))
      (valid : Bool) (allocs : Nat) (freed : List Nat),
      k < n →
      (∀ j, j < k → RecordReadable d (cdRecordStart d p j)) →
      cdRecordStart d p k + 4 ≤ d.length →
      readU32 d (cdRecordStart d p k) ≠ CD_SIGNATURE →
      ∃ f, parseEntries env n i ⟨cache, m, ⟨d, o, p, false, r⟩, valid, allocs, freed⟩ =
        (false, ⟨cache, cdTable d p m k, f, valid, allocs, freed⟩) := by
  induction k with
  | zero =>
    intro n i p r cache m valid allocs freed hk _ hin hsig
    obtain ⟨n', rfl⟩ : ∃ n', n = n' + 1 := ⟨n - 1, by omega⟩
    rw [parseEntries_succ, parseRound_bad_signature env i _ rfl hin hsig]
    exact ⟨_, rfl⟩
  | succ k ih =>
    intro n i p r cache m valid allocs freed hk h hin hsig
    obtain ⟨n', rfl⟩ : ∃ n', n = n' + 1 := ⟨n - 1, by omega⟩
    rw [parseEntries_succ, parseRound_readable env i _ rfl (h 0 (Nat.succ_pos k))]
    show ∃ f, parseEntries env n' (i + 1) ⟨cache, mapAssign m (cdFilename d p) (cdEntry d p),
      ⟨d, o, cdNext d p, false, r + 3⟩, valid, allocs, freed⟩ = _
    obtain ⟨f, hf⟩ := ih n' (i + 1) (cdNext d p) (r + 3) cache _ valid allocs freed
      (by omega)
      (fun j hj => by rw [cdRecordStart_next]; exact h (j + 1) (Nat.succ_lt_succ hj))
      (by rw [cdRecordStart_next]; exact hin)
      (by rw [cdRecordStart_next]; exact hsig)
    rw [hf, cdTable_next]
    exact ⟨f, rfl⟩

/-! ## From the End-Of-Central-Directory record to the loop -/

theorem findCentralDirectory_of_eocd (env : Env) (d : List Byte) (i : Nat) (h : EocdAt d i) :
    findCentralDirectory env (OBBArchive.opened d) =
      parseEntries env (eocdTotalEntries d i) 0 (atCentralDirectory d (eocdCdOffset d i)) := by
  obtain ⟨hi, hsig, hmax⟩ := h
  rw [findCentralDirectory_window env _ (opened_failbit d), opened_contents, tailWindow_length,
    if_neg (by omega)]
  rw [scanEOCD_some _ _ i (by omega) hsig (fun j h1 h2 => hmax j (by omega) h1 (by omega))]
  show parseCentralDirectory env (afterWindowRead (OBBArchive.opened d)) _ _ _ = _
  rw [parseCentralDirectory_eq, seekg_beg_good _ _ rfl]
  rfl

theorem new_of_parse (env : Env) (d : List Byte) (i : Nat) (b : Bool) (a2 : OBBArchive)
    (h : EocdAt d i)
    (hp : parseEntries env (eocdTotalEntries d i) 0 (atCentralDirectory d (eocdCdOffset d i))
      = (b, a2)) :
    OBBArchive.new env (some d) = if b then { a2 with m_is_valid := true } else a2 :=
  new_of_find env d b a2 ((findCentralDirectory_of_eocd env d i h).trans hp)

theorem getFileBuffer_invalid (env : Env) (a : OBBArchive) (path : Path)
    (hmiss : cacheFind env a.m_file_buffer_cache_map path = none) (hv : a.m_is_valid = false) :
    getFileBuffer env a path = ((none, 0), a) := by
  unfold getFileBuffer
  rw [hmiss]
  show (if (!a.m_is_valid) = true then ((none, 0), a) else _) = _
  rw [hv]
  rfl

theorem parseCentralDirectory_opened (env : Env) (d : List Byte) (cd_offset cd_size total : Nat) :
    parseCentralDirectory env (afterWindowRead (OBBArchive.opened d)) cd_offset cd_size total =
      parseEntries env total 0 (atCentralDirectory d cd_offset) := by
  rw [parseCentralDirectory_eq, seekg_beg_good _ _ rfl]
  rfl

/-! ## C3: a bad Central Directory signature -/

/-- C3, as the claim states it, fails on `badSecondRecordFile`: the second of its two
Central Directory records has a wrong signature, the archive is invalid, and the entry
table still holds the entry of the first record. -/
theorem badSecondRecordFile_keeps_first_entry :
    EocdAt badSecondRecordFile 182 ∧ eocdTotalEntries badSecondRecordFile 182 = 2 ∧
    readU32 badSecondRecordFile
      (cdRecordStart badSecondRecordFile (eocdCdOffset badSecondRecordFile 182) 1)
        ≠ CD_SIGNATURE ∧
    (OBBArchive.new zeroEnv (some badSecondRecordFile)).isValid = false ∧
    (OBBArchive.new zeroEnv (some badSecondRecordFile)).m_zip_entries =
      [(bytesOf [97, 46, 116, 120, 116],
        { filename := bytesOf [97, 46, 116, 120, 116]
          compressed_size := 5
          uncompressed_size := 5
          crc32 := 0x3610a686
          compression_method := 0
          file_data_offset := 35 })] := by
  decide!

/-- C3 (amended): when the Central Directory records before record `k` can be read and
record `k`, one of the first `total_entries`, carries four signature bytes other than
`0x02014b50`, then `parseCentralDirectory` fails and the archive is invalid; the entry table
is not emptied, it holds the entries of the records before `k`; and no entry is handed
out, since every `getFileBuffer` on the archive returns `(null, 0)` and changes nothing. -/
theorem bad_signature_invalidates (env : Env) (d : List Byte) (i k : Nat)
    (hE : EocdAt d i) (hk : k < eocdTotalEntries d i)
    (hpre : ∀ j, j < k → RecordReadable d (cdRecordStart d (eocdCdOffset d i) j))
    (hin : cdRecordStart d (eocdCdOffset d i) k + 4 ≤ d.length)
    (hbad : readU32 d (cdRecordStart d (eocdCdOffset d i) k) ≠ CD_SIGNATURE) :
    (parseCentralDirectory env (afterWindowRead (OBBArchive.opened d)) (eocdCdOffset d i)
      (eocdCdSize d i) (eocdTotalEntries d i)).1 = false ∧
    (OBBArchive.new env (some d)).isValid = false ∧
    (OBBArchive.new env (some d)).m_zip_entries = cdTable d (eocdCdOffset d i) [] k ∧
    ∀ path : Path, getFileBuffer env (OBBArchive.new env (some d)) path
      = ((none, 0), OBBArchive.new env (some d)) := by
  obtain ⟨f, hf⟩ := parseEntries_bad env d true k (eocdTotalEntries d i) 0 (eocdCdOffset d i) 1
    [] [] false 0 [] hk hpre hin hbad
  have hf' : parseEntries env (eocdTotalEntries d i) 0 (atCentralDirectory d (eocdCdOffset d i))
      = (false, ⟨[], cdTable d (eocdCdOffset d i) [] k, f, false, 0, []⟩) := hf
  have hnew := new_of_parse env d i false _ hE hf'
  refine ⟨by rw [parseCentralDirectory_opened, hf'], ?_, ?_, ?_⟩
  · rw [hnew]; rfl
  · rw [hnew]; rfl
  · intro path
    rw [hnew]
    exact getFileBuffer_invalid env _ path rfl rfl

theorem bad_signature_invalidates_witness :
    (OBBArchive.new zeroEnv (some badSecondRecordFile)).isValid = false ∧
    (OBBArchive.new zeroEnv (some badSecondRecordFile)).m_zip_entries
      = cdTable badSecondRecordFile 80 [] 1 ∧
    getFileBuffer zeroEnv (OBBArchive.new zeroEnv (some badSecondRecordFile))
        (bytesOf [97, 46, 116, 120, 116])
      = ((none, 0), OBBArchive.new zeroEnv (some badSecondRecordFile)) :=
  have h := bad_signature_invalidates zeroEnv badSecondRecordFile 182 1 (by decide!) (by decide!)
    (fun j hj => by
      obtain rfl : j = 0 := by omega
      decide!)
    (by decide!) (by decide!)
  ⟨h.2.1, h.2.2.1, h.2.2.2 _⟩

/-! ## C4: the Local File header signature -/

/-- The archive of a container whose End-Of-Central-Directory record is at `i` and whose
first `total_entries` Central Directory records are readable. -/
theorem new_of_readable (env : Env) (d : List Byte) (i : Nat) (hE : EocdAt d i)
    (hall : ∀ j, j < eocdTotalEntries d i →
      RecordReadable d (cdRecordStart d (eocdCdOffset d i) j)) :
    OBBArchive.new env (some d) =
      { m_file_buffer_cache_map := []
        m_zip_entries := cdTable d (eocdCdOffset d i) [] (eocdTotalEntries d i)
        m_obb_file :=
          { contents := d, is_open := true
            pos := cdRecordStart d (eocdCdOffset d i) (eocdTotalEntries d i)
            failbit := false, reads := 1 + 3 * eocdTotalEntries d i }
        m_is_valid := true
        heap_allocs := 0
        heap_freed := [] } := by
  have hp := parseEntries_readable env d true (eocdTotalEntries d i) 0 (eocdCdOffset d i) 1
    [] [] false 0 [] hall
  have hp' : parseEntries env (eocdTotalEntries d i) 0 (atCentralDirectory d (eocdCdOffset d i))
      = (true, ⟨[], cdTable d (eocdCdOffset d i) [] (eocdTotalEntries d i),
          ⟨d, true, cdRecordStart d (eocdCdOffset d i) (eocdTotalEntries d i), false,
            1 + 3 * eocdTotalEntries d i⟩, false, 0, []⟩) := hp
  rw [new_of_parse env d i true _ hE hp']
  rfl

/-- C4, as the claim states it, fails on `badLocalSignatureFile`: its only Central Directory
record points at a Local File header whose first four bytes are not `0x04034b50`, and the
constructed archive is valid. -/
theorem badLocalSignatureFile_is_valid :
    EocdAt badLocalSignatureFile 91 ∧ eocdTotalEntries badLocalSignatureFile 91 = 1 ∧
    readU32 badLocalSignatureFile (cdLocalHeaderOffset badLocalSignatureFile
      (cdRecordStart badLocalSignatureFile (eocdCdOffset badLocalSignatureFile 91) 0))
        ≠ LOCAL_SIGNATURE ∧
    (OBBArchive.new zeroEnv (some badLocalSignatureFile)).isValid = true := by
  decide!

/-- C4 (amended): the Local File header signature is not examined. When the
End-Of-Central-Directory record is located and the first `total_entries` Central Directory
records are readable and carry `0x02014b50`, the constructed archive has
`isValid() == true`, also when some record's `local_header_offset` points at four bytes that
are not `0x04034b50`. -/
theorem local_signature_not_examined (env : Env) (d : List Byte) (i : Nat) (hE : EocdAt d i)
    (hall : ∀ j, j < eocdTotalEntries d i →
      RecordReadable d (cdRecordStart d (eocdCdOffset d i) j))
    (_hmis : ∃ j, j < eocdTotalEntries d i ∧
      readU32 d (cdLocalHeaderOffset d (cdRecordStart d (eocdCdOffset d i) j))
        ≠ LOCAL_SIGNATURE) :
    (OBBArchive.new env (some d)).isValid = true := by
  rw [new_of_readable env d i hE hall]
  rfl

theorem local_signature_not_examined_witness :
    (OBBArchive.new zeroEnv (some badLocalSignatureFile)).isValid = true :=
  local_signature_not_examined zeroEnv badLocalSignatureFile 91 (by decide!)
    (fun j hj => by
      have e : eocdTotalEntries badLocalSignatureFile 91 = 1 := by decide!
      rw [e] at hj
      obtain rfl : j = 0 := by omega
      decide!)
    ⟨0, by decide!, by decide!⟩

/-! ## The entry table -/

theorem mapFind_mapAssign {κ ν : Type} [DecidableEq κ] (m : List (κ × ν)) (k k' : κ) (v : ν) :
    mapFind (mapAssign m k v) k' = if k = k' then some v else mapFind m k' := by
  induction m with
  | nil => simp [mapAssign, mapFind]
  | cons kv rest ih =>
    obtain ⟨k0, v0⟩ := kv
    by_cases h0 : k0 = k
    · subst h0
      by_cases h1 : k0 = k' <;> simp [mapAssign, mapFind, h1]
    · by_cases h1 : k0 = k'
      · subst h1
        have h2 : ¬ k = k0 := fun h => h0 h.symm
        simp [mapAssign, mapFind, h0, h2]
      · simp [mapAssign, mapFind, h0, h1, ih]

/-- Every entry of the table built from `n` records is the entry of one of these records,
stored under that record's filename, or was in the table before. -/
theorem mapFind_eq_none_iff {κ ν : Type} [DecidableEq κ] (m : List (κ × ν)) (k : κ) :
    mapFind m k = none ↔ k ∉ m.map Prod.fst := by
  induction m with
  | nil => simp [mapFind]
  | cons kv rest ih =>
    obtain ⟨k0, v0⟩ := kv
    by_cases h0 : k0 = k
    · simp [mapFind, h0]
    · have h1 : ¬ k = k0 := fun h => h0 h.symm
      simp [mapFind, h0, h1, ih]

theorem cdTable_find (d : List Byte) (off : Nat) (m : List (List Byte × ZipFileEntry))
    (name : List Byte) (e : ZipFileEntry) :
    ∀ n, mapFind (cdTable d off m n) name = some e →
      mapFind m name = some e ∨
      ∃ k, k < n ∧ name = cdFilename d (cdRecordStart d off k) ∧
        e = cdEntry d (cdRecordStart d off k) := by
  intro n
  induction n with
  | zero => exact fun h => Or.inl h
  | succ j ih =>
    intro h
    have h' : mapFind (mapAssign (cdTable d off m j) (cdFilename d (cdRecordStart d off j))
        (cdEntry d (cdRecordStart d off j))) name = some e := h
    rw [mapFind_mapAssign] at h'
    by_cases hk : cdFilename d (cdRecordStart d off j) = name
    · rw [if_pos hk] at h'
      exact Or.inr ⟨j, Nat.lt_succ_self j, hk.symm, (Option.some.inj h').symm⟩
    · rw [if_neg hk] at h'
      rcases ih h' with h1 | ⟨k, hk1, hk2, hk3⟩
      · exact Or.inl h1
      · exact Or.inr ⟨k, Nat.lt_succ_of_lt hk1, hk2, hk3⟩

/-! ## C5: the payload offset -/

/-- C5 (amended): in a container whose first `total_entries` Central Directory records are
readable, every entry of the table comes from one of these records and its
`file_data_offset` is `local_header_offset + 30 + n + m` reduced modulo `2^32`, where `n` and
`m` are the u16 values at bytes 26 and 28 of the Local File header at `local_header_offset`;
it equals that sum whenever the sum is below `2^32`. -/
theorem file_data_offset_wraps (env : Env) (d : List Byte) (i : Nat) (hE : EocdAt d i)
    (hall : ∀ j, j < eocdTotalEntries d i →
      RecordReadable d (cdRecordStart d (eocdCdOffset d i) j))
    (name : List Byte) (e : ZipFileEntry)
    (hfind : mapFind (OBBArchive.new env (some d)).m_zip_entries name = some e) :
    ∃ k, k < eocdTotalEntries d i ∧
      name = cdFilename d (cdRecordStart d (eocdCdOffset d i) k) ∧
      e.file_data_offset =
        (cdLocalHeaderOffset d (cdRecordStart d (eocdCdOffset d i) k) + 30
          + readU16 d (cdLocalHeaderOffset d (cdRecordStart d (eocdCdOffset d i) k) + 26)
          + readU16 d (cdLocalHeaderOffset d (cdRecordStart d (eocdCdOffset d i) k) + 28))
          % 2 ^ 32 ∧
      (cdLocalHeaderOffset d (cdRecordStart d (eocdCdOffset d i) k) + 30
          + readU16 d (cdLocalHeaderOffset d (cdRecordStart d (eocdCdOffset d i) k) + 26)
          + readU16 d (cdLocalHeaderOffset d (cdRecordStart d (eocdCdOffset d i) k) + 28)
          < 2 ^ 32 →
        e.file_data_offset =
          cdLocalHeaderOffset d (cdRecordStart d (eocdCdOffset d i) k) + 30
          + readU16 d (cdLocalHeaderOffset d (cdRecordStart d (eocdCdOffset d i) k) + 26)
          + readU16 d (cdLocalHeaderOffset d (cdRecordStart d (eocdCdOffset d i) k) + 28)) := by
  rw [new_of_readable env d i hE hall] at hfind
  have hfind' : mapFind (cdTable d (eocdCdOffset d i) [] (eocdTotalEntries d i)) name = some e :=
    hfind
  rcases cdTable_find d _ [] name e _ hfind' with h | ⟨k, hk, hname, he⟩
  · exact absurd h (by simp [mapFind])
  · refine ⟨k, hk, hname, ?_, ?_⟩
    · rw [he]; rfl
    · intro hlt
      rw [he]
      exact Nat.mod_eq_of_lt hlt

theorem file_data_offset_wraps_witness :
    ∃ k, k < eocdTotalEntries sampleFile 188 ∧
      bBin = cdFilename sampleFile (cdRecordStart sampleFile (eocdCdOffset sampleFile 188) k) ∧
      (75 : Nat) =
        (cdLocalHeaderOffset sampleFile (cdRecordStart sampleFile (eocdCdOffset sampleFile 188) k)
          + 30
          + readU16 sampleFile (cdLocalHeaderOffset sampleFile
              (cdRecordStart sampleFile (eocdCdOffset sampleFile 188) k) + 26)
          + readU16 sampleFile (cdLocalHeaderOffset sampleFile
              (cdRecordStart sampleFile (eocdCdOffset sampleFile 188) k) + 28)) % 2 ^ 32 :=
  have h := file_data_offset_wraps zeroEnv sampleFile 188 (by decide!)
    (fun j hj => by
      have e : eocdTotalEntries sampleFile 188 = 2 := by decide!
      rw [e] at hj
      have : j = 0 ∨ j = 1 := by omega
      rcases this with rfl | rfl <;> decide!)
    bBin
    { filename := bBin, compressed_size := 11, uncompressed_size := 29, crc32 := 0x2ce741f3
      compression_method := 8, file_data_offset := 75 }
    (by decide!)
  h.imp fun _ hk => ⟨hk.1, hk.2.1, hk.2.2.1⟩

/-! ## A container larger than 4 GiB -/

theorem byteAt_append_left (xs ys : List Byte) (k : Nat) (h : k < xs.length) :
    byteAt (xs ++ ys) k = byteAt xs k := by
  unfold byteAt
  simp [List.getD_eq_getElem?_getD, List.getElem?_append_left h]

theorem byteAt_append_right (xs ys : List Byte) (k : Nat) :
    byteAt (xs ++ ys) (xs.length + k) = byteAt ys k := by
  unfold byteAt
  simp [List.getD_eq_getElem?_getD, List.getElem?_append_right]

theorem byteAt_drop (d : List Byte) (p k : Nat) : byteAt (d.drop p) k = byteAt d (p + k) := by
  unfold byteAt
  simp [List.getD_eq_getElem?_getD, List.getElem?_drop]

theorem readU16_drop (d : List Byte) (p k : Nat) : readU16 (d.drop p) k = readU16 d (p + k) := by
  unfold readU16
  rw [byteAt_drop, byteAt_drop]
  rfl

theorem readU32_drop (d : List Byte) (p k : Nat) : readU32 (d.drop p) k = readU32 d (p + k) := by
  unfold readU32
  rw [byteAt_drop, byteAt_drop, byteAt_drop, byteAt_drop]
  rfl

theorem fourGiBFile_length : fourGiBFile.length = 4294967342 := by
  have h1 : fourGiBHead.length = 51 := by decide!
  have h2 : fourGiBTail.length = 62 := by decide!
  unfold fourGiBFile
  rw [List.length_append, List.length_append, List.length_replicate, h1, h2]
  rfl

theorem fourGiBFile_head (k : Nat) (h : k < 51) : byteAt fourGiBFile k = byteAt fourGiBHead k := by
  have h1 : fourGiBHead.length = 51 := by decide!
  unfold fourGiBFile
  exact byteAt_append_left _ _ k (by omega)

theorem fourGiBFile_tail (k : Nat) :
    byteAt fourGiBFile (4294967280 + k) = byteAt fourGiBTail k := by
  have h1 : fourGiBHead.length = 51 := by decide!
  have e : 4294967280 + k = fourGiBHead.length
      + ((List.replicate fourGiBPad (0 : Byte)).length + k) := by
    rw [h1, List.length_replicate]
    unfold fourGiBPad
    omega
  unfold fourGiBFile
  rw [e, byteAt_append_right, byteAt_append_right]


theorem fourGiBFile_readU16_head (k : Nat) (h : k + 1 < 51) :
    readU16 fourGiBFile k = readU16 fourGiBHead k := by
  unfold readU16
  rw [fourGiBFile_head k (by omega), fourGiBFile_head (k + 1) (by omega)]

theorem fourGiBFile_readU32_head (k : Nat) (h : k + 3 < 51) :
    readU32 fourGiBFile k = readU32 fourGiBHead k := by
  unfold readU32
  rw [fourGiBFile_head k (by omega), fourGiBFile_head (k + 1) (by omega),
    fourGiBFile_head (k + 2) (by omega), fourGiBFile_head (k + 3) (by omega)]

theorem fourGiBFile_readU16_tail (k : Nat) :
    readU16 fourGiBFile (4294967280 + k) = readU16 fourGiBTail k := by
  unfold readU16
  rw [Nat.add_assoc 4294967280 k 1, fourGiBFile_tail, fourGiBFile_tail]

theorem fourGiBFile_readU32_tail (k : Nat) :
    readU32 fourGiBFile (4294967280 + k) = readU32 fourGiBTail k := by
  unfold readU32
  rw [Nat.add_assoc 4294967280 k 1, Nat.add_assoc 4294967280 k 2, Nat.add_assoc 4294967280 k 3,
    fourGiBFile_tail, fourGiBFile_tail, fourGiBFile_tail, fourGiBFile_tail]

theorem fourGiBFile_window : tailWindow fourGiBFile = fourGiBFile.drop 4294901785 := by
  unfold tailWindow
  rw [fourGiBFile_length]
  have e : 4294967342 - min 4294967342 65557 = 4294901785 := by decide
  rw [e]

theorem fourGiBFile_eocd :
    EocdAt fourGiBFile 65535 ∧ eocdTotalEntries fourGiBFile 65535 = 1 ∧
    eocdCdOffset fourGiBFile 65535 = 0 := by
  have hmin : min fourGiBFile.length 65557 = 65557 := by
    rw [fourGiBFile_length]
    decide
  have e1 : 4294901785 + 65535 = 4294967280 + 40 := by decide
  have e2 : 4294901785 + (65535 + 10) = 4294967280 + 50 := by decide
  have e3 : 4294901785 + (65535 + 16) = 4294967280 + 56 := by decide
  refine ⟨⟨?_, ?_, ?_⟩, ?_, ?_⟩
  · rw [hmin]
  · rw [fourGiBFile_window, readU32_drop, e1, fourGiBFile_readU32_tail]
    decide!
  · intro j h1 h2 h3
    rw [hmin] at h3
    omega
  · unfold eocdTotalEntries
    rw [fourGiBFile_window, readU16_drop, e2, fourGiBFile_readU16_tail]
    decide!
  · unfold eocdCdOffset
    rw [fourGiBFile_window, readU32_drop, e3, fourGiBFile_readU32_tail]
    decide!

theorem fourGiBFile_record :
    cdFilenameLength fourGiBFile 0 = 5 ∧ cdLocalHeaderOffset fourGiBFile 0 = 4294967280 ∧
    cdFilename fourGiBFile 0 = aTxt ∧ RecordReadable fourGiBFile 0 := by
  have hfn : cdFilenameLength fourGiBFile 0 = 5 := by
    unfold cdFilenameLength
    rw [fourGiBFile_readU16_head _ (by decide)]
    decide!
  have hlo : cdLocalHeaderOffset fourGiBFile 0 = 4294967280 := by
    unfold cdLocalHeaderOffset
    rw [fourGiBFile_readU32_head _ (by decide)]
    decide!
  refine ⟨hfn, hlo, ?_, ?_, ?_, ?_⟩
  · unfold cdFilename
    rw [hfn]
    unfold fourGiBFile
    have h1 : fourGiBHead.length = 51 := by decide!
    rw [List.drop_append_of_le_length (by rw [h1]; decide),
      List.take_append_of_le_length (by rw [List.length_drop, h1])]
    decide!
  · rw [fourGiBFile_readU32_head _ (by decide)]
    decide!
  · rw [hfn, fourGiBFile_length]
    decide
  · rw [hlo, fourGiBFile_length]
    decide



theorem cdEntry_file_data_offset (d : List Byte) (s : Nat) :
    (cdEntry d s).file_data_offset =
      (cdLocalHeaderOffset d s + 30 + readU16 d (cdLocalHeaderOffset d s + 26)
        + readU16 d (cdLocalHeaderOffset d s + 28)) % 2 ^ 32 := rfl

/-- C5, as the claim states it, fails on `fourGiBFile`: the archive is valid, its entry comes
from a record with `local_header_offset = 4294967280`, the Local File header there has
`n = 5` and `m = 0`, so that `local_header_offset + 30 + n + m = 4294967315`, and the stored
`file_data_offset` is 19. -/
theorem fourGiBFile_offset_wrapped :
    (OBBArchive.new zeroEnv (some fourGiBFile)).isValid = true ∧
    cdLocalHeaderOffset fourGiBFile
      (cdRecordStart fourGiBFile (eocdCdOffset fourGiBFile 65535) 0) = 4294967280 ∧
    readU16 fourGiBFile (4294967280 + 26) = 5 ∧
    readU16 fourGiBFile (4294967280 + 28) = 0 ∧
    (mapFind (OBBArchive.new zeroEnv (some fourGiBFile)).m_zip_entries aTxt).map
      ZipFileEntry.file_data_offset = some 19 := by
  obtain ⟨hE, htotal, hoff⟩ := fourGiBFile_eocd
  obtain ⟨_, hlo, hname, hrec⟩ := fourGiBFile_record
  have hn : readU16 fourGiBFile (4294967280 + 26) = 5 := by
    rw [fourGiBFile_readU16_tail]
    decide!
  have hm : readU16 fourGiBFile (4294967280 + 28) = 0 := by
    rw [fourGiBFile_readU16_tail]
    decide!
  have hall : ∀ j, j < eocdTotalEntries fourGiBFile 65535 →
      RecordReadable fourGiBFile (cdRecordStart fourGiBFile (eocdCdOffset fourGiBFile 65535) j) := by
    intro j hj
    rw [htotal] at hj
    obtain rfl : j = 0 := by omega
    rw [hoff]
    exact hrec
  rw [new_of_readable zeroEnv fourGiBFile 65535 hE hall, htotal, hoff]
  refine ⟨rfl, hlo, hn, hm, ?_⟩
  show (mapFind (mapAssign [] (cdFilename fourGiBFile 0) (cdEntry fourGiBFile 0)) aTxt).map
    ZipFileEntry.file_data_offset = some 19
  rewrite [mapFind_mapAssign, if_pos hname, Option.map_some', cdEntry_file_data_offset, hlo,
    hn, hm]
  decide

/-! ## C6: the walk over the Central Directory -/

/-- A `read` that starts at or behind the end of the file stores nothing and fails. -/
theorem read_beyond (s : IFStream) (dest : List Byte) (n : Nat) (hgood : s.failbit = false)
    (hpos : s.contents.length ≤ s.pos) (hn : 0 < n) :
    s.read dest n = ({ s with failbit := true, reads := s.reads + 1 }, dest) := by
  obtain ⟨d, o, p, f, r⟩ := s
  simp only at hgood hpos
  subst hgood
  have hnil : (d.drop p).take n = [] := by
    rw [List.drop_eq_nil_of_le hpos, List.take_nil]
  unfold IFStream.read
  simp only [Bool.false_eq_true, if_false]
  rw [hnil]
  simp [overwrite, hn]

/-- A round of the loop on a record whose header and filename can be read but whose
`local_header_offset` lies at or behind the end of the file: an entry is stored under the
record's filename and the stream is left in the failed state. -/
theorem parseRound_local_beyond (env : Env) (i : Nat) (a : OBBArchive)
    (hgood : a.m_obb_file.failbit = false)
    (hsig : readU32 a.m_obb_file.contents a.m_obb_file.pos = CD_SIGNATURE)
    (hin : a.m_obb_file.pos + 46 + cdFilenameLength a.m_obb_file.contents a.m_obb_file.pos
      ≤ a.m_obb_file.contents.length)
    (hloc : a.m_obb_file.contents.length
      ≤ cdLocalHeaderOffset a.m_obb_file.contents a.m_obb_file.pos) :
    ∃ (f : IFStream) (e : ZipFileEntry), f.failbit = true ∧
      parseRound env i a =
        (true, { a with
          m_obb_file := f
          m_zip_entries := mapAssign a.m_zip_entries
            (cdFilename a.m_obb_file.contents a.m_obb_file.pos) e }) := by
  obtain ⟨cache, entries, ⟨d, o, p, f, r⟩, valid, allocs, freed⟩ := a
  simp only at hgood hsig hin hloc
  subst hgood
  obtain ⟨hfn, hex, hco, hlo, hcs, hus, hcrc, hcm⟩ := cdHeader_fields d p
  unfold parseRound
  lift_lets
  intro r1 header r2 filename f3 current_pos f4 r5 local_header entry f6
  have hr1 : r1 = (⟨d, o, p + 46, false, r + 1⟩, (d.drop p).take 46) :=
    read_inside ⟨d, o, p, false, r⟩ _ 46 rfl (by rw [block_length]; exact Nat.le_refl _)
      (by show p + 46 ≤ d.length; omega)
  have hheader : header = ZipCentralDirectoryHeader.ofBytes ((d.drop p).take 46) := by
    show ZipCentralDirectoryHeader.ofBytes r1.2 = _
    rw [hr1]
  have hr2 : r2 = (⟨d, o, p + 46 + cdFilenameLength d p, false, r + 2⟩, cdFilename d p) := by
    show r1.1.read (List.replicate header.filename_length 0) header.filename_length = _
    rw [hheader, hfn, hr1]
    exact read_inside ⟨d, o, p + 46, false, r + 1⟩ _ _ rfl (by simp)
      (by show p + 46 + cdFilenameLength d p ≤ d.length; omega)
  have hf3 : f3 = ⟨d, o, cdNext d p, false, r + 2⟩ := by
    show r2.1.seekg_cur ((header.extra_length + header.comment_length : Nat) : Int) = _
    rw [hheader, hex, hco, hr2]
    rw [seekg_cur_good _ _ rfl]
    simp only [cdNext, Nat.add_assoc]
  have hf4 : f4 = ⟨d, o, cdLocalHeaderOffset d p, false, r + 2⟩ := by
    show f3.seekg_beg (header.local_header_offset : Int) = _
    rw [hheader, hlo, hf3]
    exact seekg_beg_good _ _ rfl
  have hr5 : r5.1 = ⟨d, o, cdLocalHeaderOffset d p, true, r + 3⟩ := by
    show (f4.read (block (env.stack_local_header i) sizeofZipLocalFileHeader)
      sizeofZipLocalFileHeader).1 = _
    rw [hf4, read_beyond _ _ _ rfl hloc (by decide)]
  have hf6 : f6 = ⟨d, o, cdLocalHeaderOffset d p, true, r + 3⟩ := by
    show r5.1.seekg_beg current_pos = _
    rw [hr5]
    exact seekg_beg_failed _ _ rfl
  have hfilename : filename = cdFilename d p := by
    show r2.2 = _
    rw [hr2]
  rw [if_neg (by rw [hheader, cdHeader_signature, hsig]; exact fun h => h rfl)]
  rw [hf6, hfilename]
  exact ⟨_, entry, rfl, rfl⟩

/-- A round of the loop on a stream in the failed state: nothing is read from the file.
Either the body returns false, or it stores an entry under a name made of zero bytes. -/
theorem parseRound_failed (env : Env) (i : Nat) (a : OBBArchive)
    (hfail : a.m_obb_file.failbit = true) :
    ∃ f : IFStream, f.failbit = true ∧
      (parseRound env i a = (false, { a with m_obb_file := f }) ∨
       ∃ (n : Nat) (e : ZipFileEntry), parseRound env i a =
         (true, { a with
           m_obb_file := f
           m_zip_entries := mapAssign a.m_zip_entries (List.replicate n 0) e })) := by
  obtain ⟨cache, entries, ⟨d, o, p, f, r⟩, valid, allocs, freed⟩ := a
  simp only at hfail
  subst hfail
  unfold parseRound
  lift_lets
  intro r1 header r2 filename f3 current_pos f4 r5 local_header entry f6
  have hr1 : r1.1 = ⟨d, o, p, true, r + 1⟩ := by
    show (IFStream.read ⟨d, o, p, true, r⟩ _ _).1 = _
    rw [read_failed _ _ _ rfl]
  have hr2 : r2 = (⟨d, o, p, true, r + 2⟩, List.replicate header.filename_length 0) := by
    show r1.1.read (List.replicate header.filename_length 0) header.filename_length = _
    rw [hr1, read_failed _ _ _ rfl]
  have hf3 : f3 = ⟨d, o, p, true, r + 2⟩ := by
    show r2.1.seekg_cur _ = _
    rw [hr2]
    exact seekg_cur_failed _ _ rfl
  have hf4 : f4 = ⟨d, o, p, true, r + 2⟩ := by
    show f3.seekg_beg _ = _
    rw [hf3]
    exact seekg_beg_failed _ _ rfl
  have hr5 : r5.1 = ⟨d, o, p, true, r + 3⟩ := by
    show (f4.read _ _).1 = _
    rw [hf4, read_failed _ _ _ rfl]
  have hf6 : f6 = ⟨d, o, p, true, r + 3⟩ := by
    show r5.1.seekg_beg current_pos = _
    rw [hr5]
    exact seekg_beg_failed _ _ rfl
  have hfilename : filename = List.replicate header.filename_length 0 := by
    show r2.2 = _
    rw [hr2]
  by_cases h : header.signature ≠ CD_SIGNATURE
  · rw [if_pos h, hr1]
    exact ⟨_, rfl, Or.inl rfl⟩
  · rw [if_neg h, hf6, hfilename]
    exact ⟨_, rfl, Or.inr ⟨_, entry, rfl⟩⟩

theorem replicate_zero_ne_bTxt (n : Nat) : List.replicate n (0 : Byte) ≠ bTxt := by
  cases n with
  | zero => decide
  | succ k =>
    intro h
    have h0 : (List.replicate (k + 1) (0 : Byte)).head? = bTxt.head? := by rw [h]
    rw [List.replicate_succ, List.head?_cons] at h0
    revert h0
    decide

/-- On `lostLocalHeaderFile` no environment makes the table hold an entry for `b.txt`. -/
theorem lostLocalHeaderFile_no_bTxt (env : Env) :
    mapFind (OBBArchive.new env (some lostLocalHeaderFile)).m_zip_entries bTxt = none := by
  have hE : EocdAt lostLocalHeaderFile 182 := by decide!
  have htotal : eocdTotalEntries lostLocalHeaderFile 182 = 2 := by decide!
  have hoff : eocdCdOffset lostLocalHeaderFile 182 = 80 := by decide!
  have hname : ¬ cdFilename lostLocalHeaderFile 80 = bTxt := by decide!
  obtain ⟨f, e, hf, hround⟩ := parseRound_local_beyond env 0
    (atCentralDirectory lostLocalHeaderFile 80) rfl (by decide!) (by decide!) (by decide!)
  have hround' : parseRound env 0 (atCentralDirectory lostLocalHeaderFile 80) =
      (true, ⟨[], mapAssign [] (cdFilename lostLocalHeaderFile 80) e, f, false, 0, []⟩) := hround
  obtain ⟨f2, _, hcase⟩ := parseRound_failed env 1
    ⟨[], mapAssign [] (cdFilename lostLocalHeaderFile 80) e, f, false, 0, []⟩ hf
  rcases hcase with h2 | ⟨n, e2, h2⟩
  · have hp : parseEntries env (eocdTotalEntries lostLocalHeaderFile 182) 0
        (atCentralDirectory lostLocalHeaderFile (eocdCdOffset lostLocalHeaderFile 182))
        = (false, ⟨[], mapAssign [] (cdFilename lostLocalHeaderFile 80) e, f2, false, 0, []⟩) := by
      rw [htotal, hoff, parseEntries_succ, hround']
      show parseEntries env 1 1 _ = _
      rw [parseEntries_succ, h2]
    rw [new_of_parse env _ 182 false _ hE hp]
    show mapFind (mapAssign [] (cdFilename lostLocalHeaderFile 80) e) bTxt = none
    rw [mapFind_mapAssign, if_neg hname]
    rfl
  · have hp : parseEntries env (eocdTotalEntries lostLocalHeaderFile 182) 0
        (atCentralDirectory lostLocalHeaderFile (eocdCdOffset lostLocalHeaderFile 182))
        = (true, ⟨[], mapAssign (mapAssign [] (cdFilename lostLocalHeaderFile 80) e)
            (List.replicate n 0) e2, f2, false, 0, []⟩) := by
      rw [htotal, hoff, parseEntries_succ, hround']
      show parseEntries env 1 1 _ = _
      rw [parseEntries_succ, h2]
      show parseEntries env 0 2 _ = _
      rw [parseEntries_zero]
    rw [new_of_parse env _ 182 true _ hE hp]
    show mapFind (mapAssign (mapAssign [] (cdFilename lostLocalHeaderFile 80) e)
      (List.replicate n 0) e2) bTxt = none
    rw [mapFind_mapAssign, if_neg (replicate_zero_ne_bTxt n), mapFind_mapAssign, if_neg hname]
    rfl

/-- C6, as the claim states it, fails on `lostLocalHeaderFile`: both of its Central
Directory records carry `0x02014b50`, yet `parseCentralDirectory` returns false when
uninitialised storage holds zero bytes, and whatever it holds the table gets no entry for the
second record's filename `b.txt`. -/
theorem lostLocalHeaderFile_walk_breaks :
    EocdAt lostLocalHeaderFile 182 ∧ eocdTotalEntries lostLocalHeaderFile 182 = 2 ∧
    readU32 lostLocalHeaderFile
      (cdRecordStart lostLocalHeaderFile (eocdCdOffset lostLocalHeaderFile 182) 0)
        = CD_SIGNATURE ∧
    readU32 lostLocalHeaderFile
      (cdRecordStart lostLocalHeaderFile (eocdCdOffset lostLocalHeaderFile 182) 1)
        = CD_SIGNATURE ∧
    cdFilename lostLocalHeaderFile
      (cdRecordStart lostLocalHeaderFile (eocdCdOffset lostLocalHeaderFile 182) 1) = bTxt ∧
    (parseCentralDirectory zeroEnv (afterWindowRead (OBBArchive.opened lostLocalHeaderFile))
      (eocdCdOffset lostLocalHeaderFile 182) (eocdCdSize lostLocalHeaderFile 182)
      (eocdTotalEntries lostLocalHeaderFile 182)).1 = false ∧
    ¬ ∃ env : Env,
      mapFind (OBBArchive.new env (some lostLocalHeaderFile)).m_zip_entries bTxt ≠ none :=
  ⟨by decide!, by decide!, by decide!, by decide!, by decide!, by decide!,
    fun ⟨env, h⟩ => h (lostLocalHeaderFile_no_bTxt env)⟩

/-- C6 (amended): when the first `total_entries` Central Directory records carry
`0x02014b50` and each can be read completely (header, filename and the Local File header
it points to end inside the file), `parseCentralDirectory` succeeds, the archive is valid,
and the table is the one obtained by walking the records in order: record 0 starts at
`cd_offset`, record `k+1` at `start(k) + 46 + filename_length + extra_length +
comment_length` (u16 at 28, 30, 32), and record `k` stores, under the `filename_length`
bytes at `start + 46`, the entry with compression method u16 at 10, checksum u32 at 16,
compressed size u32 at 20 and uncompressed size u32 at 24 of its header. -/
theorem parseCentralDirectory_walks_records (env : Env) (d : List Byte) (i : Nat)
    (hE : EocdAt d i)
    (hall : ∀ j, j < eocdTotalEntries d i →
      RecordReadable d (cdRecordStart d (eocdCdOffset d i) j)) :
    (parseCentralDirectory env (afterWindowRead (OBBArchive.opened d)) (eocdCdOffset d i)
      (eocdCdSize d i) (eocdTotalEntries d i)).1 = true ∧
    (OBBArchive.new env (some d)).isValid = true ∧
    (OBBArchive.new env (some d)).m_zip_entries
      = cdTable d (eocdCdOffset d i) [] (eocdTotalEntries d i) ∧
    cdRecordStart d (eocdCdOffset d i) 0 = eocdCdOffset d i ∧
    (∀ k, cdRecordStart d (eocdCdOffset d i) (k + 1) =
      cdRecordStart d (eocdCdOffset d i) k + 46
        + readU16 d (cdRecordStart d (eocdCdOffset d i) k + 28)
        + readU16 d (cdRecordStart d (eocdCdOffset d i) k + 30)
        + readU16 d (cdRecordStart d (eocdCdOffset d i) k + 32)) ∧
    (∀ (m : List (List Byte × ZipFileEntry)) (k : Nat),
      cdTable d (eocdCdOffset d i) m (k + 1) =
        mapAssign (cdTable d (eocdCdOffset d i) m k)
          ((d.drop (cdRecordStart d (eocdCdOffset d i) k + 46)).take
            (readU16 d (cdRecordStart d (eocdCdOffset d i) k + 28)))
          (cdEntry d (cdRecordStart d (eocdCdOffset d i) k))) ∧
    (∀ s, (cdEntry d s).filename = (d.drop (s + 46)).take (readU16 d (s + 28)) ∧
      (cdEntry d s).compression_method = readU16 d (s + 10) ∧
      (cdEntry d s).crc32 = readU32 d (s + 16) ∧
      (cdEntry d s).compressed_size = readU32 d (s + 20) ∧
      (cdEntry d s).uncompressed_size = readU32 d (s + 24)) := by
  have hp := parseEntries_readable env d true (eocdTotalEntries d i) 0 (eocdCdOffset d i) 1
    [] [] false 0 [] hall
  refine ⟨?_, ?_, ?_, rfl, fun k => rfl, fun m k => rfl, fun s => ⟨rfl, rfl, rfl, rfl, rfl⟩⟩
  · rw [parseCentralDirectory_opened]
    exact congrArg Prod.fst hp
  · rw [new_of_readable env d i hE hall]
    rfl
  · rw [new_of_readable env d i hE hall]

theorem parseCentralDirectory_walks_records_witness :
    (OBBArchive.new zeroEnv (some sampleFile)).isValid = true ∧
    (OBBArchive.new zeroEnv (some sampleFile)).m_zip_entries
      = cdTable sampleFile (eocdCdOffset sampleFile 188) [] (eocdTotalEntries sampleFile 188) :=
  have h := parseCentralDirectory_walks_records zeroEnv sampleFile 188 (by decide!)
    (fun j hj => by
      have e : eocdTotalEntries sampleFile 188 = 2 := by decide!
      rw [e] at hj
      have : j = 0 ∨ j = 1 := by omega
      rcases this with rfl | rfl <;> decide!)
  ⟨h.2.1, h.2.2.1⟩

/-! ## C7: stored entries -/

theorem getFileBuffer_miss (env : Env) (a : OBBArchive) (path : Path) (entry : ZipFileEntry)
    (hmiss : cacheFind env a.m_file_buffer_cache_map path = none) (hv : a.m_is_valid = true)
    (hfind : mapFind a.m_zip_entries path = some entry) :
    getFileBuffer env a path = fetchEntry env a path entry := by
  unfold getFileBuffer
  rw [hmiss]
  show (if (!a.m_is_valid) = true then ((none, 0), a) else _) = _
  rw [hv, if_neg (by decide)]
  show (match mapFind a.m_zip_entries path with
    | none => ((none, 0), a)
    | some entry => fetchEntry env a path entry) = _
  rw [hfind]

theorem getFileBuffer_hit (env : Env) (a : OBBArchive) (path : Path) (cached : FileBuffer)
    (hhit : cacheFind env a.m_file_buffer_cache_map path = some cached) :
    getFileBuffer env a path = (cached, a) := by
  unfold getFileBuffer
  rw [hhit]

theorem getFileBuffer_absent (env : Env) (a : OBBArchive) (path : Path)
    (hmiss : cacheFind env a.m_file_buffer_cache_map path = none)
    (hfind : mapFind a.m_zip_entries path = none) :
    getFileBuffer env a path = ((none, 0), a) := by
  unfold getFileBuffer
  rw [hmiss]
  show (if (!a.m_is_valid) = true then ((none, 0), a) else
    (match mapFind a.m_zip_entries path with
    | none => ((none, 0), a)
    | some entry => fetchEntry env a path entry)) = _
  rw [hfind]
  by_cases h : (!a.m_is_valid) = true
  · rw [if_pos h]
  · rw [if_neg h]

theorem cacheFind_append_new {ν : Type} (env : Env) (m : List (Path × ν)) (k : Path) (v : ν)
    (h : cacheFind env m k = none) : cacheFind env (m ++ [(k, v)]) k = some v := by
  induction m with
  | nil => simp [cacheFind]
  | cons kv rest ih =>
    obtain ⟨k0, v0⟩ := kv
    by_cases h0 : env.path_key k0 = env.path_key k
    · simp [cacheFind, h0] at h
    · have h' : cacheFind env rest k = none := by simpa [cacheFind, h0] using h
      simp [cacheFind, h0, ih h']

theorem cacheEmplace_miss {ν : Type} (env : Env) (m : List (Path × ν)) (k : Path) (v : ν)
    (h : cacheFind env m k = none) : cacheEmplace env m k v = m ++ [(k, v)] := by
  unfold cacheEmplace
  rw [h]

theorem block_getD (l : List Byte) (g : Nat → Byte) :
    block (fun k => l.getD k (g k)) l.length = l := by
  unfold block
  apply List.ext_getElem
  · simp
  · intro n h1 h2
    simp [List.getD_eq_getElem?_getD, List.getElem?_eq_getElem h2]

/-- Fetching a stored entry whose sizes agree and whose payload range lies inside the
file, on a stream that is not in the failed state. -/
theorem fetchEntry_store (env : Env) (a : OBBArchive) (path : Path) (entry : ZipFileEntry)
    (hgood : a.m_obb_file.failbit = false)
    (hmethod : entry.compression_method = 0)
    (hsize : entry.compressed_size = entry.uncompressed_size)
    (hin : entry.file_data_offset + entry.uncompressed_size ≤ a.m_obb_file.contents.length) :
    fetchEntry env a path entry =
      ((some ⟨a.heap_allocs,
          (a.m_obb_file.contents.drop entry.file_data_offset).take entry.uncompressed_size⟩,
        entry.uncompressed_size),
       { a with
         m_obb_file := { a.m_obb_file with
           pos := entry.file_data_offset + entry.uncompressed_size
           reads := a.m_obb_file.reads + 1 }
         heap_allocs := a.heap_allocs + 1
         m_file_buffer_cache_map := cacheEmplace env a.m_file_buffer_cache_map path
           (some ⟨a.heap_allocs,
              (a.m_obb_file.contents.drop entry.file_data_offset).take
                entry.uncompressed_size⟩,
            entry.uncompressed_size) }) := by
  obtain ⟨cache, entries, ⟨d, o, p, f, r⟩, valid, allocs, freed⟩ := a
  obtain ⟨name, csize, usize, crc, method, off⟩ := entry
  simp only at hgood hmethod hsize hin
  subst hgood hmethod hsize
  unfold fetchEntry
  lift_lets
  intro f1 r2 compressed_data a2 buffer_size buffer buffer_size' addr a3 res buffer'
  have hf1 : f1 = ⟨d, o, off, false, r⟩ := seekg_beg_good _ _ rfl
  have hr2 : r2 = (⟨d, o, off + csize, false, r + 1⟩, (d.drop off).take csize) := by
    show f1.read (List.replicate csize 0) csize = _
    rw [hf1]
    exact read_inside ⟨d, o, off, false, r⟩ _ csize rfl (by simp) hin
  have hdata : compressed_data = (d.drop off).take csize := by
    show r2.2 = _
    rw [hr2]
  have hlen : ((d.drop off).take csize).length = csize := take_drop_length d off csize hin
  have hbuffer : buffer = ⟨allocs, (d.drop off).take csize⟩ := by
    show (⟨allocs, block
      (fun k => compressed_data.getD k (env.beyond_byte (k - compressed_data.length)))
      csize⟩ : Buffer) = _
    rw [hdata]
    congr 1
    have := block_getD ((d.drop off).take csize)
      (fun k => env.beyond_byte (k - ((d.drop off).take csize).length))
    rw [hlen] at this
    rw [hlen]
    exact this
  have ha2 : a2 = ⟨cache, entries, ⟨d, o, off + csize, false, r + 1⟩, valid, allocs, freed⟩ := by
    show (⟨cache, entries, r2.1, valid, allocs, freed⟩ : OBBArchive) = _
    rw [hr2]
  rw [if_pos rfl, hbuffer, ha2]


/-- C7, as the claim states it, fails on `failedStreamFile`: the archive is valid, `a.txt`
is a stored entry with equal sizes whose payload range `[35, 40)` lies inside the file and
holds `hello`, the cache is empty, and `getFileBuffer("a.txt")` returns five zero bytes.
The read of the Local File header of `z.txt` ran past the end of the file during
construction, and every later `seekg` and `read` on the stream does nothing. -/
theorem failedStreamFile_returns_zeros :
    (OBBArchive.new zeroEnv (some failedStreamFile)).isValid = true ∧
    cacheFind zeroEnv (OBBArchive.new zeroEnv (some failedStreamFile)).m_file_buffer_cache_map aTxt
      = none ∧
    mapFind (OBBArchive.new zeroEnv (some failedStreamFile)).m_zip_entries aTxt =
      some { filename := aTxt, compressed_size := 5, uncompressed_size := 5
             crc32 := 0x3610a686, compression_method := 0, file_data_offset := 35 } ∧
    35 + 5 ≤ failedStreamFile.length ∧
    (failedStreamFile.drop 35).take 5 = bytesOf [104, 101, 108, 108, 111] ∧
    (OBBArchive.new zeroEnv (some failedStreamFile)).m_obb_file.failbit = true ∧
    (getFileBuffer zeroEnv (OBBArchive.new zeroEnv (some failedStreamFile)) aTxt).1 =
      (some { addr := 0, data := bytesOf [0, 0, 0, 0, 0] }, 5) := by
  decide!

/-- C7 (amended): on a valid archive whose stream is not in the failed state (no earlier
`read` ran past the end of the file), for an entry with compression method 0 and
`compressed_size == uncompressed_size` whose payload range lies inside the file, a
`getFileBuffer` that misses the cache returns a non-null buffer of `uncompressed_size`
bytes, equal to the bytes of the container at
`[file_data_offset, file_data_offset + uncompressed_size)`, and caches it. -/
theorem store_is_byte_copy (env : Env) (a : OBBArchive) (path : Path) (entry : ZipFileEntry)
    (hv : a.isValid = true)
    (hmiss : cacheFind env a.m_file_buffer_cache_map path = none)
    (hfind : mapFind a.m_zip_entries path = some entry)
    (hgood : a.m_obb_file.failbit = false)
    (hmethod : entry.compression_method = 0)
    (hsize : entry.compressed_size = entry.uncompressed_size)
    (hin : entry.file_data_offset + entry.uncompressed_size ≤ a.m_obb_file.contents.length) :
    ∃ buf : Buffer,
      (getFileBuffer env a path).1 = (some buf, entry.uncompressed_size) ∧
      buf.data =
        (a.m_obb_file.contents.drop entry.file_data_offset).take entry.uncompressed_size ∧
      buf.data.length = entry.uncompressed_size ∧
      cacheFind env (getFileBuffer env a path).2.m_file_buffer_cache_map path
        = some (some buf, entry.uncompressed_size) := by
  rw [getFileBuffer_miss env a path entry hmiss hv hfind,
    fetchEntry_store env a path entry hgood hmethod hsize hin]
  refine ⟨_, rfl, rfl, take_drop_length _ _ _ hin, ?_⟩
  show cacheFind env (cacheEmplace env a.m_file_buffer_cache_map path _) path = _
  unfold cacheEmplace
  rw [hmiss]
  exact cacheFind_append_new env _ _ _ hmiss

theorem store_is_byte_copy_witness :
    ∃ buf : Buffer,
      (getFileBuffer zeroEnv (OBBArchive.new zeroEnv (some sampleFile)) aTxt).1 = (some buf, 5) ∧
      buf.data = bytesOf [104, 101, 108, 108, 111] :=
  have h := store_is_byte_copy zeroEnv (OBBArchive.new zeroEnv (some sampleFile)) aTxt
    { filename := aTxt, compressed_size := 5, uncompressed_size := 5
      crc32 := 0x3610a686, compression_method := 0, file_data_offset := 35 }
    (by decide!) (by decide!) (by decide!) (by decide!) rfl rfl (by decide!)
  h.imp fun _ hb => ⟨hb.1, hb.2.1.trans (by decide!)⟩

/-! ## C8: deflated entries -/

theorem overwrite_take_length (dest src : List Byte) (n : Nat) (h : dest.length = n) :
    ((overwrite dest src).take n).length = n := by
  unfold overwrite
  rw [List.length_take, List.length_append, List.length_drop, h]
  omega

/-- Fetching a deflated entry: what `fetchEntry` returns in each of the three cases. -/
theorem fetchEntry_deflate (env : Env) (a : OBBArchive) (path : Path) (entry : ZipFileEntry)
    (hmethod : entry.compression_method = 8) :
    fetchEntry env a path entry =
      if env.inflateInit2 a.heap_allocs = Z_OK ∧
          (env.inflate
            ((a.m_obb_file.seekg_beg (entry.file_data_offset : Int)).read
              (List.replicate entry.compressed_size 0) entry.compressed_size).2
            entry.uncompressed_size).ret = Z_STREAM_END
      then
        ((some ⟨a.heap_allocs,
            (overwrite (block (env.heap_byte a.heap_allocs) entry.uncompressed_size)
              (env.inflate
                ((a.m_obb_file.seekg_beg (entry.file_data_offset : Int)).read
                  (List.replicate entry.compressed_size 0) entry.compressed_size).2
                entry.uncompressed_size).output).take entry.uncompressed_size⟩,
          entry.uncompressed_size),
         { a with
           m_obb_file := ((a.m_obb_file.seekg_beg (entry.file_data_offset : Int)).read
             (List.replicate entry.compressed_size 0) entry.compressed_size).1
           heap_allocs := a.heap_allocs + 1
           m_file_buffer_cache_map := cacheEmplace env a.m_file_buffer_cache_map path
             (some ⟨a.heap_allocs,
                (overwrite (block (env.heap_byte a.heap_allocs) entry.uncompressed_size)
                  (env.inflate
                    ((a.m_obb_file.seekg_beg (entry.file_data_offset : Int)).read
                      (List.replicate entry.compressed_size 0) entry.compressed_size).2
                    entry.uncompressed_size).output).take entry.uncompressed_size⟩,
              entry.uncompressed_size) })
      else
        ((none, 0),
         { a with
           m_obb_file := ((a.m_obb_file.seekg_beg (entry.file_data_offset : Int)).read
             (List.replicate entry.compressed_size 0) entry.compressed_size).1
           heap_allocs := a.heap_allocs + 1
           heap_freed := a.heap_allocs :: a.heap_freed }) := by
  unfold fetchEntry
  lift_lets
  intro f1 r2 compressed_data a2 buffer_size buffer addr a3 res buffer'
  have h0 : ¬ entry.compression_method = 0 := by rw [hmethod]; decide
  rw [if_neg h0, if_pos hmethod]
  by_cases hinit : env.inflateInit2 a.heap_allocs = Z_OK
  · by_cases hret : res.ret = Z_STREAM_END
    · rw [if_neg (fun h : env.inflateInit2 addr ≠ Z_OK => h hinit),
        if_neg (fun h : res.ret ≠ Z_STREAM_END => h hret), if_pos ⟨hinit, hret⟩]
    · rw [if_neg (fun h : env.inflateInit2 addr ≠ Z_OK => h hinit), if_pos hret,
        if_neg (fun h => hret h.2)]
  · rw [if_pos (show env.inflateInit2 addr ≠ Z_OK from hinit), if_neg (fun h => hinit h.1)]


/-- C8, as the claim states it, fails on `looseDeflateFile`: the raw inflater reaches the
end of the stream after 11 of the 13 input bytes and 29 of the 40 output bytes, and
`getFileBuffer` returns a non-null buffer of size 40 whose last 11 bytes were never
written. -/
theorem looseDeflateFile_accepted :
    (OBBArchive.new zlibEnv (some looseDeflateFile)).isValid = true ∧
    mapFind (OBBArchive.new zlibEnv (some looseDeflateFile)).m_zip_entries bBin =
      some { filename := bBin, compressed_size := 13, uncompressed_size := 40
             crc32 := 0x2ce741f3, compression_method := 8, file_data_offset := 35 } ∧
    zlibInflate (payloadRead (OBBArchive.new zlibEnv (some looseDeflateFile))
        { filename := bBin, compressed_size := 13, uncompressed_size := 40
          crc32 := 0x2ce741f3, compression_method := 8, file_data_offset := 35 }) 40
      = { ret := Z_STREAM_END, total_in := 11, output := worldText } ∧
    worldText.length = 29 ∧
    (getFileBuffer zlibEnv (OBBArchive.new zlibEnv (some looseDeflateFile)) bBin).1 =
      (some { addr := 0, data := worldText ++ List.replicate 11 0 }, 40) := by
  decide!

/-- C8 (amended): on a valid archive, for an entry with compression method 8, a
`getFileBuffer` that misses the cache looks at two return codes only. When `inflateInit2`
returned `Z_OK` and `inflate(Z_FINISH)` returned `Z_STREAM_END`, it returns a non-null
buffer of `uncompressed_size` bytes (what the inflater produced, followed by what the
allocated block held) and caches it, whether or not all `compressed_size` input bytes
were consumed and whether or not `uncompressed_size` bytes were produced. In every other
case it returns `(null, 0)`, frees the block and leaves the cache as it was. -/
theorem deflate_checks_return_codes (env : Env) (a : OBBArchive) (path : Path)
    (entry : ZipFileEntry) (hv : a.isValid = true)
    (hmiss : cacheFind env a.m_file_buffer_cache_map path = none)
    (hfind : mapFind a.m_zip_entries path = some entry)
    (hmethod : entry.compression_method = 8) :
    (env.inflateInit2 a.heap_allocs = Z_OK ∧
        (env.inflate (payloadRead a entry) entry.uncompressed_size).ret = Z_STREAM_END →
      ∃ buf : Buffer,
        (getFileBuffer env a path).1 = (some buf, entry.uncompressed_size) ∧
        buf.data = (overwrite (block (env.heap_byte a.heap_allocs) entry.uncompressed_size)
          (env.inflate (payloadRead a entry) entry.uncompressed_size).output).take
            entry.uncompressed_size ∧
        buf.data.length = entry.uncompressed_size ∧
        cacheFind env (getFileBuffer env a path).2.m_file_buffer_cache_map path
          = some (some buf, entry.uncompressed_size)) ∧
    (¬ (env.inflateInit2 a.heap_allocs = Z_OK ∧
        (env.inflate (payloadRead a entry) entry.uncompressed_size).ret = Z_STREAM_END) →
      (getFileBuffer env a path).1 = (none, 0) ∧
      (getFileBuffer env a path).2.m_file_buffer_cache_map = a.m_file_buffer_cache_map ∧
      (getFileBuffer env a path).2.heap_freed = a.heap_allocs :: a.heap_freed) := by
  rw [getFileBuffer_miss env a path entry hmiss hv hfind,
    fetchEntry_deflate env a path entry hmethod]
  unfold payloadRead
  constructor
  · intro h
    rw [if_pos h]
    refine ⟨_, rfl, rfl, overwrite_take_length _ _ _ (block_length _ _), ?_⟩
    show cacheFind env (cacheEmplace env a.m_file_buffer_cache_map path _) path = _
    unfold cacheEmplace
    rw [hmiss]
    exact cacheFind_append_new env _ _ _ hmiss
  · intro h
    rw [if_neg h]
    exact ⟨rfl, rfl, rfl⟩

theorem deflate_checks_return_codes_witness :
    ∃ buf : Buffer,
      (getFileBuffer zlibEnv (OBBArchive.new zlibEnv (some sampleFile)) bBin).1
        = (some buf, 29) ∧
      buf.data.length = 29 :=
  have h := (deflate_checks_return_codes zlibEnv (OBBArchive.new zlibEnv (some sampleFile)) bBin
    { filename := bBin, compressed_size := 11, uncompressed_size := 29
      crc32 := 0x2ce741f3, compression_method := 8, file_data_offset := 75 }
    (by decide!) (by decide!) (by decide!) rfl).1 (by decide!)
  h.imp fun _ hb => ⟨hb.1, hb.2.2.1⟩

/-! ## C10: other compression methods -/

theorem fetchEntry_unsupported (env : Env) (a : OBBArchive) (path : Path) (entry : ZipFileEntry)
    (h0 : entry.compression_method ≠ 0) (h8 : entry.compression_method ≠ 8) :
    fetchEntry env a path entry =
      ((none, 0),
       { a with m_obb_file := ((a.m_obb_file.seekg_beg (entry.file_data_offset : Int)).read
           (List.replicate entry.compressed_size 0) entry.compressed_size).1 }) := by
  unfold fetchEntry
  lift_lets
  intro f1 r2 compressed_data a2 buffer_size buffer addr a3 res buffer'
  rw [if_neg h0, if_neg h8]

/-- What `fetchEntry` leaves untouched, and the shape of what it caches. -/
theorem fetchEntry_frame (env : Env) (a : OBBArchive) (path : Path) (entry : ZipFileEntry) :
    (fetchEntry env a path entry).2.m_zip_entries = a.m_zip_entries ∧
    (fetchEntry env a path entry).2.m_is_valid = a.m_is_valid ∧
    ((fetchEntry env a path entry).2.m_file_buffer_cache_map = a.m_file_buffer_cache_map ∨
      ∃ buf : Buffer, (entry.compression_method = 0 ∨ entry.compression_method = 8) ∧
        buf.data.length = entry.uncompressed_size ∧
        (fetchEntry env a path entry).2.m_file_buffer_cache_map =
          cacheEmplace env a.m_file_buffer_cache_map path (some buf, entry.uncompressed_size)) := by
  by_cases h0 : entry.compression_method = 0
  · unfold fetchEntry
    lift_lets
    intro f1 r2 compressed_data a2 buffer_size buffer addr a3 res buffer'
    rw [if_pos h0]
    exact ⟨rfl, rfl, Or.inr ⟨buffer, Or.inl h0, block_length _ _, rfl⟩⟩
  · by_cases h8 : entry.compression_method = 8
    · rw [fetchEntry_deflate env a path entry h8]
      split
      · exact ⟨rfl, rfl, Or.inr ⟨_, Or.inr h8,
          overwrite_take_length _ _ _ (block_length _ _), rfl⟩⟩
      · exact ⟨rfl, rfl, Or.inl rfl⟩
    · rw [fetchEntry_unsupported env a path entry h0 h8]
      exact ⟨rfl, rfl, Or.inl rfl⟩

/-- The function `getFileBuffer` never changes the entry table or the validity flag. -/
theorem getFileBuffer_frame (env : Env) (a : OBBArchive) (path : Path) :
    (getFileBuffer env a path).2.m_zip_entries = a.m_zip_entries ∧
    (getFileBuffer env a path).2.m_is_valid = a.m_is_valid := by
  cases hc : cacheFind env a.m_file_buffer_cache_map path with
  | some v =>
    rw [getFileBuffer_hit env a path v hc]
    exact ⟨rfl, rfl⟩
  | none =>
    cases hv : a.m_is_valid with
    | false =>
      rw [getFileBuffer_invalid env a path hc hv]
      exact ⟨rfl, hv⟩
    | true =>
      cases he : mapFind a.m_zip_entries path with
      | none =>
        rw [getFileBuffer_absent env a path hc he]
        exact ⟨rfl, hv⟩
      | some entry =>
        rw [getFileBuffer_miss env a path entry hc hv he]
        have h := fetchEntry_frame env a path entry
        exact ⟨h.1, h.2.1.trans hv⟩

theorem cacheFind_cacheEmplace {ν : Type} (env : Env) (m : List (Path × ν)) (k k' : Path)
    (v : ν) (hm : cacheFind env m k = none) :
    cacheFind env (cacheEmplace env m k v) k' =
      if env.path_key k = env.path_key k' then some v else cacheFind env m k' := by
  unfold cacheEmplace
  rw [hm]
  show cacheFind env (m ++ [(k, v)]) k' = _
  induction m with
  | nil => simp [cacheFind]
  | cons kv rest ih =>
    obtain ⟨k0, v0⟩ := kv
    by_cases h0 : env.path_key k0 = env.path_key k
    · simp [cacheFind, h0] at hm
    · have hm' : cacheFind env rest k = none := by simpa [cacheFind, h0] using hm
      by_cases h1 : env.path_key k0 = env.path_key k'
      · have h2 : ¬ env.path_key k = env.path_key k' := fun h => h0 (h1.trans h.symm)
        simp [cacheFind, h1, h2]
      · simp [cacheFind, h1, ih hm']

/-- A pair that `find` delivers is in the cache, under a key equal to the path looked up. -/
theorem cacheFind_mem {ν : Type} (env : Env) (m : List (Path × ν)) (k : Path) (v : ν)
    (h : cacheFind env m k = some v) :
    ∃ q, (q, v) ∈ m ∧ env.path_key q = env.path_key k := by
  induction m with
  | nil => simp [cacheFind] at h
  | cons kv rest ih =>
    obtain ⟨k0, v0⟩ := kv
    by_cases h0 : env.path_key k0 = env.path_key k
    · simp only [cacheFind, if_pos h0] at h
      have := Option.some.inj h
      subst this
      exact ⟨k0, List.mem_cons_self _ _, h0⟩
    · simp only [cacheFind, if_neg h0] at h
      obtain ⟨q, hq, hk⟩ := ih h
      exact ⟨q, List.mem_cons_of_mem _ hq, hk⟩

theorem cacheFind_eq_none_iff {ν : Type} (env : Env) (m : List (Path × ν)) (k : Path) :
    cacheFind env m k = none ↔ env.path_key k ∉ m.map (fun kv => env.path_key kv.1) := by
  induction m with
  | nil => simp [cacheFind]
  | cons kv rest ih =>
    obtain ⟨k0, v0⟩ := kv
    by_cases h0 : env.path_key k0 = env.path_key k
    · simp [cacheFind, h0]
    · have h1 : ¬ env.path_key k = env.path_key k0 := fun h => h0 h.symm
      simp only [cacheFind, if_neg h0, ih, List.map_cons, List.mem_cons, h1, false_or]

/-- The function `getFileBuffer` keeps the cache sound. -/
theorem getFileBuffer_cacheSound (env : Env) (a : OBBArchive) (path : Path)
    (h : CacheSound a) : CacheSound (getFileBuffer env a path).2 := by
  cases hc : cacheFind env a.m_file_buffer_cache_map path with
  | some v =>
    rw [getFileBuffer_hit env a path v hc]
    exact h
  | none =>
    cases hv : a.m_is_valid with
    | false =>
      rw [getFileBuffer_invalid env a path hc hv]
      exact h
    | true =>
      cases he : mapFind a.m_zip_entries path with
      | none =>
        rw [getFileBuffer_absent env a path hc he]
        exact h
      | some entry =>
        rw [getFileBuffer_miss env a path entry hc hv he]
        obtain ⟨hent, _, hcache⟩ := fetchEntry_frame env a path entry
        intro p v hp
        rw [hent]
        rcases hcache with hsame | ⟨buf, hm, hlen, hnew⟩
        · rw [hsame] at hp
          exact h p v hp
        · rw [hnew, cacheEmplace_miss env _ _ _ hc] at hp
          rcases List.mem_append.1 hp with hp | hp
          · exact h p v hp
          · rw [List.mem_singleton] at hp
            have h1 : p = path := congrArg Prod.fst hp
            have h2 : v = (some buf, entry.uncompressed_size) := congrArg Prod.snd hp
            subst h1
            exact ⟨entry, buf, he, hm, h2, hlen⟩

/-- In every reachable state the cache is sound. -/
theorem reachable_cacheSound (env : Env) (disk : Option (List Byte)) (a : OBBArchive)
    (hr : Reachable env disk a) : CacheSound a := by
  induction hr with
  | constructed =>
    intro p v hp
    cases disk with
    | none =>
      rw [new_none] at hp
      exact absurd hp (List.not_mem_nil _)
    | some d =>
      rw [(new_valid_iff env d).2] at hp
      exact absurd hp (List.not_mem_nil _)
  | fetched a path _ ih => exact getFileBuffer_cacheSound env a path ih
  | cleared a _ _ =>
    intro p v hp
    exact absurd hp (List.not_mem_nil _)

theorem method12File_other_key (q : Path)
    (hkey : zeroEnv.path_key q = zeroEnv.path_key cDat) (hne : q ≠ cDat) :
    mapFind (OBBArchive.new zeroEnv (some method12File)).m_zip_entries q = none := by
  rw [mapFind_eq_none_iff]
  have hk : (OBBArchive.new zeroEnv (some method12File)).m_zip_entries.map Prod.fst
      = [aTxt, cDat] := by decide!
  rw [hk]
  intro hmem
  simp only [List.mem_cons, List.mem_singleton, List.not_mem_nil, or_false] at hmem
  rcases hmem with h | h
  · subst h
    exact absurd hkey (by decide)
  · exact hne h

/-- C10, as the claim states it, fails on `slashNameFile`: the archive is valid, the entry
`d//a` has compression method 12, and after `getFileBuffer("d/a")` the call
`getFileBuffer("d//a")` returns the buffer of `d/a`. The cache is keyed by
`std::filesystem::path`, for which `d//a` and `d/a` are equal, and it is consulted before
the entry table, which is keyed by the string. -/
theorem slashNameFile_returns_other_entry :
    (OBBArchive.new zeroEnv (some slashNameFile)).isValid = true ∧
    mapFind (OBBArchive.new zeroEnv (some slashNameFile)).m_zip_entries dSlashSlashA =
      some { filename := dSlashSlashA, compressed_size := 4, uncompressed_size := 3
             crc32 := 0xeb8eba67, compression_method := 12, file_data_offset := 72 } ∧
    zeroEnv.path_key dSlashSlashA = zeroEnv.path_key dSlashA ∧
    (getFileBuffer zeroEnv (OBBArchive.new zeroEnv (some slashNameFile)) dSlashA).1 =
      (some ⟨0, bytesOf [104, 101, 108, 108, 111]⟩, 5) ∧
    (getFileBuffer zeroEnv
      (getFileBuffer zeroEnv (OBBArchive.new zeroEnv (some slashNameFile)) dSlashA).2
      dSlashSlashA).1 = (some ⟨0, bytesOf [104, 101, 108, 108, 111]⟩, 5) := by
  decide!

/-- C10 (amended): in every valid archive state reached by calls of `getFileBuffer` and
`clearCache`, for every entry whose compression method is neither 0 nor 8 and whose name is
equal, as a path, to the name of no other entry, `getFileBuffer(path)` returns `(null, 0)`,
leaves the cache exactly as it was, with no key for that path, and leaves `isValid()`
true. -/
theorem unsupported_method_fails_locally (env : Env) (disk : Option (List Byte))
    (a : OBBArchive) (path : Path) (entry : ZipFileEntry)
    (hr : Reachable env disk a) (hv : a.isValid = true)
    (hfind : mapFind a.m_zip_entries path = some entry)
    (h0 : entry.compression_method ≠ 0) (h8 : entry.compression_method ≠ 8)
    (hown : ∀ q, env.path_key q = env.path_key path → q ≠ path →
      mapFind a.m_zip_entries q = none) :
    (getFileBuffer env a path).1 = (none, 0) ∧
    (getFileBuffer env a path).2.m_file_buffer_cache_map = a.m_file_buffer_cache_map ∧
    cacheFind env (getFileBuffer env a path).2.m_file_buffer_cache_map path = none ∧
    (getFileBuffer env a path).2.isValid = true := by
  have hmiss : cacheFind env a.m_file_buffer_cache_map path = none := by
    cases hc : cacheFind env a.m_file_buffer_cache_map path with
    | none => rfl
    | some v =>
      obtain ⟨q, hq, hkey⟩ := cacheFind_mem env _ _ _ hc
      obtain ⟨e, _, he, hm, _, _⟩ := reachable_cacheSound env disk a hr q v hq
      by_cases hqp : q = path
      · subst hqp
        rw [hfind] at he
        have : entry = e := Option.some.inj he
        subst this
        rcases hm with hm | hm
        · exact absurd hm h0
        · exact absurd hm h8
      · rw [hown q hkey hqp] at he
        exact absurd he (by simp)
  rw [getFileBuffer_miss env a path entry hmiss hv hfind,
    fetchEntry_unsupported env a path entry h0 h8]
  exact ⟨rfl, rfl, hmiss, hv⟩

theorem unsupported_method_fails_locally_witness :
    (getFileBuffer zeroEnv (OBBArchive.new zeroEnv (some method12File)) cDat).1 = (none, 0) ∧
    (getFileBuffer zeroEnv (OBBArchive.new zeroEnv (some method12File)) cDat).2.isValid
      = true :=
  have h := unsupported_method_fails_locally zeroEnv (some method12File)
    (OBBArchive.new zeroEnv (some method12File)) cDat
    { filename := cDat, compressed_size := 4, uncompressed_size := 3
      crc32 := 0xeb8eba67, compression_method := 12, file_data_offset := 75 }
    (Reachable.constructed) (by decide!) (by decide!) (by decide) (by decide)
    (fun q hkey hne => method12File_other_key q hkey hne)
  ⟨h.1, h.2.2.2⟩

/-! ## C9: round trip -/

theorem payloadRead_inside (a : OBBArchive) (e : ZipFileEntry)
    (hgood : a.m_obb_file.failbit = false)
    (hin : e.file_data_offset + e.compressed_size ≤ a.m_obb_file.contents.length) :
    (a.m_obb_file.seekg_beg (e.file_data_offset : Int)).read
        (List.replicate e.compressed_size 0) e.compressed_size =
      ({ a.m_obb_file with
          pos := e.file_data_offset + e.compressed_size, reads := a.m_obb_file.reads + 1 },
       (a.m_obb_file.contents.drop e.file_data_offset).take e.compressed_size) := by
  obtain ⟨cache, entries, ⟨d, o, p, f, r⟩, valid, allocs, freed⟩ := a
  simp only at hgood hin
  subst hgood
  rw [seekg_beg_good _ _ rfl]
  exact read_inside ⟨d, o, e.file_data_offset, false, r⟩ _ _ rfl (by simp) hin

/-- Fetching an entry that holds `content`, on a stream that is not failed. -/
theorem fetchEntry_holds (env : Env) (a : OBBArchive) (path : Path) (e : ZipFileEntry)
    (content : List Byte) (hinit : ∀ c, env.inflateInit2 c = Z_OK)
    (hgood : a.m_obb_file.failbit = false)
    (hholds : EntryHolds env a.m_obb_file.contents e content) :
    fetchEntry env a path e =
      ((some ⟨a.heap_allocs, content⟩, e.uncompressed_size),
       { a with
         m_obb_file := { a.m_obb_file with
           pos := e.file_data_offset + e.compressed_size, reads := a.m_obb_file.reads + 1 }
         heap_allocs := a.heap_allocs + 1
         m_file_buffer_cache_map := cacheEmplace env a.m_file_buffer_cache_map path
           (some ⟨a.heap_allocs, content⟩, e.uncompressed_size) }) := by
  obtain ⟨hlen, _, hin, hcase⟩ := hholds
  rcases hcase with ⟨hm, hsz, hdata⟩ | ⟨hm, hinf⟩
  · rw [fetchEntry_store env a path e hgood hm hsz (by rw [← hsz]; exact hin)]
    rw [← hsz, hdata]
  · rw [fetchEntry_deflate env a path e hm, payloadRead_inside a e hgood hin]
    simp only []
    rw [hinf, if_pos ⟨hinit _, rfl⟩]
    have hover : (overwrite (block (env.heap_byte a.heap_allocs) e.uncompressed_size)
        content).take e.uncompressed_size = content := by
      rw [overwrite_full _ _ (by rw [block_length, hlen]), ← hlen]
      exact List.take_length content
    simp only [hover]


theorem table_entry_holds (env : Env) (d : List Byte) (i : Nat) (hwf : WellFormed env d i)
    (name : List Byte) (e : ZipFileEntry)
    (hfind : mapFind (cdTable d (eocdCdOffset d i) [] (eocdTotalEntries d i)) name = some e) :
    ∃ content, EntryHolds env d e content := by
  rcases cdTable_find d _ [] name e _ hfind with h | ⟨k, hk, _, he⟩
  · exact absurd h (by simp [mapFind])
  · rw [he]
    exact (hwf.2.1 k hk).2

theorem new_roundTripInv (env : Env) (d : List Byte) (i : Nat) (hwf : WellFormed env d i) :
    RoundTripInv env d i (OBBArchive.new env (some d)) := by
  rw [new_of_readable env d i hwf.1 (fun j hj => (hwf.2.1 j hj).1)]
  exact ⟨rfl, rfl, rfl, rfl, fun p v hp => absurd hp (List.not_mem_nil _)⟩

theorem getFileBuffer_roundTripInv (env : Env) (d : List Byte) (i : Nat) (a : OBBArchive)
    (path : Path) (hwf : WellFormed env d i) (hinit : ∀ c, env.inflateInit2 c = Z_OK)
    (h : RoundTripInv env d i a) : RoundTripInv env d i (getFileBuffer env a path).2 := by
  obtain ⟨hv, hgood, hcont, htab, hcache⟩ := h
  cases hc : cacheFind env a.m_file_buffer_cache_map path with
  | some v =>
    rw [getFileBuffer_hit env a path v hc]
    exact ⟨hv, hgood, hcont, htab, hcache⟩
  | none =>
    cases he : mapFind a.m_zip_entries path with
    | none =>
      rw [getFileBuffer_absent env a path hc he]
      exact ⟨hv, hgood, hcont, htab, hcache⟩
    | some e =>
      obtain ⟨content, hholds⟩ := table_entry_holds env d i hwf path e (by rw [← htab]; exact he)
      rw [getFileBuffer_miss env a path e hc hv he,
        fetchEntry_holds env a path e content hinit hgood (by rw [hcont]; exact hholds)]
      refine ⟨hv, hgood, hcont, htab, ?_⟩
      intro p v hp
      have hp' : (p, v) ∈ cacheEmplace env a.m_file_buffer_cache_map path
          (some ⟨a.heap_allocs, content⟩, e.uncompressed_size) := hp
      rw [cacheEmplace_miss env _ _ _ hc] at hp'
      show ∃ (e' : ZipFileEntry) (content' : List Byte) (addr : Nat),
        mapFind a.m_zip_entries p = some e' ∧ EntryHolds env d e' content' ∧
        v = (some ⟨addr, content'⟩, e'.uncompressed_size)
      rcases List.mem_append.1 hp' with hp' | hp'
      · exact hcache p v hp'
      · rw [List.mem_singleton] at hp'
        have h1 : p = path := congrArg Prod.fst hp'
        have h2 : v = (some ⟨a.heap_allocs, content⟩, e.uncompressed_size) :=
          congrArg Prod.snd hp'
        subst h1
        exact ⟨e, content, a.heap_allocs, he, hholds, h2⟩

theorem reachable_roundTripInv (env : Env) (d : List Byte) (i : Nat) (a : OBBArchive)
    (hwf : WellFormed env d i) (hinit : ∀ c, env.inflateInit2 c = Z_OK)
    (hr : Reachable env (some d) a) : RoundTripInv env d i a := by
  induction hr with
  | constructed => exact new_roundTripInv env d i hwf
  | fetched a path _ ih => exact getFileBuffer_roundTripInv env d i a path hwf hinit ih
  | cleared a _ ih =>
    obtain ⟨hv, hgood, hcont, htab, _⟩ := ih
    exact ⟨hv, hgood, hcont, htab, fun p v hp => absurd hp (List.not_mem_nil _)⟩

/-- C9, as the claim states it, fails in its witness: the text
`world world world world world` has 29 bytes, and for the container of the concrete
scenario `getFileBuffer("b.bin")` returns `(buf, 29)` with exactly those bytes, not
`(buf, 30)`. It also fails on `slashTwinFile`, whose entries `d/a` (`hello`) and `d//a`
(`world!`) are recorded with the size and CRC-32 of their content: their names are equal as
paths, and after `getFileBuffer("d/a")` the call `getFileBuffer("d//a")` returns the five
bytes `hello` from the cache, where the entry `d//a` records six bytes with another
CRC-32. -/
theorem sampleFile_bBin_has_29_bytes :
    worldText.length = 29 ∧
    mapFind (OBBArchive.new zlibEnv (some sampleFile)).m_zip_entries bBin =
      some { filename := bBin, compressed_size := 11, uncompressed_size := 29
             crc32 := 0x2ce741f3, compression_method := 8, file_data_offset := 75 } ∧
    (getFileBuffer zlibEnv (OBBArchive.new zlibEnv (some sampleFile)) bBin).1 =
      (some { addr := 0, data := worldText }, 29) ∧
    (getFileBuffer zlibEnv (OBBArchive.new zlibEnv (some sampleFile)) bBin).1.2 ≠ 30 ∧
    mapFind (OBBArchive.new zlibEnv (some slashTwinFile)).m_zip_entries dSlashSlashA =
      some { filename := dSlashSlashA, compressed_size := 6, uncompressed_size := 6
             crc32 := 0x718498e8, compression_method := 0, file_data_offset := 72 } ∧
    crc32 (bytesOf [119, 111, 114, 108, 100, 33]) = 0x718498e8 ∧
    (slashTwinFile.drop 72).take 6 = bytesOf [119, 111, 114, 108, 100, 33] ∧
    (getFileBuffer zlibEnv
      (getFileBuffer zlibEnv (OBBArchive.new zlibEnv (some slashTwinFile)) dSlashA).2
      dSlashSlashA).1 = (some ⟨0, bytesOf [104, 101, 108, 108, 111]⟩, 5) ∧
    crc32 (bytesOf [104, 101, 108, 108, 111]) ≠ 0x718498e8 := by
  decide!

/-- C9 (amended): round trip. On a well-formed container (each entry's recorded
uncompressed size and CRC-32 are those of its content, its payload is that content stored
or raw-deflated, and no two different names are equal as paths), with `inflateInit2`
succeeding, in every state reached by calls of `getFileBuffer` and `clearCache`,
`getFileBuffer(path)` returns for every entry a non-null buffer whose size is the entry's
recorded `uncompressed_size` and whose CRC-32 is the entry's recorded `crc32`. Witness:
`b.bin`, deflated from the 29 bytes `world world world world world`, yields `(buf, 29)`
with exactly those bytes. -/
theorem round_trip (env : Env) (d : List Byte) (i : Nat) (a : OBBArchive) (path : Path)
    (e : ZipFileEntry) (hwf : WellFormed env d i) (hinit : ∀ c, env.inflateInit2 c = Z_OK)
    (hr : Reachable env (some d) a) (hfind : mapFind a.m_zip_entries path = some e) :
    ∃ buf : Buffer,
      (getFileBuffer env a path).1 = (some buf, e.uncompressed_size) ∧
      buf.data.length = e.uncompressed_size ∧ crc32 buf.data = e.crc32 := by
  obtain ⟨hv, hgood, hcont, htab, hcache⟩ := reachable_roundTripInv env d i a hwf hinit hr
  cases hc : cacheFind env a.m_file_buffer_cache_map path with
  | some v =>
    obtain ⟨q, hq, hkey⟩ := cacheFind_mem env _ _ _ hc
    obtain ⟨e', content, addr, he', hholds, hval⟩ := hcache q v hq
    have hqp : q = path := by
      rw [htab] at he' hfind
      rcases cdTable_find d _ [] q e' _ he' with h | ⟨j, hj, hqj, _⟩
      · exact absurd h (by simp [mapFind])
      · rcases cdTable_find d _ [] path e _ hfind with h | ⟨k, hk, hpk, _⟩
        · exact absurd h (by simp [mapFind])
        · rw [hqj, hpk] at hkey ⊢
          exact hwf.2.2 j k hj hk hkey
    subst hqp
    rw [hfind] at he'
    have : e = e' := Option.some.inj he'
    subst this
    rw [getFileBuffer_hit env a q v hc, hval]
    exact ⟨_, rfl, hholds.1, hholds.2.1⟩
  | none =>
    obtain ⟨content, hholds⟩ :=
      table_entry_holds env d i hwf path e (by rw [← htab]; exact hfind)
    rw [getFileBuffer_miss env a path e hc hv hfind,
      fetchEntry_holds env a path e content hinit hgood (by rw [hcont]; exact hholds)]
    exact ⟨_, rfl, hholds.1, hholds.2.1⟩


theorem sampleFile_wellFormed : WellFormed zlibEnv sampleFile 188 := by
  have e : eocdTotalEntries sampleFile 188 = 2 := by decide!
  refine ⟨by decide!, fun j hj => ?_, fun j k hj hk => ?_⟩
  · rw [e] at hj
    have : j = 0 ∨ j = 1 := by omega
    rcases this with rfl | rfl
    · exact ⟨by decide!, bytesOf [104, 101, 108, 108, 111], by decide!⟩
    · exact ⟨by decide!, worldText, by decide!⟩
  · rw [e] at hj hk
    have h1 : j = 0 ∨ j = 1 := by omega
    have h2 : k = 0 ∨ k = 1 := by omega
    rcases h1 with rfl | rfl <;> rcases h2 with rfl | rfl <;> decide!

theorem round_trip_witness :
    ∃ buf : Buffer,
      (getFileBuffer zlibEnv (OBBArchive.new zlibEnv (some sampleFile)) bBin).1 = (some buf, 29) ∧
      buf.data.length = 29 ∧ crc32 buf.data = 0x2ce741f3 :=
  round_trip zlibEnv sampleFile 188 (OBBArchive.new zlibEnv (some sampleFile)) bBin
    { filename := bBin, compressed_size := 11, uncompressed_size := 29
      crc32 := 0x2ce741f3, compression_method := 8, file_data_offset := 75 }
    sampleFile_wellFormed (fun _ => rfl) Reachable.constructed (by decide!)

/-! ## C11: a path that is not in the table -/

/-- C11, as the claim states it, fails on `slashNameFile`: the archive is valid, `d///a` is
not a key of the entry table, and after `getFileBuffer("d/a")` the call
`getFileBuffer("d///a")` returns the buffer of `d/a`, not `(null, 0)`. The cache is keyed
by `std::filesystem::path`, for which `d///a` and `d/a` are equal, and it is consulted
before the entry table, which is keyed by the string. -/
theorem slashNameFile_missing_path_hits_cache :
    (OBBArchive.new zeroEnv (some slashNameFile)).isValid = true ∧
    (OBBArchive.new zeroEnv (some slashNameFile)).m_zip_entries.map Prod.fst
      = [dSlashA, dSlashSlashA] ∧
    mapFind (OBBArchive.new zeroEnv (some slashNameFile)).m_zip_entries dSlashSlashSlashA
      = none ∧
    zeroEnv.path_key dSlashSlashSlashA = zeroEnv.path_key dSlashA ∧
    (getFileBuffer zeroEnv (OBBArchive.new zeroEnv (some slashNameFile)) dSlashA).1 =
      (some ⟨0, bytesOf [104, 101, 108, 108, 111]⟩, 5) ∧
    (getFileBuffer zeroEnv
      (getFileBuffer zeroEnv (OBBArchive.new zeroEnv (some slashNameFile)) dSlashA).2
      dSlashSlashSlashA).1 = (some ⟨0, bytesOf [104, 101, 108, 108, 111]⟩, 5) := by
  decide!

/-- C11 (amended): in every valid archive state reached by calls of `getFileBuffer` and
`clearCache`, for every path that is equal, as a path, to no key of the entry table (so
that it is not a key itself), `getFileBuffer(path)` returns `(null, 0)` and leaves the
whole archive as it was: the stream (no seek, no read, the read counter stays), the cache
and `isValid() == true`; so every later `getFileBuffer` gives the result and the state it
would have given without the failed lookup. -/
theorem missing_file_fails_locally (env : Env) (disk : Option (List Byte)) (a : OBBArchive)
    (path : Path) (hr : Reachable env disk a) (hv : a.isValid = true)
    (habsent : ∀ q, env.path_key q = env.path_key path → mapFind a.m_zip_entries q = none) :
    (getFileBuffer env a path).1 = (none, 0) ∧
    (getFileBuffer env a path).2.m_obb_file = a.m_obb_file ∧
    (getFileBuffer env a path).2.m_obb_file.reads = a.m_obb_file.reads ∧
    (getFileBuffer env a path).2.m_file_buffer_cache_map = a.m_file_buffer_cache_map ∧
    (getFileBuffer env a path).2.isValid = true ∧
    ∀ later : Path,
      getFileBuffer env (getFileBuffer env a path).2 later = getFileBuffer env a later := by
  have hmiss : cacheFind env a.m_file_buffer_cache_map path = none := by
    cases hc : cacheFind env a.m_file_buffer_cache_map path with
    | none => rfl
    | some v =>
      obtain ⟨q, hq, hkey⟩ := cacheFind_mem env _ _ _ hc
      obtain ⟨e, _, he, _⟩ := reachable_cacheSound env disk a hr q v hq
      rw [habsent q hkey] at he
      exact absurd he (by simp)
  rw [getFileBuffer_absent env a path hmiss (habsent path rfl)]
  exact ⟨rfl, rfl, rfl, rfl, hv, fun _ => rfl⟩

theorem sampleFile_no_cDat (q : Path) (hkey : zlibEnv.path_key q = zlibEnv.path_key cDat) :
    mapFind (getFileBuffer zlibEnv (OBBArchive.new zlibEnv (some sampleFile)) aTxt).2.m_zip_entries
      q = none := by
  rw [mapFind_eq_none_iff]
  have hk : (getFileBuffer zlibEnv (OBBArchive.new zlibEnv (some sampleFile))
      aTxt).2.m_zip_entries.map Prod.fst = [aTxt, bBin] := by decide!
  rw [hk]
  intro hmem
  simp only [List.mem_cons, List.mem_singleton, List.not_mem_nil, or_false] at hmem
  rcases hmem with h | h
  · subst h
    exact absurd hkey (by decide)
  · subst h
    exact absurd hkey (by decide)

theorem missing_file_fails_locally_witness :
    (getFileBuffer zlibEnv (getFileBuffer zlibEnv (OBBArchive.new zlibEnv (some sampleFile)) aTxt).2
      cDat).1 = (none, 0) ∧
    getFileBuffer zlibEnv
      (getFileBuffer zlibEnv (getFileBuffer zlibEnv (OBBArchive.new zlibEnv (some sampleFile))
        aTxt).2 cDat).2 bBin =
    getFileBuffer zlibEnv (getFileBuffer zlibEnv (OBBArchive.new zlibEnv (some sampleFile)) aTxt).2
      bBin :=
  have h := missing_file_fails_locally zlibEnv (some sampleFile)
    (getFileBuffer zlibEnv (OBBArchive.new zlibEnv (some sampleFile)) aTxt).2 cDat
    (Reachable.fetched _ aTxt Reachable.constructed) (by decide!) sampleFile_no_cDat
  ⟨h.1, h.2.2.2.2.2 bBin⟩

/-! ## C12: an invalid archive -/

/-- The constructor leaves the cache empty. -/
theorem new_cache_empty (env : Env) (disk : Option (List Byte)) :
    (OBBArchive.new env disk).m_file_buffer_cache_map = [] := by
  cases disk with
  | none => rw [new_none]; rfl
  | some d => exact (new_valid_iff env d).2

/-- An archive whose construction ended invalid stays as the constructor left it, apart from
the allocator's bookkeeping: invalid, with an empty cache and the stream untouched. -/
theorem reachable_invalid (env : Env) (disk : Option (List Byte)) (a : OBBArchive)
    (hinv : (OBBArchive.new env disk).m_is_valid = false) (hr : Reachable env disk a) :
    a.m_is_valid = false ∧ a.m_file_buffer_cache_map = [] ∧
      a.m_obb_file = (OBBArchive.new env disk).m_obb_file := by
  induction hr with
  | constructed => exact ⟨hinv, new_cache_empty env disk, rfl⟩
  | fetched a path _ ih =>
    obtain ⟨hv, hc, hf⟩ := ih
    rw [getFileBuffer_invalid env a path (by rw [hc]; rfl) hv]
    exact ⟨hv, hc, hf⟩
  | cleared a _ ih => exact ⟨ih.1, rfl, ih.2.2⟩

/-- C12: when construction ended with `isValid() == false`, then in every state reached by
calls of `getFileBuffer` and `clearCache` the cache is empty, and every `getFileBuffer(path)`
returns `(null, 0)` and leaves the archive as it was; the stream is never touched after
construction (no seek, no read, the read counter stays). -/
theorem invalid_archive_always_fails (env : Env) (disk : Option (List Byte)) (a : OBBArchive)
    (path : Path) (hinv : (OBBArchive.new env disk).isValid = false)
    (hr : Reachable env disk a) :
    a.m_file_buffer_cache_map = [] ∧
    getFileBuffer env a path = ((none, 0), a) ∧
    (getFileBuffer env a path).2.m_obb_file = (OBBArchive.new env disk).m_obb_file ∧
    (getFileBuffer env a path).2.m_obb_file.reads = (OBBArchive.new env disk).m_obb_file.reads := by
  obtain ⟨hv, hc, hf⟩ := reachable_invalid env disk a hinv hr
  have h := getFileBuffer_invalid env a path (by rw [hc]; rfl) hv
  rw [h]
  exact ⟨hc, rfl, hf, by rw [← hf]⟩

theorem invalid_archive_always_fails_witness :
    (OBBArchive.new zeroEnv (some shortFile)).isValid = false ∧
    getFileBuffer zeroEnv
        (getFileBuffer zeroEnv (clearCache (OBBArchive.new zeroEnv (some shortFile))) aTxt).2 aTxt
      = ((none, 0),
         (getFileBuffer zeroEnv (clearCache (OBBArchive.new zeroEnv (some shortFile))) aTxt).2) :=
  ⟨by decide!,
   (invalid_archive_always_fails zeroEnv (some shortFile)
    (getFileBuffer zeroEnv (clearCache (OBBArchive.new zeroEnv (some shortFile))) aTxt).2 aTxt
    (by decide!)
    (Reachable.fetched _ aTxt (Reachable.cleared _ Reachable.constructed))).2.1⟩

/-! ## C13: the second lookup -/

/-- A lookup that returns a buffer leaves that result in the cache under its path. -/
theorem getFileBuffer_caches (env : Env) (a : OBBArchive) (path : Path) (buf : Buffer) (n : Nat)
    (h : (getFileBuffer env a path).1 = (some buf, n)) :
    cacheFind env (getFileBuffer env a path).2.m_file_buffer_cache_map path
      = some (some buf, n) := by
  cases hc : cacheFind env a.m_file_buffer_cache_map path with
  | some v =>
    rw [getFileBuffer_hit env a path v hc] at h ⊢
    rw [hc]
    exact congrArg some h
  | none =>
    cases hv : a.m_is_valid with
    | false =>
      rw [getFileBuffer_invalid env a path hc hv] at h
      exact absurd h (by simp)
    | true =>
      cases he : mapFind a.m_zip_entries path with
      | none =>
        rw [getFileBuffer_absent env a path hc he] at h
        exact absurd h (by simp)
      | some entry =>
        rw [getFileBuffer_miss env a path entry hc hv he] at h ⊢
        by_cases h0 : entry.compression_method = 0
        · revert h
          unfold fetchEntry
          lift_lets
          intro f1 r2 compressed_data a2 buffer_size buffer addr a3 res buffer'
          rw [if_pos h0]
          intro h
          show cacheFind env (cacheEmplace env a.m_file_buffer_cache_map path (some buffer, buffer_size)) path
            = _
          rw [cacheFind_cacheEmplace env _ _ _ _ hc, if_pos rfl]
          exact congrArg some h
        · by_cases h8 : entry.compression_method = 8
          · rw [fetchEntry_deflate env a path entry h8] at h ⊢
            split at h
            · rename_i hok
              rw [if_pos hok]
              show cacheFind env (cacheEmplace env a.m_file_buffer_cache_map path _) path = _
              rw [cacheFind_cacheEmplace env _ _ _ _ hc, if_pos rfl]
              exact congrArg some h
            · exact absurd h (by simp)
          · rw [fetchEntry_unsupported env a path entry h0 h8] at h
            exact absurd h (by simp)

/-- C13: for every archive state and path, when `getFileBuffer(path)` returns a non-null
`(buf, n)`, the `getFileBuffer(path)` that follows it returns the same `(buf, n)` and leaves
the whole archive state as it was: no seek, no read (the read counter stays), no
allocation and no decode. -/
theorem cache_idempotence (env : Env) (a : OBBArchive) (path : Path) (buf : Buffer) (n : Nat)
    (h : (getFileBuffer env a path).1 = (some buf, n)) :
    getFileBuffer env (getFileBuffer env a path).2 path
      = ((some buf, n), (getFileBuffer env a path).2) ∧
    (getFileBuffer env (getFileBuffer env a path).2 path).2.m_obb_file.reads
      = (getFileBuffer env a path).2.m_obb_file.reads ∧
    (getFileBuffer env (getFileBuffer env a path).2 path).2.heap_allocs
      = (getFileBuffer env a path).2.heap_allocs := by
  have hhit := getFileBuffer_hit env _ path _ (getFileBuffer_caches env a path buf n h)
  rw [hhit]
  exact ⟨rfl, rfl, rfl⟩

theorem cache_idempotence_witness :
    (getFileBuffer zlibEnv (OBBArchive.new zlibEnv (some sampleFile)) bBin).1
      = (some ⟨0, worldText⟩, 29) ∧
    (getFileBuffer zlibEnv (OBBArchive.new zlibEnv (some sampleFile)) bBin).2.m_obb_file.reads
      = (OBBArchive.new zlibEnv (some sampleFile)).m_obb_file.reads + 1 ∧
    getFileBuffer zlibEnv (getFileBuffer zlibEnv (OBBArchive.new zlibEnv (some sampleFile)) bBin).2
        bBin
      = ((some ⟨0, worldText⟩, 29),
         (getFileBuffer zlibEnv (OBBArchive.new zlibEnv (some sampleFile)) bBin).2) :=
  ⟨by decide!, by decide!,
   (cache_idempotence zlibEnv (OBBArchive.new zlibEnv (some sampleFile)) bBin ⟨0, worldText⟩ 29
    (by decide!)).1⟩

/-! ## C15: what lookups and clears leave alone -/

/-- C15: for every archive state and every path, `getFileBuffer` (whatever it returns) and
`clearCache` leave the validity flag and the entry table, with every key and every field of
every entry, exactly as they were; hence in every state reached by such calls both are what
the constructor left. -/
theorem validity_and_table_fixed (env : Env) (disk : Option (List Byte)) :
    (∀ (a : OBBArchive) (path : Path),
      (getFileBuffer env a path).2.m_is_valid = a.m_is_valid ∧
      (getFileBuffer env a path).2.m_zip_entries = a.m_zip_entries) ∧
    (∀ a : OBBArchive,
      (clearCache a).m_is_valid = a.m_is_valid ∧ (clearCache a).m_zip_entries = a.m_zip_entries) ∧
    (∀ a : OBBArchive, Reachable env disk a →
      a.isValid = (OBBArchive.new env disk).isValid ∧
      a.m_zip_entries = (OBBArchive.new env disk).m_zip_entries) := by
  refine ⟨fun a path => ⟨(getFileBuffer_frame env a path).2, (getFileBuffer_frame env a path).1⟩,
    fun a => ⟨rfl, rfl⟩, fun a hr => ?_⟩
  induction hr with
  | constructed => exact ⟨rfl, rfl⟩
  | fetched a path _ ih =>
    obtain ⟨h1, h2⟩ := getFileBuffer_frame env a path
    exact ⟨h2.trans ih.1, h1.trans ih.2⟩
  | cleared a _ ih => exact ih

/-! ## C16: the manager -/

theorem scanEOCD_spec (buffer : List Byte) :
    ∀ n, match scanEOCD buffer n with
      | some i => i ≤ n ∧ readU32 buffer i = EOCD_SIGNATURE ∧
          ∀ j, i < j → j ≤ n → readU32 buffer j ≠ EOCD_SIGNATURE
      | none => ∀ j, j ≤ n → readU32 buffer j ≠ EOCD_SIGNATURE := by
  intro n
  induction n with
  | zero =>
    unfold scanEOCD
    by_cases h : readU32 buffer 0 = EOCD_SIGNATURE
    · rw [if_pos h]
      exact ⟨Nat.le_refl 0, h, fun j h1 h2 => by omega⟩
    · rw [if_neg h]
      intro j hj
      have : j = 0 := by omega
      subst this
      exact h
  | succ k ih =>
    unfold scanEOCD
    by_cases h : readU32 buffer (k + 1) = EOCD_SIGNATURE
    · rw [if_pos h]
      exact ⟨Nat.le_refl _, h, fun j h1 h2 => by omega⟩
    · rw [if_neg h]
      cases hs : scanEOCD buffer k with
      | some i =>
        rw [hs] at ih
        obtain ⟨h1, h2, h3⟩ := ih
        refine ⟨by omega, h2, fun j hj1 hj2 => ?_⟩
        by_cases hj : j = k + 1
        · subst hj; exact h
        · exact h3 j hj1 (by omega)
      | none =>
        rw [hs] at ih
        intro j hj
        by_cases hj' : j = k + 1
        · subst hj'; exact h
        · exact ih j (by omega)

theorem isValid_eq (a : OBBArchive) : a.isValid = a.m_is_valid := rfl

/-- When `findCentralDirectory` fails on a freshly opened file: no End-Of-Central-Directory
record is found, or `parseCentralDirectory` fails on the record found. -/
theorem findCentralDirectory_false_iff (env : Env) (d : List Byte) :
    (findCentralDirectory env (OBBArchive.opened d)).1 = false ↔
      ((∀ i, i + 22 ≤ min d.length 65557 → readU32 (tailWindow d) i ≠ EOCD_SIGNATURE) ∨
       ∃ i, EocdAt d i ∧
         (parseCentralDirectory env (afterWindowRead (OBBArchive.opened d)) (eocdCdOffset d i)
           (eocdCdSize d i) (eocdTotalEntries d i)).1 = false) := by
  constructor
  · intro h
    rw [findCentralDirectory_window env _ (opened_failbit d), opened_contents,
      tailWindow_length] at h
    by_cases hlt : min d.length 65557 < 22
    · exact Or.inl (fun i hi => by omega)
    · rw [if_neg hlt] at h
      have hspec := scanEOCD_spec (tailWindow d) (min d.length 65557 - 22)
      cases hs : scanEOCD (tailWindow d) (min d.length 65557 - 22) with
      | none =>
        rw [hs] at hspec
        exact Or.inl (fun i hi => hspec i (by omega))
      | some i =>
        rw [hs] at hspec h
        obtain ⟨h1, h2, h3⟩ := hspec
        exact Or.inr ⟨i, ⟨by omega, h2, fun j _ hij hj => h3 j hij (by omega)⟩, h⟩
  · intro h
    rcases h with hnone | ⟨i, hE, hp⟩
    · rw [findCentralDirectory_window env _ (opened_failbit d), opened_contents,
        tailWindow_length]
      by_cases hlt : min d.length 65557 < 22
      · rw [if_pos hlt]
      · rw [if_neg hlt, scanEOCD_none _ _ (fun j hj => hnone j (by omega))]
    · rw [findCentralDirectory_of_eocd env d i hE, ← parseCentralDirectory_opened env d _
        (eocdCdSize d i)]
      exact hp

/-- C16: `createArchive` returns null exactly when the constructed archive has
`isValid() == false`, which is the case exactly when the file cannot be opened, or no
End-Of-Central-Directory record is found in the tail window, or `parseCentralDirectory`
fails on the record found; and a non-null handle is the constructed archive, with
`isValid() == true`. -/
theorem createArchive_null_iff_invalid (env : Env) (disk : Option (List Byte)) :
    (createArchive env disk = none ↔ (OBBArchive.new env disk).isValid = false) ∧
    (∀ handle : OBBArchive, createArchive env disk = some handle →
      handle = OBBArchive.new env disk ∧ handle.isValid = true) ∧
    ((OBBArchive.new env disk).isValid = false ↔
      disk = none ∨
      ∃ d, disk = some d ∧
        ((∀ i, i + 22 ≤ min d.length 65557 → readU32 (tailWindow d) i ≠ EOCD_SIGNATURE) ∨
         ∃ i, EocdAt d i ∧
           (parseCentralDirectory env (afterWindowRead (OBBArchive.opened d))
             (eocdCdOffset d i) (eocdCdSize d i) (eocdTotalEntries d i)).1 = false)) := by
  have hc : createArchive env disk =
      if (OBBArchive.new env disk).isValid = false then none
      else some (OBBArchive.new env disk) := rfl
  refine ⟨?_, ?_, ?_⟩
  · rw [hc]
    by_cases h : (OBBArchive.new env disk).isValid = false
    · rw [if_pos h]; exact ⟨fun _ => h, fun _ => rfl⟩
    · rw [if_neg h]; exact ⟨fun h' => absurd h' (by simp), fun h' => absurd h' h⟩
  · intro handle hh
    rw [hc] at hh
    by_cases h : (OBBArchive.new env disk).isValid = false
    · rw [if_pos h] at hh; exact absurd hh (by simp)
    · rw [if_neg h] at hh
      have : OBBArchive.new env disk = handle := Option.some.inj hh
      subst this
      exact ⟨rfl, by simpa using h⟩
  · cases disk with
    | none =>
      rw [new_none]
      exact ⟨fun _ => Or.inl rfl, fun _ => rfl⟩
    | some d =>
      rw [isValid_eq, (new_valid_iff env d).1, findCentralDirectory_false_iff env d]
      constructor
      · intro h; exact Or.inr ⟨d, rfl, h⟩
      · intro h
        rcases h with h | ⟨d', hd, h⟩
        · exact absurd h (by simp)
        · have : d = d' := Option.some.inj hd
          subst this
          exact h

/-! ## C17: the cache invariant -/

/-- What `getFileBuffer` does to the cache: nothing, or it appends one pair under the path
looked up, which was not a key before. -/
theorem getFileBuffer_cache_step (env : Env) (a : OBBArchive) (path : Path) :
    (getFileBuffer env a path).2.m_file_buffer_cache_map = a.m_file_buffer_cache_map ∨
    (cacheFind env a.m_file_buffer_cache_map path = none ∧
      ∃ v : FileBuffer, (getFileBuffer env a path).2.m_file_buffer_cache_map
        = a.m_file_buffer_cache_map ++ [(path, v)]) := by
  cases hc : cacheFind env a.m_file_buffer_cache_map path with
  | some v =>
    rw [getFileBuffer_hit env a path v hc]
    exact Or.inl rfl
  | none =>
    cases hv : a.m_is_valid with
    | false =>
      rw [getFileBuffer_invalid env a path hc hv]
      exact Or.inl rfl
    | true =>
      cases he : mapFind a.m_zip_entries path with
      | none =>
        rw [getFileBuffer_absent env a path hc he]
        exact Or.inl rfl
      | some entry =>
        rw [getFileBuffer_miss env a path entry hc hv he]
        rcases (fetchEntry_frame env a path entry).2.2 with h | ⟨buf, _, _, h⟩
        · exact Or.inl h
        · refine Or.inr ⟨rfl, (some buf, entry.uncompressed_size), ?_⟩
          rw [h, cacheEmplace_miss env _ _ _ hc]

/-- In every reachable state the keys of the cache are pairwise different as paths. -/
theorem reachable_cache_nodup (env : Env) (disk : Option (List Byte)) (a : OBBArchive)
    (hr : Reachable env disk a) :
    (a.m_file_buffer_cache_map.map (fun kv => env.path_key kv.1)).Nodup := by
  induction hr with
  | constructed =>
    rw [new_cache_empty]
    exact List.nodup_nil
  | fetched a path _ ih =>
    rcases getFileBuffer_cache_step env a path with h | ⟨hmiss, v, h⟩
    · rw [h]; exact ih
    · rw [h, List.map_append, List.map_cons, List.map_nil]
      refine List.Nodup.append ih (List.nodup_singleton _) ?_
      intro k hk1 hk2
      rw [List.mem_singleton] at hk2
      subst hk2
      exact (cacheFind_eq_none_iff env _ _).1 hmiss hk1
  | cleared a _ _ => exact List.nodup_nil

/-- In every reachable state the validity flag and the entry table are those of the
constructed archive. -/
theorem reachable_frame (env : Env) (disk : Option (List Byte)) (a : OBBArchive)
    (hr : Reachable env disk a) :
    a.m_is_valid = (OBBArchive.new env disk).m_is_valid ∧
    a.m_zip_entries = (OBBArchive.new env disk).m_zip_entries := by
  induction hr with
  | constructed => exact ⟨rfl, rfl⟩
  | fetched a path _ ih =>
    obtain ⟨h1, h2⟩ := getFileBuffer_frame env a path
    exact ⟨h2.trans ih.1, h1.trans ih.2⟩
  | cleared a _ ih => exact ih

/-- C17: in every state reached from construction by calls of `getFileBuffer` and
`clearCache`, every pair of the cache has a key of the entry table and a non-null buffer
whose size, also as a block of bytes, is the `uncompressed_size` of that entry; the keys of
the cache are distinct, also as paths, so the cache has at most as many pairs as the table
has distinct keys, and at most as many as the table has entries; and the cache is empty
when the archive is invalid. -/
theorem cache_invariant (env : Env) (disk : Option (List Byte)) (a : OBBArchive)
    (hr : Reachable env disk a) :
    (∀ (path : Path) (v : FileBuffer), (path, v) ∈ a.m_file_buffer_cache_map →
      ∃ (entry : ZipFileEntry) (buf : Buffer),
        mapFind a.m_zip_entries path = some entry ∧
        v = (some buf, entry.uncompressed_size) ∧
        buf.data.length = entry.uncompressed_size) ∧
    (a.m_file_buffer_cache_map.map Prod.fst).Nodup ∧
    (a.m_file_buffer_cache_map.map (fun kv => env.path_key kv.1)).Nodup ∧
    a.m_file_buffer_cache_map.length ≤ (a.m_zip_entries.map Prod.fst).dedup.length ∧
    a.m_file_buffer_cache_map.length ≤ a.m_zip_entries.length ∧
    (a.isValid = false → a.m_file_buffer_cache_map = []) := by
  have hndk := reachable_cache_nodup env disk a hr
  have hnd : (a.m_file_buffer_cache_map.map Prod.fst).Nodup := by
    have e : a.m_file_buffer_cache_map.map (fun kv => env.path_key kv.1)
        = (a.m_file_buffer_cache_map.map Prod.fst).map env.path_key := by
      rw [List.map_map]
      rfl
    rw [e] at hndk
    exact List.Nodup.of_map _ hndk
  have hsound := reachable_cacheSound env disk a hr
  have hkeys : a.m_file_buffer_cache_map.map Prod.fst ⊆ (a.m_zip_entries.map Prod.fst).dedup := by
    intro k hk
    obtain ⟨⟨k', v⟩, hmem, hk'⟩ := List.mem_map.1 hk
    simp only at hk'
    subst hk'
    obtain ⟨e, _, he, _⟩ := hsound k' v hmem
    rw [List.mem_dedup]
    by_contra hnot
    rw [(mapFind_eq_none_iff _ _).2 hnot] at he
    exact absurd he (by simp)
  have hle : a.m_file_buffer_cache_map.length ≤ (a.m_zip_entries.map Prod.fst).dedup.length := by
    have := (List.Nodup.subperm hnd hkeys).length_le
    rwa [List.length_map] at this
  refine ⟨fun path v hmem => ?_, hnd, hndk, hle, ?_, fun hinv => ?_⟩
  · obtain ⟨e, buf, he, _, hv, hlen⟩ := hsound path v hmem
    exact ⟨e, buf, he, hv, hlen⟩
  · have h2 := (List.dedup_sublist (a.m_zip_entries.map Prod.fst)).length_le
    rw [List.length_map] at h2
    exact Nat.le_trans hle h2
  · have hnew : (OBBArchive.new env disk).m_is_valid = false := by
      rw [← (reachable_frame env disk a hr).1]
      exact hinv
    exact (reachable_invalid env disk a hnew hr).2.1

theorem cache_invariant_witness :
    (getFileBuffer zlibEnv (getFileBuffer zlibEnv (OBBArchive.new zlibEnv (some sampleFile))
      aTxt).2 bBin).2.m_file_buffer_cache_map
      = [(aTxt, (some ⟨0, bytesOf [104, 101, 108, 108, 111]⟩, 5)),
         (bBin, (some ⟨1, worldText⟩, 29))] ∧
    (getFileBuffer zlibEnv (getFileBuffer zlibEnv (OBBArchive.new zlibEnv (some sampleFile))
      aTxt).2 bBin).2.m_file_buffer_cache_map.length ≤
    (getFileBuffer zlibEnv (getFileBuffer zlibEnv (OBBArchive.new zlibEnv (some sampleFile))
      aTxt).2 bBin).2.m_zip_entries.length :=
  ⟨by decide!,
   (cache_invariant zlibEnv (some sampleFile)
    (getFileBuffer zlibEnv (getFileBuffer zlibEnv (OBBArchive.new zlibEnv (some sampleFile))
      aTxt).2 bBin).2
    (Reachable.fetched _ bBin (Reachable.fetched _ aTxt Reachable.constructed))).2.2.2.2.1⟩

/-! ## C18: the scan stays inside the window -/

theorem scanVisited_mem (buffer : List Byte) :
    ∀ n i, i ∈ scanVisited buffer n ↔
      i ≤ n ∧ ∀ j, i < j → j ≤ n → readU32 buffer j ≠ EOCD_SIGNATURE := by
  intro n
  induction n with
  | zero =>
    intro i
    simp only [scanVisited, List.mem_singleton]
    constructor
    · intro h; subst h; exact ⟨Nat.le_refl 0, fun j h1 h2 => by omega⟩
    · intro h; omega
  | succ k ih =>
    intro i
    unfold scanVisited
    by_cases h : readU32 buffer (k + 1) = EOCD_SIGNATURE
    · rw [if_pos h, List.mem_singleton]
      constructor
      · intro hi; subst hi; exact ⟨Nat.le_refl _, fun j h1 h2 => by omega⟩
      · intro ⟨h1, h2⟩
        by_contra hne
        exact h2 (k + 1) (by omega) (Nat.le_refl _) h
    · rw [if_neg h, List.mem_cons, ih]
      constructor
      · intro hi
        rcases hi with hi | ⟨h1, h2⟩
        · subst hi; exact ⟨Nat.le_refl _, fun j h1 h2 => by omega⟩
        · refine ⟨by omega, fun j hj1 hj2 => ?_⟩
          by_cases hj : j = k + 1
          · subst hj; exact h
          · exact h2 j hj1 (by omega)
      · intro ⟨h1, h2⟩
        by_cases hi : i = k + 1
        · exact Or.inl hi
        · exact Or.inr ⟨by omega, fun j hj1 hj2 => h2 j hj1 (by omega)⟩

theorem scanEOCD_eq_find (buffer : List Byte) :
    ∀ n, scanEOCD buffer n =
      (scanVisited buffer n).find? (fun i => decide (readU32 buffer i = EOCD_SIGNATURE)) := by
  intro n
  induction n with
  | zero =>
    unfold scanEOCD scanVisited
    by_cases h : readU32 buffer 0 = EOCD_SIGNATURE
    · simp [h]
    · simp [h]
  | succ k ih =>
    unfold scanEOCD scanVisited
    by_cases h : readU32 buffer (k + 1) = EOCD_SIGNATURE
    · simp [h]
    · rw [if_neg h, if_neg h, List.find?_cons_of_neg _ (by simpa using h)]
      exact ih

theorem scanStart_eq (W : Nat) (hW : W ≤ 65557) : scanStart W = (W : Int) - 22 := by
  by_cases h : 22 ≤ W
  · rw [scanStart_of_ge W h hW]
    omega
  · unfold scanStart subSizeT toInt32 EOCD_MIN_SIZE
    have e : (W + (2 ^ 64 - 22 % 2 ^ 64)) % 2 ^ 64 = 2 ^ 64 - 22 + W := by omega
    rw [e]
    have e2 : (2 ^ 64 - 22 + W) % 2 ^ 32 = 2 ^ 32 - 22 + W := by omega
    rw [e2, if_neg (by omega)]
    omega

/-- C18: for every window length `W <= 65557` and every window of `W` bytes, the start value
of the loop, `W - 22` computed in `size_t` and converted to `int`, is the integer `W - 22`;
when `W < 22` it is negative and the loop body does not run; and every offset `i` for which
the body runs has `i + 19 < W`, so that every index the body reads (`i .. i+3`, and
`i+10 .. i+19` on a match) is inside the window. The offsets visited are those from `W - 22`
down to the largest one that carries the signature, which is the offset the loop accepts. -/
theorem scan_stays_in_window (buffer : List Byte) (W : Nat) (hlen : buffer.length = W)
    (hW : W ≤ 65557) :
    scanStart W = (W : Int) - 22 ∧
    (W < 22 → scanStart W < 0 ∧ scanOffsets buffer W = []) ∧
    (∀ i, i ∈ scanOffsets buffer W →
      i + 19 < W ∧ ∀ k, k ∈ scanReads buffer i → k < buffer.length) ∧
    (∀ i, i ∈ scanOffsets buffer W ↔
      i + 22 ≤ W ∧ ∀ j, i < j → j + 22 ≤ W → readU32 buffer j ≠ EOCD_SIGNATURE) ∧
    (22 ≤ W → scanEOCD buffer (scanStart W).toNat =
      (scanOffsets buffer W).find? (fun i => decide (readU32 buffer i = EOCD_SIGNATURE))) := by
  have hs := scanStart_eq W hW
  have hmem : ∀ i, i ∈ scanOffsets buffer W ↔
      i + 22 ≤ W ∧ ∀ j, i < j → j + 22 ≤ W → readU32 buffer j ≠ EOCD_SIGNATURE := by
    intro i
    unfold scanOffsets
    by_cases h : W < 22
    · rw [if_pos (by rw [hs]; omega)]
      simp only [List.not_mem_nil, false_iff]
      intro h'
      omega
    · rw [if_neg (by rw [hs]; omega), scanVisited_mem]
      have e : (scanStart W).toNat = W - 22 := by rw [hs]; omega
      rw [e]
      constructor
      · intro ⟨h1, h2⟩
        exact ⟨by omega, fun j hj1 hj2 => h2 j hj1 (by omega)⟩
      · intro ⟨h1, h2⟩
        exact ⟨by omega, fun j hj1 hj2 => h2 j hj1 (by omega)⟩
  refine ⟨hs, fun h => ⟨by rw [hs]; omega, ?_⟩, fun i hi => ?_, hmem, fun h => ?_⟩
  · unfold scanOffsets
    rw [if_pos (by rw [hs]; omega)]
  · have h1 := ((hmem i).1 hi).1
    refine ⟨by omega, fun k hk => ?_⟩
    rw [hlen]
    unfold scanReads at hk
    by_cases hsig : readU32 buffer i = EOCD_SIGNATURE
    · rw [if_pos hsig] at hk
      simp only [List.mem_append, List.mem_cons, List.mem_singleton, List.not_mem_nil,
        or_false] at hk
      omega
    · rw [if_neg hsig] at hk
      simp only [List.mem_append, List.mem_cons, List.mem_singleton, List.not_mem_nil,
        or_false] at hk
      omega
  · unfold scanOffsets
    rw [if_neg (by rw [hs]; omega)]
    exact scanEOCD_eq_find buffer _

theorem scan_stays_in_window_witness :
    scanStart 44 = 22 ∧ scanOffsets twoEocdFile 44 = [22] ∧
    scanReads twoEocdFile 22 = [22, 23, 24, 25, 32, 33, 34, 35, 36, 37, 38, 39, 40, 41] ∧
    ∀ i, i ∈ scanOffsets twoEocdFile 44 → i + 19 < 44 :=
  have h := scan_stays_in_window twoEocdFile 44 (by decide) (by decide)
  ⟨h.1, by decide!, by decide!, fun i hi => (h.2.2.1 i hi).1⟩

/-! ## C19: the copy of a stored payload -/

/-- C19 fails on the code: the store branch copies `uncompressed_size` bytes out of the
`compressed_size`-byte vector, so it stays inside the vector exactly when
`uncompressed_size <= compressed_size`. On `overreadFile` (`compressed_size = 5`,
`uncompressed_size = 8`) the vector holds 5 bytes, the copy reads the indices 5, 6 and 7,
and the last three bytes of the returned buffer are whatever lies behind the vector: two
environments that differ in those bytes only give different buffers. -/
theorem store_copy_reads_beyond_input :
    (∀ entry : ZipFileEntry, (∀ k, k ∈ storeCopyReads entry → k < entry.compressed_size) ↔
      entry.uncompressed_size ≤ entry.compressed_size) ∧
    (OBBArchive.new zeroEnv (some overreadFile)).isValid = true ∧
    mapFind (OBBArchive.new zeroEnv (some overreadFile)).m_zip_entries aTxt =
      some { filename := aTxt, compressed_size := 5, uncompressed_size := 8
             crc32 := 0x3610a686, compression_method := 0, file_data_offset := 35 } ∧
    (payloadRead (OBBArchive.new zeroEnv (some overreadFile))
      { filename := aTxt, compressed_size := 5, uncompressed_size := 8
        crc32 := 0x3610a686, compression_method := 0, file_data_offset := 35 }).length = 5 ∧
    storeCopyReads
      { filename := aTxt, compressed_size := 5, uncompressed_size := 8
        crc32 := 0x3610a686, compression_method := 0, file_data_offset := 35 }
      = [0, 1, 2, 3, 4, 5, 6, 7] ∧
    (getFileBuffer zeroEnv (OBBArchive.new zeroEnv (some overreadFile)) aTxt).1 =
      (some { addr := 0, data := bytesOf [104, 101, 108, 108, 111, 0, 0, 0] }, 8) ∧
    (getFileBuffer ffBeyondEnv (OBBArchive.new ffBeyondEnv (some overreadFile)) aTxt).1 =
      (some { addr := 0, data := bytesOf [104, 101, 108, 108, 111, 255, 255, 255] }, 8) := by
  refine ⟨fun entry => ?_, by decide!, by decide!, by decide!, by decide!, by decide!,
    by decide!⟩
  unfold storeCopyReads
  constructor
  · intro h
    by_contra hlt
    have := h entry.compressed_size (List.mem_range.2 (by omega))
    omega
  · intro h k hk
    have := List.mem_range.1 hk
    omega

/-! ## C20: duplicate names -/

theorem mapAssign_keys {κ ν : Type} [DecidableEq κ] (m : List (κ × ν)) (k : κ) (v : ν) :
    (mapAssign m k v).map Prod.fst =
      if k ∈ m.map Prod.fst then m.map Prod.fst else m.map Prod.fst ++ [k] := by
  induction m with
  | nil => simp [mapAssign]
  | cons kv rest ih =>
    obtain ⟨k0, v0⟩ := kv
    by_cases h0 : k0 = k
    · subst h0
      simp [mapAssign]
    · have h1 : ¬ k = k0 := fun h => h0 h.symm
      simp only [mapAssign, if_neg h0, List.map_cons, ih, List.mem_cons, h1, false_or]
      by_cases hk : k ∈ rest.map Prod.fst
      · rw [if_pos hk, if_pos hk]
      · rw [if_neg hk, if_neg hk, List.cons_append]

theorem mapAssign_nodup {κ ν : Type} [DecidableEq κ] (m : List (κ × ν)) (k : κ) (v : ν)
    (h : (m.map Prod.fst).Nodup) : ((mapAssign m k v).map Prod.fst).Nodup := by
  rw [mapAssign_keys]
  by_cases hk : k ∈ m.map Prod.fst
  · rw [if_pos hk]; exact h
  · rw [if_neg hk]
    refine List.Nodup.append h (List.nodup_singleton _) ?_
    intro x hx1 hx2
    rw [List.mem_singleton] at hx2
    subst hx2
    exact hk hx1

theorem mapAssign_length {κ ν : Type} [DecidableEq κ] (m : List (κ × ν)) (k : κ) (v : ν) :
    (mapAssign m k v).length ≤ m.length + 1 := by
  have h := congrArg List.length (mapAssign_keys m k v)
  rw [List.length_map] at h
  rw [h]
  by_cases hk : k ∈ m.map Prod.fst
  · rw [if_pos hk, List.length_map]; omega
  · rw [if_neg hk, List.length_append, List.length_map]; simp

theorem cdTable_nodup (d : List Byte) (off : Nat) (m : List (List Byte × ZipFileEntry))
    (h : (m.map Prod.fst).Nodup) : ∀ n, ((cdTable d off m n).map Prod.fst).Nodup := by
  intro n
  induction n with
  | zero => exact h
  | succ k ih => exact mapAssign_nodup _ _ _ ih

theorem cdTable_length (d : List Byte) (off : Nat) (m : List (List Byte × ZipFileEntry)) :
    ∀ n, (cdTable d off m n).length ≤ m.length + n := by
  intro n
  induction n with
  | zero => exact Nat.le_refl _
  | succ k ih =>
    have := mapAssign_length (cdTable d off m k) (cdFilename d (cdRecordStart d off k))
      (cdEntry d (cdRecordStart d off k))
    show (mapAssign _ _ _).length ≤ _
    omega

/-- The table after `n` records holds, under a name, the entry of the last of these records
that carries the name. -/
theorem cdTable_last (d : List Byte) (off : Nat) (m : List (List Byte × ZipFileEntry))
    (name : List Byte) (k : Nat) (hname : cdFilename d (cdRecordStart d off k) = name) :
    ∀ n, k < n → (∀ j, k < j → j < n → cdFilename d (cdRecordStart d off j) ≠ name) →
      mapFind (cdTable d off m n) name = some (cdEntry d (cdRecordStart d off k)) := by
  intro n
  induction n with
  | zero => intro h; omega
  | succ j ih =>
    intro hk hlast
    show mapFind (mapAssign _ _ _) name = _
    rw [mapFind_mapAssign]
    by_cases hj : k = j
    · subst hj
      rw [if_pos hname]
    · rw [if_neg (hlast j (by omega) (by omega))]
      exact ih (by omega) (fun j' h1 h2 => hlast j' h1 (by omega))

theorem cdTable_key_iff (d : List Byte) (off : Nat) (name : List Byte) :
    ∀ n, name ∈ (cdTable d off [] n).map Prod.fst ↔
      ∃ j, j < n ∧ cdFilename d (cdRecordStart d off j) = name := by
  intro n
  induction n with
  | zero => simp [cdTable]
  | succ k ih =>
    show name ∈ (mapAssign _ _ _).map Prod.fst ↔ _
    rw [mapAssign_keys]
    constructor
    · intro h
      have h' : name ∈ (cdTable d off [] k).map Prod.fst ∨
          name = cdFilename d (cdRecordStart d off k) := by
        split at h
        · exact Or.inl h
        · rcases List.mem_append.1 h with h | h
          · exact Or.inl h
          · exact Or.inr (List.mem_singleton.1 h)
      rcases h' with h' | h'
      · obtain ⟨j, hj, hn⟩ := ih.1 h'
        exact ⟨j, by omega, hn⟩
      · exact ⟨k, by omega, h'.symm⟩
    · intro ⟨j, hj, hn⟩
      by_cases hjk : j = k
      · subst hjk
        split
        · rw [← hn]; assumption
        · exact List.mem_append.2 (Or.inr (List.mem_singleton.2 hn.symm))
      · have hmem := ih.2 ⟨j, by omega, hn⟩
        split
        · exact hmem
        · exact List.mem_append.2 (Or.inl hmem)

/-- C20, as the claim states it, fails on `lostLocalHeaderFile` in the environment
`staleHeaderEnv`: the End-Of-Central-Directory record announces two records, named `a.txt`
and `b.txt`; reading the Local File header of `a.txt` runs past the end of the file, after
which no `read` delivers anything; the second round finds the signature in the stale
`header` object, and `parseCentralDirectory` succeeds. The archive is valid, and its table
has no entry for `b.txt` and an entry under five zero bytes, the name of no record. -/
theorem lostLocalHeaderFile_table_off_records :
    EocdAt lostLocalHeaderFile 182 ∧ eocdTotalEntries lostLocalHeaderFile 182 = 2 ∧
    cdFilename lostLocalHeaderFile
      (cdRecordStart lostLocalHeaderFile (eocdCdOffset lostLocalHeaderFile 182) 0) = aTxt ∧
    cdFilename lostLocalHeaderFile
      (cdRecordStart lostLocalHeaderFile (eocdCdOffset lostLocalHeaderFile 182) 1) = bTxt ∧
    (OBBArchive.new staleHeaderEnv (some lostLocalHeaderFile)).isValid = true ∧
    (OBBArchive.new staleHeaderEnv (some lostLocalHeaderFile)).m_zip_entries.map Prod.fst
      = [aTxt, bytesOf [0, 0, 0, 0, 0]] ∧
    mapFind (OBBArchive.new staleHeaderEnv (some lostLocalHeaderFile)).m_zip_entries bTxt
      = none := by
  decide!

/-- C20 (amended): for every container whose End-Of-Central-Directory record is located and
whose first `total_entries` Central Directory records can be read completely (header,
filename and the Local File header they point to end inside the file), the archive is
valid, the keys of the entry table are distinct and are exactly the filenames of these
records, so the table has at most `total_entries` entries, and under a filename the table
holds the entry of the last record, in directory order, that carries it. -/
theorem duplicate_names_last_wins (env : Env) (d : List Byte) (i : Nat) (hE : EocdAt d i)
    (hall : ∀ j, j < eocdTotalEntries d i →
      RecordReadable d (cdRecordStart d (eocdCdOffset d i) j)) :
    (OBBArchive.new env (some d)).isValid = true ∧
    ((OBBArchive.new env (some d)).m_zip_entries.map Prod.fst).Nodup ∧
    (∀ name : List Byte, name ∈ (OBBArchive.new env (some d)).m_zip_entries.map Prod.fst ↔
      ∃ j, j < eocdTotalEntries d i ∧
        cdFilename d (cdRecordStart d (eocdCdOffset d i) j) = name) ∧
    (OBBArchive.new env (some d)).m_zip_entries.length ≤ eocdTotalEntries d i ∧
    (∀ (name : List Byte) (k : Nat), k < eocdTotalEntries d i →
      cdFilename d (cdRecordStart d (eocdCdOffset d i) k) = name →
      (∀ j, k < j → j < eocdTotalEntries d i →
        cdFilename d (cdRecordStart d (eocdCdOffset d i) j) ≠ name) →
      mapFind (OBBArchive.new env (some d)).m_zip_entries name
        = some (cdEntry d (cdRecordStart d (eocdCdOffset d i) k))) := by
  rw [new_of_readable env d i hE hall]
  refine ⟨rfl, cdTable_nodup d _ [] List.nodup_nil _, fun name => cdTable_key_iff d _ name _,
    ?_, fun name k hk hname hlast => cdTable_last d _ [] name k hname _ hk hlast⟩
  have := cdTable_length d (eocdCdOffset d i) [] (eocdTotalEntries d i)
  simpa using this

theorem duplicateNameFile_readable (j : Nat) (hj : j < eocdTotalEntries duplicateNameFile 182) :
    RecordReadable duplicateNameFile
      (cdRecordStart duplicateNameFile (eocdCdOffset duplicateNameFile 182) j) := by
  have e : eocdTotalEntries duplicateNameFile 182 = 2 := by decide!
  rw [e] at hj
  have : j = 0 ∨ j = 1 := by omega
  rcases this with rfl | rfl
  · decide!
  · decide!

theorem duplicate_names_last_wins_witness :
    (OBBArchive.new zeroEnv (some duplicateNameFile)).isValid = true ∧
    (OBBArchive.new zeroEnv (some duplicateNameFile)).m_zip_entries.length ≤ 2 ∧
    mapFind (OBBArchive.new zeroEnv (some duplicateNameFile)).m_zip_entries aTxt =
      some { filename := aTxt, compressed_size := 5, uncompressed_size := 5
             crc32 := 0x3a771143, compression_method := 0, file_data_offset := 75 } :=
  have h := duplicate_names_last_wins zeroEnv duplicateNameFile 182 (by decide!)
    duplicateNameFile_readable
  ⟨h.1, h.2.2.2.1,
   h.2.2.2.2 aTxt 1 (by decide!) (by decide!) (fun j h1 h2 => by
     have e : eocdTotalEntries duplicateNameFile 182 = 2 := by decide!
     rw [e] at h2
     omega)⟩

/-! ## C14: clearing the cache -/

/-- A stored entry: what `fetchEntry` returns, whatever the stream delivers. -/
theorem fetchEntry_store_raw (env : Env) (a : OBBArchive) (path : Path) (entry : ZipFileEntry)
    (hmethod : entry.compression_method = 0) :
    fetchEntry env a path entry =
      ((some ⟨a.heap_allocs, decodedFrom env (payloadRead a entry) entry a.heap_allocs⟩,
        entry.uncompressed_size),
       { a with
         m_obb_file := ((a.m_obb_file.seekg_beg (entry.file_data_offset : Int)).read
           (List.replicate entry.compressed_size 0) entry.compressed_size).1
         heap_allocs := a.heap_allocs + 1
         m_file_buffer_cache_map := cacheEmplace env a.m_file_buffer_cache_map path
           (some ⟨a.heap_allocs, decodedFrom env (payloadRead a entry) entry a.heap_allocs⟩,
            entry.uncompressed_size) }) := by
  unfold decodedFrom
  rw [if_pos hmethod]
  unfold fetchEntry payloadRead
  lift_lets
  intro f1 r2 compressed_data a2 buffer_size buffer addr a3 res buffer'
  rw [if_pos hmethod]

/-- The three outcomes of `fetchEntry`: a buffer is handed out and cached; the decoder of a
deflated entry fails and the block is freed; the method is not supported. In each the
stream is left as the `seekg` and the `read` of the payload leave it. -/
theorem fetchEntry_cases (env : Env) (a : OBBArchive) (path : Path) (e : ZipFileEntry) :
    (Decodes env (payloadRead a e) e a.heap_allocs ∧
      fetchEntry env a path e =
        ((some ⟨a.heap_allocs, decodedFrom env (payloadRead a e) e a.heap_allocs⟩,
          e.uncompressed_size),
         { a with
           m_obb_file := ((a.m_obb_file.seekg_beg (e.file_data_offset : Int)).read
             (List.replicate e.compressed_size 0) e.compressed_size).1
           heap_allocs := a.heap_allocs + 1
           m_file_buffer_cache_map := cacheEmplace env a.m_file_buffer_cache_map path
             (some ⟨a.heap_allocs, decodedFrom env (payloadRead a e) e a.heap_allocs⟩,
              e.uncompressed_size) })) ∨
    (¬ Decodes env (payloadRead a e) e a.heap_allocs ∧ e.compression_method = 8 ∧
      fetchEntry env a path e =
        ((none, 0),
         { a with
           m_obb_file := ((a.m_obb_file.seekg_beg (e.file_data_offset : Int)).read
             (List.replicate e.compressed_size 0) e.compressed_size).1
           heap_allocs := a.heap_allocs + 1
           heap_freed := a.heap_allocs :: a.heap_freed })) ∨
    (¬ Decodes env (payloadRead a e) e a.heap_allocs ∧ e.compression_method ≠ 8 ∧
      fetchEntry env a path e =
        ((none, 0),
         { a with
           m_obb_file := ((a.m_obb_file.seekg_beg (e.file_data_offset : Int)).read
             (List.replicate e.compressed_size 0) e.compressed_size).1 })) := by
  by_cases h0 : e.compression_method = 0
  · exact Or.inl ⟨Or.inl h0, fetchEntry_store_raw env a path e h0⟩
  · by_cases h8 : e.compression_method = 8
    · by_cases hok : env.inflateInit2 a.heap_allocs = Z_OK ∧
          (env.inflate (payloadRead a e) e.uncompressed_size).ret = Z_STREAM_END
      · refine Or.inl ⟨Or.inr ⟨h8, hok⟩, ?_⟩
        rw [fetchEntry_deflate env a path e h8]
        unfold payloadRead at hok
        rw [if_pos hok]
        unfold decodedFrom payloadRead
        rw [if_neg h0]
      · refine Or.inr (Or.inl ⟨?_, h8, ?_⟩)
        · intro hd
          rcases hd with hd | hd
          · exact h0 hd
          · exact hok hd.2
        · rw [fetchEntry_deflate env a path e h8]
          unfold payloadRead at hok
          rw [if_neg hok]
    · refine Or.inr (Or.inr ⟨?_, h8, fetchEntry_unsupported env a path e h0 h8⟩)
      intro hd
      rcases hd with hd | hd
      · exact h0 hd
      · exact h8 hd.1


theorem seekg_beg_frame (s : IFStream) (off : Int) :
    (s.seekg_beg off).reads = s.reads ∧ (s.seekg_beg off).contents = s.contents := by
  unfold IFStream.seekg_beg
  split
  · exact ⟨rfl, rfl⟩
  · split
    · exact ⟨rfl, rfl⟩
    · exact ⟨rfl, rfl⟩

theorem read_frame (s : IFStream) (dest : List Byte) (n : Nat) :
    (s.read dest n).1.reads = s.reads + 1 ∧ (s.read dest n).1.contents = s.contents := by
  unfold IFStream.read
  split
  · exact ⟨rfl, rfl⟩
  · exact ⟨rfl, rfl⟩

/-- Reading a payload that the file holds completely, on a stream that is not failed. -/
theorem payload_read_complete (s : IFStream) (off n : Nat) (hgood : s.failbit = false)
    (hlen : ((s.contents.drop off).take n).length = n) :
    (s.seekg_beg (off : Int)).read (List.replicate n 0) n =
      ({ s with pos := off + n, reads := s.reads + 1 }, (s.contents.drop off).take n) := by
  obtain ⟨d, o, p, f, r⟩ := s
  simp only at hgood hlen
  subst hgood
  rw [seekg_beg_good _ _ rfl]
  unfold IFStream.read
  simp only [Bool.false_eq_true, if_false]
  rw [overwrite_replicate _ _ hlen, hlen]
  simp

/-- When the stream is not failed after the payload was read, it was not failed before and
the payload was read completely. -/
theorem payload_read_good (s : IFStream) (off n : Nat)
    (h : ((s.seekg_beg (off : Int)).read (List.replicate n 0) n).1.failbit = false) :
    s.failbit = false ∧ ((s.contents.drop off).take n).length = n ∧
    ((s.seekg_beg (off : Int)).read (List.replicate n 0) n).2 = (s.contents.drop off).take n := by
  obtain ⟨d, o, p, f, r⟩ := s
  cases f with
  | true =>
    rw [seekg_beg_failed _ _ rfl, read_failed _ _ _ rfl] at h
    exact absurd h (by simp)
  | false =>
    have hlen : ((d.drop off).take n).length = n := by
      rw [seekg_beg_good _ _ rfl] at h
      unfold IFStream.read at h
      simp only [Bool.false_eq_true, if_false] at h
      have hle : ((d.drop off).take n).length ≤ n := by
        rw [List.length_take]; exact Nat.min_le_left _ _
      have : ¬ ((d.drop off).take n).length < n := by simpa using h
      omega
    refine ⟨rfl, hlen, ?_⟩
    rw [payload_read_complete _ off n rfl hlen]

/-- A call of `getFileBuffer` either leaves the archive as it was, or it misses the cache
on a valid archive, finds the entry and runs `fetchEntry`. -/
theorem getFileBuffer_cases (env : Env) (a : OBBArchive) (path : Path) :
    (∃ r : FileBuffer, getFileBuffer env a path = (r, a)) ∨
    (∃ e : ZipFileEntry, cacheFind env a.m_file_buffer_cache_map path = none ∧
      a.m_is_valid = true ∧ mapFind a.m_zip_entries path = some e ∧
      getFileBuffer env a path = fetchEntry env a path e) := by
  cases hc : cacheFind env a.m_file_buffer_cache_map path with
  | some v => exact Or.inl ⟨v, getFileBuffer_hit env a path v hc⟩
  | none =>
    cases hv : a.m_is_valid with
    | false => exact Or.inl ⟨(none, 0), getFileBuffer_invalid env a path hc hv⟩
    | true =>
      cases he : mapFind a.m_zip_entries path with
      | none => exact Or.inl ⟨(none, 0), getFileBuffer_absent env a path hc he⟩
      | some entry => exact Or.inr ⟨entry, rfl, rfl, rfl, getFileBuffer_miss env a path entry hc hv he⟩

theorem cachedAddrs_append (path : Path) (buf : Buffer) (n : Nat)
    (cache : List (Path × FileBuffer)) :
    List.filterMap (fun kv : Path × FileBuffer => kv.2.1.map Buffer.addr)
        (cache ++ [(path, (some buf, n))])
      = List.filterMap (fun kv : Path × FileBuffer => kv.2.1.map Buffer.addr) cache
        ++ [buf.addr] := by
  rw [List.filterMap_append]
  rfl


theorem heapInv_push (a b : OBBArchive) (h : HeapInv a)
    (hc : cachedAddrs b = cachedAddrs a ++ [a.heap_allocs])
    (hal : b.heap_allocs = a.heap_allocs + 1) (hf : b.heap_freed = a.heap_freed) :
    HeapInv b := by
  obtain ⟨hnd, hlt⟩ := h
  have hperm : (cachedAddrs b ++ b.heap_freed).Perm
      (a.heap_allocs :: (cachedAddrs a ++ a.heap_freed)) := by
    rw [hc, hf, List.append_assoc, List.singleton_append]
    exact List.perm_middle
  have hnew : a.heap_allocs ∉ cachedAddrs a ++ a.heap_freed :=
    fun hm => Nat.lt_irrefl _ (hlt _ hm)
  refine ⟨hperm.nodup_iff.2 (List.nodup_cons.2 ⟨hnew, hnd⟩), fun x hx => ?_⟩
  rw [hal]
  rcases List.mem_cons.1 (hperm.mem_iff.1 hx) with h1 | h1
  · omega
  · exact Nat.lt_succ_of_lt (hlt x h1)

theorem heapInv_free (a b : OBBArchive) (h : HeapInv a)
    (hc : cachedAddrs b = cachedAddrs a)
    (hal : b.heap_allocs = a.heap_allocs + 1)
    (hf : b.heap_freed = a.heap_allocs :: a.heap_freed) : HeapInv b := by
  obtain ⟨hnd, hlt⟩ := h
  have hperm : (cachedAddrs b ++ b.heap_freed).Perm
      (a.heap_allocs :: (cachedAddrs a ++ a.heap_freed)) := by
    rw [hc, hf]
    exact List.perm_middle
  have hnew : a.heap_allocs ∉ cachedAddrs a ++ a.heap_freed :=
    fun hm => Nat.lt_irrefl _ (hlt _ hm)
  refine ⟨hperm.nodup_iff.2 (List.nodup_cons.2 ⟨hnew, hnd⟩), fun x hx => ?_⟩
  rw [hal]
  rcases List.mem_cons.1 (hperm.mem_iff.1 hx) with h1 | h1
  · omega
  · exact Nat.lt_succ_of_lt (hlt x h1)

/-- The function `getFileBuffer` keeps the allocator's bookkeeping consistent. -/
theorem getFileBuffer_heapInv (env : Env) (a : OBBArchive) (path : Path) (h : HeapInv a) :
    HeapInv (getFileBuffer env a path).2 := by
  rcases getFileBuffer_cases env a path with ⟨r, hr⟩ | ⟨e, hc, _, _, hr⟩
  · rw [hr]; exact h
  · rw [hr]
    rcases fetchEntry_cases env a path e with ⟨_, hf⟩ | ⟨_, _, hf⟩ | ⟨_, _, hf⟩
    · rw [hf]
      refine heapInv_push a _ h ?_ rfl rfl
      show List.filterMap _ (cacheEmplace env a.m_file_buffer_cache_map path _) = _
      unfold cacheEmplace
      rw [hc]
      exact cachedAddrs_append path _ _ _
    · rw [hf]
      exact heapInv_free a _ h rfl rfl rfl
    · rw [hf]
      exact h

/-- The function `clearCache` keeps the allocator's bookkeeping consistent. -/
theorem clearCache_heapInv (a : OBBArchive) (h : HeapInv a) : HeapInv (clearCache a) := by
  obtain ⟨hnd, hlt⟩ := h
  have hperm : (cachedAddrs (clearCache a) ++ (clearCache a).heap_freed).Perm
      (cachedAddrs a ++ a.heap_freed) := by
    show ([] ++ ((cachedAddrs a).reverse ++ a.heap_freed)).Perm _
    rw [List.nil_append]
    exact (List.reverse_perm _).append_right _
  exact ⟨hperm.nodup_iff.2 hnd, fun x hx => hlt x (hperm.mem_iff.1 hx)⟩

/-- The constructor hands out no block and frees none. -/
theorem new_heap (env : Env) (disk : Option (List Byte)) :
    (OBBArchive.new env disk).heap_allocs = 0 ∧ (OBBArchive.new env disk).heap_freed = [] := by
  cases disk with
  | none => rw [new_none]; exact ⟨rfl, rfl⟩
  | some d =>
    have hf := findCentralDirectory_frame env (OBBArchive.opened d) (opened_failbit d)
    rcases hr : findCentralDirectory env (OBBArchive.opened d) with ⟨b, a2⟩
    rw [hr] at hf
    rw [new_of_find env d b a2 hr]
    cases b
    · exact ⟨hf.2.2.1, hf.2.2.2⟩
    · exact ⟨hf.2.2.1, hf.2.2.2⟩

/-- In every reachable state the allocator's bookkeeping is consistent. -/
theorem reachable_heapInv (env : Env) (disk : Option (List Byte)) (a : OBBArchive)
    (hr : Reachable env disk a) : HeapInv a := by
  induction hr with
  | constructed =>
    unfold HeapInv cachedAddrs
    rw [new_cache_empty, (new_heap env disk).2]
    exact ⟨List.nodup_nil, fun x hx => absurd hx (List.not_mem_nil x)⟩
  | fetched a path _ ih => exact getFileBuffer_heapInv env a path ih
  | cleared a _ ih => exact clearCache_heapInv a ih


theorem fetchEntry_stream (env : Env) (a : OBBArchive) (path : Path) (e : ZipFileEntry) :
    (fetchEntry env a path e).2.m_obb_file =
      ((a.m_obb_file.seekg_beg (e.file_data_offset : Int)).read
        (List.replicate e.compressed_size 0) e.compressed_size).1 := by
  rcases fetchEntry_cases env a path e with ⟨_, hf⟩ | ⟨_, _, hf⟩ | ⟨_, _, hf⟩
  · rw [hf]
  · rw [hf]
  · rw [hf]

/-- The function `getFileBuffer` keeps the cached buffers fresh. -/
theorem getFileBuffer_cacheFresh (env : Env) (a : OBBArchive) (path : Path)
    (h : CacheFresh env a) : CacheFresh env (getFileBuffer env a path).2 := by
  rcases getFileBuffer_cases env a path with ⟨r, hr⟩ | ⟨e, hc, _, he, hr⟩
  · rw [hr]; exact h
  · rw [hr]
    intro hgood' p v hp
    have hstream := fetchEntry_stream env a path e
    have hent : (fetchEntry env a path e).2.m_zip_entries = a.m_zip_entries :=
      (fetchEntry_frame env a path e).1
    rw [hstream] at hgood'
    obtain ⟨hgood, hlen, hdata⟩ := payload_read_good _ _ _ hgood'
    have hpay : payloadRead a e = payloadOf a.m_obb_file.contents e := hdata
    have hcont : (fetchEntry env a path e).2.m_obb_file.contents = a.m_obb_file.contents := by
      rw [hstream]
      exact (read_frame _ _ _).2.trans (seekg_beg_frame _ _).2
    rw [hcont, hent]
    rcases fetchEntry_cases env a path e with ⟨hd, hf⟩ | ⟨_, _, hf⟩ | ⟨_, _, hf⟩
    · rw [hf] at hp
      have hp' : (p, v) ∈ cacheEmplace env a.m_file_buffer_cache_map path
          (some ⟨a.heap_allocs, decodedFrom env (payloadRead a e) e a.heap_allocs⟩,
            e.uncompressed_size) := hp
      rw [cacheEmplace_miss env _ _ _ hc] at hp'
      rcases List.mem_append.1 hp' with hp' | hp'
      · exact h hgood p v hp'
      · rw [List.mem_singleton] at hp'
        have h1 : p = path := congrArg Prod.fst hp'
        have h2 : v = (some ⟨a.heap_allocs,
            decodedFrom env (payloadRead a e) e a.heap_allocs⟩, e.uncompressed_size) :=
          congrArg Prod.snd hp'
        subst h1
        refine ⟨e, a.heap_allocs, he, hlen, fun h8 => ?_, ?_⟩
        · rcases hd with hd | hd
          · rw [h8] at hd
            exact absurd hd (by decide)
          · rw [← hpay]
            exact hd.2.2
        · rw [← hpay]
          exact h2
    · rw [hf] at hp
      exact h hgood p v hp
    · rw [hf] at hp
      exact h hgood p v hp

/-- In every reachable state the cached buffers are fresh. -/
theorem reachable_cacheFresh (env : Env) (disk : Option (List Byte)) (a : OBBArchive)
    (hr : Reachable env disk a) : CacheFresh env a := by
  induction hr with
  | constructed =>
    intro _ p v hp
    rw [new_cache_empty] at hp
    exact absurd hp (List.not_mem_nil _)
  | fetched a path _ ih => exact getFileBuffer_cacheFresh env a path ih
  | cleared a _ _ =>
    intro _ p v hp
    exact absurd hp (List.not_mem_nil _)

/-- A buffer that the decoder writes completely does not depend on the block it is in. -/
theorem decodedFrom_addr (env : Env) (d : List Byte) (e : ZipFileEntry) (addr addr' : Nat)
    (h : FullyWritten env d e) :
    decodedFrom env (payloadOf d e) e addr = decodedFrom env (payloadOf d e) e addr' := by
  unfold decodedFrom
  rcases h with ⟨h0, _⟩ | ⟨h8, hout⟩
  · rw [if_pos h0, if_pos h0]
  · have h0 : ¬ e.compression_method = 0 := by rw [h8]; decide
    rw [if_neg h0, if_neg h0]
    unfold overwrite
    rw [List.take_append_of_le_length hout, List.take_append_of_le_length hout]


/-- C14, as the claim states it, fails on `truncatedPayloadFile`: the first
`getFileBuffer("a.txt")` returns `hello`; `getFileBuffer("z.txt")` then reads past the end of
the file, which leaves the stream failed for good; after `clearCache` the cache is empty
and `getFileBuffer("a.txt")` takes the miss path (the read counter advances), yet it
returns five zero bytes, neither what the first fetch returned nor what the freshly
constructed archive returns. It also fails on `looseDeflateFile`, where `inflate` writes 29
of the 40 bytes of the buffer: after `clearCache` the buffer is a new block and its last
11 bytes are what that block held. -/
theorem truncatedPayloadFile_refetch_differs :
    (OBBArchive.new zeroEnv (some truncatedPayloadFile)).isValid = true ∧
    (getFileBuffer zeroEnv (OBBArchive.new zeroEnv (some truncatedPayloadFile)) aTxt).1
      = (some ⟨0, bytesOf [104, 101, 108, 108, 111]⟩, 5) ∧
    truncatedPayloadFetched.m_obb_file.failbit = true ∧
    (aTxt, (some ⟨0, bytesOf [104, 101, 108, 108, 111]⟩, 5))
      ∈ truncatedPayloadFetched.m_file_buffer_cache_map ∧
    (clearCache truncatedPayloadFetched).m_file_buffer_cache_map = [] ∧
    (getFileBuffer zeroEnv (clearCache truncatedPayloadFetched) aTxt).1
      = (some ⟨2, bytesOf [0, 0, 0, 0, 0]⟩, 5) ∧
    (getFileBuffer zeroEnv (clearCache truncatedPayloadFetched) aTxt).2.m_obb_file.reads
      = truncatedPayloadFetched.m_obb_file.reads + 1 ∧
    (getFileBuffer addressedHeapEnv (OBBArchive.new addressedHeapEnv (some looseDeflateFile))
        bBin).1
      = (some ⟨0, worldText ++ List.replicate 11 1⟩, 40) ∧
    looseDeflateFetched.m_obb_file.failbit = false ∧
    (getFileBuffer addressedHeapEnv (clearCache looseDeflateFetched) bBin).1
      = (some ⟨1, worldText ++ List.replicate 11 2⟩, 40) := by
  decide!

/-- C14 (amended): in every state reached from construction by calls of `getFileBuffer` and
`clearCache`, `clearCache` leaves the cache empty and passes the address of each cached
buffer to `free` once: the freed addresses are those freed before together with those of
the cached buffers, each of the latter is among them exactly once, and no address is
among them twice. A `getFileBuffer(path)` that follows, for a path
that was a key of the cache with the value `(buf, n)`, takes the miss path: it seeks and
reads, and the read counter advances by one. For a stored entry it returns a buffer of the
same size `n`. It returns the same size and content as the first fetch when the stream has
not failed (no `read` has run past the end of the file), `inflateInit2` succeeds again for
a deflated entry, and the decoder writes all of the buffer (stored: `uncompressed_size <=
compressed_size`; deflated: `inflate` produces at least `uncompressed_size` bytes). -/
theorem clearCache_then_refetch (env : Env) (disk : Option (List Byte)) (a : OBBArchive)
    (path : Path) (buf : Buffer) (n : Nat) (e : ZipFileEntry) (hr : Reachable env disk a)
    (hcached : (path, (some buf, n)) ∈ a.m_file_buffer_cache_map)
    (hfind : mapFind a.m_zip_entries path = some e) :
    (clearCache a).m_file_buffer_cache_map = [] ∧
    (clearCache a).heap_freed.Perm (cachedAddrs a ++ a.heap_freed) ∧
    (clearCache a).heap_freed.Nodup ∧
    (∀ x, x ∈ cachedAddrs a → (clearCache a).heap_freed.count x = 1) ∧
    buf.addr ∈ cachedAddrs a ∧
    (getFileBuffer env (clearCache a) path).2.m_obb_file.reads = a.m_obb_file.reads + 1 ∧
    n = e.uncompressed_size ∧
    (e.compression_method = 0 →
      ∃ again : Buffer, (getFileBuffer env (clearCache a) path).1 = (some again, n)) ∧
    (a.m_obb_file.failbit = false →
      (e.compression_method = 8 → env.inflateInit2 a.heap_allocs = Z_OK) →
      FullyWritten env a.m_obb_file.contents e →
      (getFileBuffer env (clearCache a) path).1 = (some ⟨a.heap_allocs, buf.data⟩, n)) := by
  have hheap := clearCache_heapInv a (reachable_heapInv env disk a hr)
  have hnd : (clearCache a).heap_freed.Nodup := hheap.1
  have hvalid : a.m_is_valid = true := by
    cases hv : a.m_is_valid with
    | true => rfl
    | false =>
      have hnew : (OBBArchive.new env disk).m_is_valid = false := by
        rw [← (reachable_frame env disk a hr).1]
        exact hv
      rw [(reachable_invalid env disk a hnew hr).2.1] at hcached
      exact absurd hcached (List.not_mem_nil _)
  obtain ⟨e', _, he', hmethod, hval, _⟩ := reachable_cacheSound env disk a hr path _ hcached
  rw [hfind] at he'
  have hee : e = e' := Option.some.inj he'
  subst hee
  have hn : n = e.uncompressed_size := congrArg Prod.snd hval
  have hmiss : getFileBuffer env (clearCache a) path = fetchEntry env (clearCache a) path e :=
    getFileBuffer_miss env (clearCache a) path e rfl hvalid hfind
  refine ⟨rfl, ?_, hnd, fun x hx => ?_, ?_, ?_, hn, fun h0 => ?_,
    fun hgood hinit hfull => ?_⟩
  · show ((cachedAddrs a).reverse ++ a.heap_freed).Perm _
    exact (List.reverse_perm _).append_right _
  · refine List.count_eq_one_of_mem hnd ?_
    show x ∈ (cachedAddrs a).reverse ++ a.heap_freed
    exact List.mem_append.2 (Or.inl (List.mem_reverse.2 hx))
  · unfold cachedAddrs
    rw [List.mem_filterMap]
    exact ⟨(path, (some buf, n)), hcached, rfl⟩
  · rw [hmiss, fetchEntry_stream]
    exact (read_frame _ _ _).1.trans (congrArg (· + 1) (seekg_beg_frame _ _).1)
  · rw [hmiss, fetchEntry_store_raw env (clearCache a) path e h0, hn]
    exact ⟨_, rfl⟩
  · obtain ⟨e', addr, he', hlen, hret, hval'⟩ :=
      reachable_cacheFresh env disk a hr hgood path _ hcached
    rw [hfind] at he'
    have hee : e = e' := Option.some.inj he'
    subst hee
    have hread := payload_read_complete a.m_obb_file e.file_data_offset e.compressed_size
      hgood hlen
    have hpay : payloadRead (clearCache a) e = payloadOf a.m_obb_file.contents e :=
      congrArg Prod.snd hread
    have hbuf : buf.data = decodedFrom env (payloadOf a.m_obb_file.contents e) e addr := by
      have h1 : (some buf : Option Buffer) = some ⟨addr, _⟩ := congrArg Prod.fst hval'
      rw [Option.some.inj h1]
    rw [hmiss]
    rcases fetchEntry_cases env (clearCache a) path e with ⟨_, hf⟩ | ⟨hnot, h8, _⟩ | ⟨hnot, _, _⟩
    · rw [hf, hpay, hbuf, hn,
        decodedFrom_addr env a.m_obb_file.contents e addr (clearCache a).heap_allocs hfull]
      rfl
    · exfalso
      apply hnot
      rw [hpay]
      exact Or.inr ⟨h8, hinit h8, hret h8⟩
    · exfalso
      apply hnot
      rcases hmethod with h0 | h8
      · exact Or.inl h0
      · rw [hpay]
        exact Or.inr ⟨h8, hinit h8, hret h8⟩

theorem clearCache_then_refetch_witness :
    (clearCache (getFileBuffer zlibEnv (OBBArchive.new zlibEnv (some sampleFile)) bBin).2).heap_freed
      = [0] ∧
    (getFileBuffer zlibEnv
      (clearCache (getFileBuffer zlibEnv (OBBArchive.new zlibEnv (some sampleFile)) bBin).2)
      bBin).2.m_obb_file.reads
      = (getFileBuffer zlibEnv (OBBArchive.new zlibEnv (some sampleFile)) bBin).2.m_obb_file.reads
        + 1 ∧
    (getFileBuffer zlibEnv
      (clearCache (getFileBuffer zlibEnv (OBBArchive.new zlibEnv (some sampleFile)) bBin).2)
      bBin).1 = (some ⟨1, worldText⟩, 29) :=
  have h := clearCache_then_refetch zlibEnv (some sampleFile)
    (getFileBuffer zlibEnv (OBBArchive.new zlibEnv (some sampleFile)) bBin).2 bBin
    ⟨0, worldText⟩ 29
    { filename := bBin, compressed_size := 11, uncompressed_size := 29
      crc32 := 0x2ce741f3, compression_method := 8, file_data_offset := 75 }
    (Reachable.fetched _ bBin Reachable.constructed) (by decide!) (by decide!)
  ⟨by decide!, h.2.2.2.2.2.1,
   (h.2.2.2.2.2.2.2.2 (by decide!) (fun _ => rfl) (Or.inr ⟨rfl, by decide!⟩)).trans
     (by decide!)⟩

end Arieo
